import Mathlib

/-!
The javascript protocol request of the scanner: compile, count, execute; the
signing of a template; and the SMBGhost probe.

A shallow embedding of `v2/pkg/protocols/javascript/js.go` (namespace `Javascript`), of
the method `Sign` of `v2/pkg/templates/signer/tmpl_signer.go` (namespace `Signer`) and of
the method `DetectSMBGhost` of `v2/pkg/js/libs/smb/smbghost.go` (namespace `Smb`).

* Go maps (`map[string]interface{}`) are association lists without an order
  guarantee of their own; `GoMap.set` replaces the entry of a key or adds it.
* The progress sink, the caller's callback, the interpreter and the out-of-band
  client are collaborators; what the engine does to them is recorded in `State`
  (counters and logs), what they answer is a field of `Env`.
* A Go run-time panic is the `Except.error` case of a result; an `error` value
  returned by a Go function is an `Option String` inside the result.
-/

namespace Javascript

/-! ## Values, strings and maps -/

/-- Values of Go type `interface{}` found in argument, payload and result maps. -/
inductive Value where
  | str (s : String)
  | int (n : Int)
  | bool (b : Bool)
  | null
  | list (xs : List String)
  deriving DecidableEq, Repr

/-- A Go `map[string]interface{}`; the nil map and the empty map are both `[]`. -/
abbrev GoMap := List (String × Value)

/-- Lookup `m[k]` with the comma-ok flag folded into the option. -/
def GoMap.get (m : GoMap) (k : String) : Option Value :=
  List.lookup k m

/-- Membership test `_, ok := m[k]`. -/
def GoMap.has (m : GoMap) (k : String) : Bool :=
  (m.get k).isSome

/-- Assignment `m[k] = v`: the entry of `k` is replaced, or added when absent. -/
def GoMap.set : GoMap → String → Value → GoMap
  | [], k, v => [(k, v)]
  | (k', v') :: rest, k, v =>
    if k' = k then (k, v) :: rest else (k', v') :: GoMap.set rest k v

/-- The loop `for k, v := range src { dst[k] = v }`. -/
def GoMap.setAll (dst src : GoMap) : GoMap :=
  src.foldl (fun acc kv => acc.set kv.1 kv.2) dst

/-- Modelled from the spec: the function `generators.MergeMaps`, which is not among the
sources. The spec makes a scope "an ordered-merge mapping from name to value" in which
"later sources override earlier ones within a single merge call": one fresh map
receives every entry of the operands in turn. -/
def MergeMaps (maps : List GoMap) : GoMap :=
  maps.foldl GoMap.setAll []

/-- Whether `p` is an initial segment of the first list. -/
def startsWithChars : List Char → List Char → Bool
  | _, [] => true
  | [], _ :: _ => false
  | c :: cs, p :: ps => c == p && startsWithChars cs ps

/-- Whether `sub` occurs in the first list. -/
def containsChars : List Char → List Char → Bool
  | [], sub => sub.isEmpty
  | c :: cs, sub => startsWithChars (c :: cs) sub || containsChars cs sub

/-- The function `strings.Contains`. -/
def Contains (s sub : String) : Bool :=
  containsChars s.data sub.data

/-- The representative of a character under the simple case folding of Unicode, for
the characters whose folding meets ASCII: an ASCII capital is its small letter, and
the long s (U+017F) and the Kelvin sign (U+212A), the only characters outside ASCII
that fold to an ASCII letter, are `s` and `k`. -/
def foldChar (c : Char) : Char :=
  if c.toNat = 383 then 's' else if c.toNat = 8490 then 'k' else c.toLower

/-- The function `strings.EqualFold`, for operands one of which is ASCII (the engine
compares with `Port` and `exclude-ports`): there it is the equality of the folded
characters. On other operands, strings equal here are equal under Unicode folding as
well, so keys unique up to Unicode case are unique up to this one. -/
def EqualFold (s t : String) : Bool :=
  s.data.map foldChar == t.data.map foldChar

/-! ## Operators, events, iterators -/

/-- The closed enumeration of matcher kinds. -/
inductive MatcherType where
  | WordsMatcher
  | RegexMatcher
  | BinaryMatcher
  | StatusMatcher
  | SizeMatcher
  | DSLMatcher
  | XPathMatcher
  deriving DecidableEq, Repr

/-- A matcher: the part it inspects, its kind, and the rest of its declaration. -/
structure Matcher where
  Part : String
  MType : MatcherType
  body : String
  deriving DecidableEq, Repr

/-- An extractor, kept as its declaration. -/
structure Extractor where
  body : String
  deriving DecidableEq, Repr

/-- The struct `operators.Operators` as far as the request touches it. -/
structure Operators where
  Matchers : List Matcher
  Extractors : List Extractor
  ExcludeMatchers : List String
  TemplateID : String
  deriving DecidableEq, Repr

/-- The struct `operators.Result` as far as the request touches it. -/
structure OperatorsResult where
  Matched : Bool
  Extracted : Bool
  OutputExtracts : List String
  PayloadValues : GoMap
  deriving DecidableEq, Repr

/-- The struct `output.InternalWrappedEvent`. -/
structure InternalWrappedEvent where
  InternalEvent : GoMap
  OperatorsResult : Option OperatorsResult
  UsesInteractsh : Bool
  deriving DecidableEq, Repr

/-- The test `result.OperatorsResult != nil && result.OperatorsResult.Matched`. -/
def InternalWrappedEvent.isMatched (e : InternalWrappedEvent) : Bool :=
  match e.OperatorsResult with
  | some res => res.Matched
  | none => false

/-- Modelled from the spec: the payload generator of package `generators`, which is
not among the sources. The spec makes its iterator "a lazy, finite sequence of value
sets" that "reports the total count" and "produces exactly total() distinct value
sets and then signals exhaustion"; the generator is that sequence. -/
structure PayloadGenerator where
  sets : List GoMap
  deriving DecidableEq, Repr

/-- Modelled from the spec: a forward-only cursor over the generator's sequence. -/
structure Iterator where
  remaining : List GoMap
  deriving DecidableEq, Repr

/-- A fresh iterator: `generator.NewIterator()`. -/
def PayloadGenerator.NewIterator (g : PayloadGenerator) : Iterator :=
  ⟨g.sets⟩

/-- The total an iterator reports: `iterator.Total()`. -/
def Iterator.Total (it : Iterator) : Nat :=
  it.remaining.length

/-- The call `iterator.Value()`: the next value set and the advanced cursor, or
nothing once exhausted. The dispatch loops below recurse on `remaining`, one step
for each such call. -/
def Iterator.Value (it : Iterator) : Option (GoMap × Iterator) :=
  match it.remaining with
  | [] => none
  | v :: rest => some (v, ⟨rest⟩)

/-! ## The request and its environment -/

/-- The struct `Request` of the javascript protocol. -/
structure Request where
  Operators : Operators
  CompiledOperators : Option Javascript.Operators
  ID : String
  Init : String
  PreCondition : String
  Args : GoMap
  Code : String
  StopAtFirstMatch : Bool
  AttackType : String
  Threads : Int
  Payloads : GoMap
  generator : Option PayloadGenerator

/-- The arguments of one interpreter call: `compiler.ExecuteArgs`. -/
structure ExecuteArgs where
  Args : GoMap
  TemplateCtx : GoMap
  deriving DecidableEq, Repr

/-- What an init script does, seen from the two functions registered for it: it
ends with the interpreter's answer, or calls `set` or `updatePayload` and goes on
knowing whether that call returned an error. -/
inductive InitRun where
  | done (result : Except String GoMap)
  | set (varname : String) (value : Value) (next : Bool → InitRun)
  | updatePayload (varname : String) (value : Value) (next : Bool → InitRun)

/-- The flags of `types.Options` the request reads. -/
structure Options where
  Debug : Bool
  DebugRequests : Bool
  DebugResponse : Bool
  StoreResponse : Bool
  StopAtFirstMatch : Bool
  AttackType : String

/-- The out-of-band client `interactsh.Client`: `Replace` substitutes placeholders in
the probe body and lists the identifiers it generated, `MakePlaceholders` adds them
to the outcome data. -/
structure InteractshClient where
  Replace : String → String × List String
  MakePlaceholders : List String → GoMap → GoMap

/-- The input of one target after `Clone` and `UseNetworkPort`: the input string
`MetaInput.Input` and the resolved network port `Port()`. -/
structure Target where
  Input : String
  Port : String
  deriving DecidableEq, Repr

/-- The executor options and every collaborator whose code is outside the sources,
each taken as given. -/
structure Env where
  Options : Options
  StopAtFirstMatch : Bool
  TemplateID : String
  TemplatePath : String
  TemplateInfo : Value
  ExcludeMatchers : List String
  Constants : GoMap
  /-- The call `generators.New(payloads, attackType, ...)`: generator and error. -/
  generatorsNew : GoMap → String → Option PayloadGenerator × Option String
  /-- The call `compiled.Compile()` of the operators: its error, if any. -/
  operatorsCompile : Operators → Option String
  /-- The call `compiledOperator.Execute(data, match, extract, debug)`. -/
  operatorsExecute : Operators → GoMap → Option OperatorsResult
  /-- The rendering `types.ToString` gives a value that is neither nil nor a string. -/
  render : Value → String
  /-- The call `expressions.Evaluate(value, scope)`. -/
  exprEvaluate : String → GoMap → Except String String
  /-- The call `JsCompiler.ExecuteWithOptions` for a precondition or a probe body. -/
  jsExecute : String → ExecuteArgs → Except String GoMap
  /-- The call `JsCompiler.ExecuteWithOptions` for an init script. -/
  jsInit : String → ExecuteArgs → InitRun
  Interactsh : Option InteractshClient
  /-- The call `AddTemplateVars`: the template context after it, from the context
  before, the request id and the outcome data. -/
  addTemplateVars : GoMap → String → GoMap → GoMap
  /-- The call `Variables.Evaluate(values)`. -/
  variablesEvaluate : GoMap → GoMap
  /-- The call `Variables.GetAll()`. -/
  variablesGetAll : GoMap
  /-- The call `Options.Vars.AsMap()`. -/
  varsAsMap : GoMap
  /-- The call `generators.BuildPayloadFromOptions(options)`. -/
  buildPayloadFromOptions : GoMap
  /-- The call `protocolutils.GenerateDNSVariables(hostname)`. -/
  generateDNSVariables : String → GoMap
  /-- The call `jsbeautifier.Beautify` inside `beautifyJavascript`: none on error. -/
  beautify : String → Option String
  /-- The calls `target.Clone()` and `input.UseNetworkPort(port, excludePorts)`. -/
  useNetworkPort : Target → String → String → Target
  /-- The call `urlutil.Parse(input)` reduced to the host it finds: none on error. -/
  urlParseHost : String → Option String
  /-- The call `net.SplitHostPort(hostPort)`: host and port, both empty on error. -/
  splitHostPort : String → String × String

/-- The function `types.ToString`: nil is the empty string, a string is itself. -/
def ToString (env : Env) : Value → String
  | .null => ""
  | .str s => s
  | v => env.render v

/-- The expression `types.ToString(m[k])`, a missing key reading as nil. -/
def ToStringAt (env : Env) (m : GoMap) (k : String) : String :=
  match m.get k with
  | none => ""
  | some v => ToString env v

/-- One interpreter call made for a probe: the value set it was made for, the body
handed over and the arguments. -/
structure ProbeCall where
  payload : GoMap
  code : String
  args : ExecuteArgs
  deriving DecidableEq, Repr

/-- An out-of-band registration: `Interactsh.RequestEvent(urls, data)`. -/
structure Registration where
  urls : List String
  event : InternalWrappedEvent
  deriving DecidableEq, Repr

/-- Everything a run on one target changes: the three progress counters, the events
given to the caller's callback (oldest first), the probes issued (oldest first), the
out-of-band registrations, the template context of the target, the number of value
sets taken from payload iterators, and the flag `gotMatches` of the dispatch loop. -/
structure State where
  requests : Nat
  failedRequests : Nat
  matched : Nat
  events : List InternalWrappedEvent
  probes : List ProbeCall
  registrations : List Registration
  templateCtx : GoMap
  pulls : Nat
  gotMatches : Bool
  deriving DecidableEq, Repr

/-- The number of events with a positive match result given to the callback. -/
def State.matchedEvents (st : State) : Nat :=
  (st.events.filter InternalWrappedEvent.isMatched).length

/-! ## Arguments -/

/-- The method `getPort`: the string of the first argument whose key is `Port`
ignoring case, the empty string when there is none. -/
def getPort (env : Env) (request : Request) : String :=
  match request.Args.find? (fun kv => EqualFold kv.1 "Port") with
  | some kv => ToString env kv.2
  | none => ""

/-- The method `getExcludePorts`. -/
def getExcludePorts (env : Env) (request : Request) : String :=
  match request.Args.find? (fun kv => EqualFold kv.1 "exclude-ports") with
  | some kv => ToString env kv.2
  | none => ""

/-- The loop of `evaluateArgs` over the arguments still to visit, `argsCopy` being
the copy built so far. An evaluation error ends it with the error and no map. -/
def evaluateArgsLoop (env : Env) (payloadValues : GoMap) (ignoreErrors : Bool) :
    GoMap → GoMap → Except String GoMap
  | [], argsCopy => .ok argsCopy
  | (k, v) :: rest, argsCopy =>
    match v with
    | .str vVal =>
      if Contains vVal "\x7b" then
        match env.exprEvaluate vVal payloadValues with
        | .error dataErr => .error ("could not evaluate template expressions: " ++ dataErr)
        | .ok finalAddress =>
          if finalAddress = vVal ∧ ignoreErrors = true then
            evaluateArgsLoop env payloadValues ignoreErrors rest (argsCopy.set k (.str ""))
          else
            evaluateArgsLoop env payloadValues ignoreErrors rest (argsCopy.set k (.str finalAddress))
      else
        evaluateArgsLoop env payloadValues ignoreErrors rest (argsCopy.set k v)
    | _ => evaluateArgsLoop env payloadValues ignoreErrors rest (argsCopy.set k v)

/-- The method `evaluateArgs`: `.ok` is the pair (copy, nil), `.error` the pair
(nil map, error). -/
def evaluateArgs (env : Env) (request : Request) (payloadValues : GoMap)
    (ignoreErrors : Bool) : Except String GoMap :=
  evaluateArgsLoop env payloadValues ignoreErrors request.Args []

/-- The method `getArgsCopy`. Its returned error is always nil, so the result is the
argument set alone. When `evaluateArgs` fails the method counts a failed request and
then assigns `argsCopy["Port"]` on the nil map it was given: a run-time panic, the
`.error` case here. -/
def getArgsCopy (env : Env) (request : Request) (input : Target) (payloadValues : GoMap)
    (ignoreErrors : Bool) : Except String ExecuteArgs :=
  match evaluateArgs env request payloadValues ignoreErrors with
  | .error _ => .error "panic: assignment to entry in nil map"
  | .ok argsCopy => .ok ⟨argsCopy.set "Port" (.str input.Port), []⟩

/-! ## Compile and Requests -/

/-- The default of the compile loop over matchers: an empty part becomes `response`
unless the matcher is of the DSL kind. -/
def defaultPart (matcher : Matcher) : Matcher :=
  if matcher.Part = "" ∧ matcher.MType ≠ MatcherType.DSLMatcher then
    { matcher with Part := "response" }
  else matcher

/-- The init script at work: each call of `set` and `updatePayload` is served as the
two registered functions serve it, and the script is told whether it failed. -/
def runInit (env : Env) : InitRun → Request → Request × Except String GoMap
  | .done result, request => (request, result)
  | .set varname value next, request =>
    if varname = "" then runInit env (next true) request
    else if value = Value.null then runInit env (next true) request
    else runInit env (next false) { request with Args := request.Args.set varname value }
  | .updatePayload varname value next, request =>
    match request.generator with
    | some _ =>
      let payloads := request.Payloads.set varname value
      let built := env.generatorsNew payloads request.AttackType
      runInit env (next built.2.isSome)
        { request with Payloads := payloads, generator := built.1 }
    | none => runInit env (next true) request

/-- The init phase of `Compile`, entered when an init script is declared. -/
def compileInit (env : Env) (request : Request) : Request × Option String :=
  let allVars := MergeMaps [env.variablesGetAll, env.varsAsMap, env.Constants]
  let args : ExecuteArgs :=
    ⟨match evaluateArgs env request allVars true with
      | .ok a => a
      | .error _ => [], []⟩
  match runInit env (env.jsInit request.Init args) request with
  | (request, .error err) => (request, some ("could not execute pre-condition: " ++ err))
  | (request, .ok _) => (request, none)

/-- The part of `Compile` after the operators: the check of the `Port` argument and
the init phase. -/
def compilePortAndInit (env : Env) (request : Request) : Request × Option String :=
  if Contains (getPort env request) "\x7b\x7b" then
    (request, some "'Port' variable cannot contain any dsl expressions")
  else if request.Init ≠ "" then compileInit env request
  else (request, none)

/-- The operators of the request as `Compile` prepares them before compiling them. -/
def prepareOperators (env : Env) (request : Request) : Operators :=
  { request.Operators with
    ExcludeMatchers := env.ExcludeMatchers
    TemplateID := env.TemplateID
    Matchers := request.Operators.Matchers.map defaultPart }

/-- The part of `Compile` after the payloads: the operators, then the rest. -/
def compileOperators (env : Env) (request : Request) : Request × Option String :=
  if request.Operators.Matchers.length > 0 ∨ request.Operators.Extractors.length > 0 then
    let compiled : Operators := prepareOperators env request
    let request := { request with Operators := compiled }
    match env.operatorsCompile compiled with
    | some err => (request, some ("could not compile operators got " ++ err))
    | none => compilePortAndInit env { request with CompiledOperators := some compiled }
  else compilePortAndInit env request

/-- The method `Compile`: the request as it leaves the call (Go changes it in place)
and the returned error. -/
def Compile (env : Env) (request : Request) : Request × Option String :=
  if request.Payloads.length > 0 then
    let built := env.generatorsNew request.Payloads request.AttackType
    let request := { request with generator := built.1 }
    match built.2 with
    | some err => (request, some ("could not parse payloads: " ++ err))
    | none => compileOperators env request
  else compileOperators env request

/-- The method `Requests`. -/
def Requests (request : Request) : Nat :=
  let pre_conditions := if request.PreCondition ≠ "" then 1 else 0
  match request.generator with
  | some generator =>
    let payloadRequests := generator.NewIterator.Total
    payloadRequests + pre_conditions
  | none => 1 + pre_conditions

/-! ## One probe -/

/-- The function `beautifyJavascript`. -/
def beautifyJavascript (env : Env) (code : String) : String :=
  match env.beautify code with
  | some beautified => beautified
  | none => code

/-- The function `getAddress`: the host of the parsed input, or the input itself when
parsing fails; the error it returns is nil on both paths. -/
def getAddress (env : Env) (toTest : String) : String × Option String :=
  match env.urlParseHost toTest with
  | none => (toTest, none)
  | some host => (host, none)

/-- The caller's callback, known to the engine only as something to call: the event
joins the log of events it received. -/
def forward (event : InternalWrappedEvent) (st : State) : State :=
  { st with events := st.events ++ [event] }

/-- Modelled from the spec: `eventcreator.CreateEventWithAdditionalOptions`, which is
not among the sources. The spec has the event built "using whatever matchers are
compiled": the event carries the data, and the result of the compiled operators on
that data when there are compiled operators and they produce one; the function
passed at both call sites then stores the payload in that result. -/
def CreateEventWithAdditionalOptions (env : Env) (request : Request) (outputEvent : GoMap)
    (payload : GoMap) : InternalWrappedEvent :=
  match request.CompiledOperators with
  | none => ⟨outputEvent, none, false⟩
  | some compiledOperator =>
    match env.operatorsExecute compiledOperator outputEvent with
    | none => ⟨outputEvent, none, false⟩
    | some result => ⟨outputEvent, some { result with PayloadValues := payload }, false⟩

/-- The body handed to the interpreter and the out-of-band identifiers generated for
it: the code itself and none without an out-of-band client. -/
def probeBody (env : Env) (request : Request) : String × List String :=
  match env.Interactsh with
  | some client => client.Replace request.Code
  | none => (request.Code, [])

/-- The interpreter's answer as `executeRequestWithPayloads` takes it: on failure the
results are replaced by a map with `success` false and the error text. -/
def probeResults (answer : Except String GoMap) : GoMap × Option String :=
  match answer with
  | .ok results => (results, none)
  | .error err => ([("success", .bool false), ("error", .str err)], some err)

/-- The outcome data of a probe before the template context is consulted. -/
def probeData (env : Env) (request : Request) (hostPort : String) (input : Target)
    (payloadValues results : GoMap) : GoMap :=
  let data : GoMap := GoMap.setAll [] payloadValues
  let data := data.set "type" (.str "javascript")
  let data := data.setAll results
  let data := data.set "request" (.str (beautifyJavascript env request.Code))
  let data := data.set "host" (.str input.Input)
  let data := data.set "matched" (.str hostPort)
  let data := data.set "template-path" (.str env.TemplatePath)
  let data := data.set "template-id" (.str env.TemplateID)
  let data := data.set "template-info" env.TemplateInfo
  if request.StopAtFirstMatch ∨ env.StopAtFirstMatch then
    data.set "stop-at-first-match" (.bool true)
  else data

/-- The outcome routing at the end of `executeRequestWithPayloads`, from the final
outcome data on: the returned error and the state. -/
def routeOutcome (env : Env) (request : Request) (payload payloadValues data : GoMap)
    (interactshURLs : List String) (err : Option String)
    (callback : InternalWrappedEvent → State → State) (st : State) : Option String × State :=
  if data.has "error" then
    let event := CreateEventWithAdditionalOptions env request (MergeMaps [data, payloadValues]) payload
    (err, callback event st)
  else
    let data := match env.Interactsh with
      | some client => client.MakePlaceholders interactshURLs data
      | none => data
    if interactshURLs.length = 0 then
      let event := CreateEventWithAdditionalOptions env request (MergeMaps [data, payloadValues]) payload
      (none, callback event st)
    else
      match env.Interactsh with
      | some _ =>
        (none, { st with registrations :=
            st.registrations ++
            [Registration.mk interactshURLs (InternalWrappedEvent.mk data none true)] })
      | none => (none, st)

/-- The final outcome data of a probe and the template context after the probe has
exported its variables: the data receive the template context last. -/
def outcomeData (env : Env) (request : Request) (hostPort : String) (input : Target)
    (payloadValues results templateCtx : GoMap) : GoMap × GoMap :=
  let data := probeData env request hostPort input payloadValues results
  let templateCtx := env.addTemplateVars templateCtx request.ID data
  (MergeMaps [data, templateCtx], templateCtx)

/-- The method `executeRequestWithPayloads`: one probe. The result is the returned
error and the state, or `.error` when `getArgsCopy` panics. Debug dumps and log lines
are left out. -/
def executeRequestWithPayloads (env : Env) (request : Request) (hostPort : String)
    (input : Target) (_hostname : String) (payload previous : GoMap)
    (callback : InternalWrappedEvent → State → State) (st : State) :
    Except String (Option String × State) :=
  let payloadValues := MergeMaps [payload, previous]
  match getArgsCopy env request input payloadValues false with
  | .error p => .error p
  | .ok argsCopy =>
    let argsCopy : ExecuteArgs := { argsCopy with TemplateCtx := st.templateCtx }
    let body := probeBody env request
    let answer := probeResults (env.jsExecute body.1 argsCopy)
    let st := { st with requests := st.requests + 1,
                        probes := st.probes ++ [ProbeCall.mk payload body.1 argsCopy] }
    let outcome := outcomeData env request hostPort input payloadValues answer.1 st.templateCtx
    let st := { st with templateCtx := outcome.2 }
    .ok (routeOutcome env request payload payloadValues outcome.1 body.2 answer.2 callback st)

/-! ## Dispatch -/

/-- The flag `shouldStopAtFirstMatch` of both dispatch loops. -/
def shouldStopAtFirstMatch (env : Env) (request : Request) : Bool :=
  env.Options.StopAtFirstMatch || request.StopAtFirstMatch

/-- The callback the sequential loop hands to each probe: a matched event sets
`gotMatches` and counts a match, and every event goes on to the caller. -/
def sequentialCallback (callback : InternalWrappedEvent → State → State)
    (result : InternalWrappedEvent) (st : State) : State :=
  if result.isMatched then
    callback result { st with gotMatches := true, matched := st.matched + 1 }
  else callback result st

/-- The sequential loop of `ExecuteWithResults` over what the iterator still holds:
each step takes one value set, runs one probe, drops the probe's error, and returns
when a match has been seen and the run stops at the first match. -/
def sequentialLoop (env : Env) (request : Request) (hostPort : String) (input : Target)
    (hostname : String) (payloadValues : GoMap)
    (callback : InternalWrappedEvent → State → State) : List GoMap → State → Except String State
  | [], st => .ok st
  | value :: rest, st =>
    match executeRequestWithPayloads env request hostPort input hostname value payloadValues
        (sequentialCallback callback) { st with pulls := st.pulls + 1 } with
    | .error p => .error p
    | .ok (_, st) =>
      if shouldStopAtFirstMatch env request && st.gotMatches then .ok st
      else sequentialLoop env request hostPort input hostname payloadValues callback rest st

/-- The callback a parallel worker hands to its probe: a matched event stores true in
the shared flag, and every event goes on to the caller. -/
def parallelCallback (callback : InternalWrappedEvent → State → State)
    (result : InternalWrappedEvent) (st : State) : State :=
  if result.isMatched then callback result { st with gotMatches := true }
  else callback result st

/-- A worker goroutine of the parallel strategy: its value set, and whether it has
passed the check of the cancellation signal. -/
structure Worker where
  value : GoMap
  started : Bool
  deriving DecidableEq, Repr

/-- The parallel strategy in flight: what the iterator still holds, the workers
holding a slot of the pool, the cancellation signal, and the state of the run. -/
structure ParState where
  iterator : List GoMap
  workers : List Worker
  cancelled : Bool
  st : State
  deriving DecidableEq, Repr

/-- The moves of an interleaving: the dispatcher takes a value set and starts a worker
when the pool has room; worker `i` of the pool checks the cancellation signal; worker
`i` runs its probe and, after it, cancels when a match has been seen and the run
stops at the first match. -/
inductive Action where
  | spawn
  | check (i : Nat)
  | run (i : Nat)
  deriving DecidableEq, Repr

/-- What a worker does from its probe to its end. -/
def workerRun (env : Env) (request : Request) (hostPort : String) (input : Target)
    (hostname : String) (payloadValues : GoMap)
    (callback : InternalWrappedEvent → State → State) (value : GoMap) (cancelled : Bool)
    (st : State) : Except String (Bool × State) :=
  match executeRequestWithPayloads env request hostPort input hostname value payloadValues
      (parallelCallback callback) st with
  | .error p => .error p
  | .ok (_, st) => .ok (cancelled || (shouldStopAtFirstMatch env request && st.gotMatches), st)

/-- One move of an interleaving; a move that is not possible changes nothing. -/
def parStep (env : Env) (request : Request) (hostPort : String) (input : Target)
    (hostname : String) (payloadValues : GoMap)
    (callback : InternalWrappedEvent → State → State) (limit : Nat) :
    Action → ParState → Except String ParState
  | .spawn, ps =>
    match ps.iterator with
    | [] => .ok ps
    | value :: rest =>
      if ps.workers.length < limit then
        .ok { ps with iterator := rest, workers := ps.workers ++ [⟨value, false⟩],
                      st := { ps.st with pulls := ps.st.pulls + 1 } }
      else .ok ps
  | .check i, ps =>
    match ps.workers.get? i with
    | none => .ok ps
    | some w =>
      if w.started then .ok ps
      else if ps.cancelled then .ok { ps with workers := ps.workers.eraseIdx i }
      else .ok { ps with workers := ps.workers.set i { w with started := true } }
  | .run i, ps =>
    match ps.workers.get? i with
    | none => .ok ps
    | some w =>
      if w.started then
        match workerRun env request hostPort input hostname payloadValues callback w.value
            ps.cancelled ps.st with
        | .error p => .error p
        | .ok (cancelled, st) =>
          .ok { ps with workers := ps.workers.eraseIdx i, cancelled := cancelled, st := st }
      else .ok ps

/-- The moves of a schedule, one after the other. -/
def runSchedule (env : Env) (request : Request) (hostPort : String) (input : Target)
    (hostname : String) (payloadValues : GoMap)
    (callback : InternalWrappedEvent → State → State) (limit : Nat) :
    List Action → ParState → Except String ParState
  | [], ps => .ok ps
  | a :: rest, ps =>
    match parStep env request hostPort input hostname payloadValues callback limit a ps with
    | .error p => .error p
    | .ok ps => runSchedule env request hostPort input hostname payloadValues callback limit rest ps

/-- The workers in flight run to their end, one after the other. -/
def drainWorkers (env : Env) (request : Request) (hostPort : String) (input : Target)
    (hostname : String) (payloadValues : GoMap)
    (callback : InternalWrappedEvent → State → State) :
    List Worker → Bool → State → Except String (Bool × State)
  | [], cancelled, st => .ok (cancelled, st)
  | w :: rest, cancelled, st =>
    if w.started = false ∧ cancelled = true then
      drainWorkers env request hostPort input hostname payloadValues callback rest cancelled st
    else
      match workerRun env request hostPort input hostname payloadValues callback w.value
          cancelled st with
      | .error p => .error p
      | .ok (cancelled, st) =>
        drainWorkers env request hostPort input hostname payloadValues callback rest cancelled st

/-- The value sets the iterator still holds are taken one after the other, each by a
worker that runs to its end before the next one starts. -/
def drainIterator (env : Env) (request : Request) (hostPort : String) (input : Target)
    (hostname : String) (payloadValues : GoMap)
    (callback : InternalWrappedEvent → State → State) :
    List GoMap → Bool → State → Except String (Bool × State)
  | [], cancelled, st => .ok (cancelled, st)
  | value :: rest, cancelled, st =>
    if cancelled then
      drainIterator env request hostPort input hostname payloadValues callback rest cancelled
        { st with pulls := st.pulls + 1 }
    else
      match workerRun env request hostPort input hostname payloadValues callback value
          cancelled { st with pulls := st.pulls + 1 } with
      | .error p => .error p
      | .ok (cancelled, st) =>
        drainIterator env request hostPort input hostname payloadValues callback rest cancelled st

/-- The capacity `sizedwaitgroup.New(threads)` gives the pool: `threads` when
positive, else the largest 32-bit integer. -/
def poolLimit (threads : Int) : Nat :=
  if threads > 0 then threads.toNat else 2147483647

/-- The method `executeRequestParallel` under one interleaving of dispatcher and
workers. A worker has two steps here, the check of the cancellation signal and the
probe with what follows it; `poolStep` takes the second apart. The moves of `sched`
are made first; then the run is completed: the workers in flight finish in pool order,
and the rest of the iterator is served one worker at a time. Every interleaving of
these steps is the run of some schedule. After the pool has drained, one match is
counted if the flag is set. -/
def executeRequestParallel (env : Env) (request : Request) (hostPort hostname : String)
    (input : Target) (payloadValues : GoMap)
    (callback : InternalWrappedEvent → State → State) (sched : List Action) (st : State) :
    Except String State :=
  let threads := if request.Threads = 0 then 1 else request.Threads
  let st := { st with gotMatches := false }
  let drained : Except String State :=
    match request.generator with
    | none => .ok st
    | some generator =>
      match runSchedule env request hostPort input hostname payloadValues callback
          (poolLimit threads) sched ⟨generator.NewIterator.remaining, [], false, st⟩ with
      | .error p => .error p
      | .ok ps =>
        match drainWorkers env request hostPort input hostname payloadValues callback
            ps.workers ps.cancelled ps.st with
        | .error p => .error p
        | .ok (cancelled, st) =>
          match drainIterator env request hostPort input hostname payloadValues callback
              ps.iterator cancelled st with
          | .error p => .error p
          | .ok (_, st) => .ok st
  match drained with
  | .error p => .error p
  | .ok st => if st.gotMatches then .ok { st with matched := st.matched + 1 } else .ok st

/-! ## ExecuteWithResults -/

/-- The method `GetSuccess` of an interpreter result: the `success` entry when it is
a boolean, false otherwise. -/
def GetSuccess (result : GoMap) : Bool :=
  match result.get "success" with
  | some (.bool b) => b
  | _ => false

/-- The scope `ExecuteWithResults` builds for the target before any interpreter
call: the per-target payload values and the template context after the export. -/
def buildScope (env : Env) (hostPort hostname port : String) (dynamicValues templateCtx : GoMap) :
    GoMap × GoMap :=
  let payloadValues := (GoMap.setAll [] env.buildPayloadFromOptions).setAll dynamicValues
  let payloadValues := payloadValues.set "Hostname" (.str hostPort)
  let payloadValues := payloadValues.set "Host" (.str hostname)
  let payloadValues := payloadValues.set "Port" (.str port)
  let hostnameVariables := env.generateDNSVariables hostname
  let values := MergeMaps [payloadValues, hostnameVariables, env.Constants, templateCtx]
  let variablesMap := env.variablesEvaluate values
  let payloadValues := MergeMaps [variablesMap, payloadValues, env.Constants, hostnameVariables]
  (payloadValues, templateCtx.setAll payloadValues)

/-- The dispatch of `ExecuteWithResults` once the precondition is behind: parallel
with a generator and more than one thread, else the sequential loop with a
generator, else the single probe, whose error is the error of the call. -/
def dispatch (env : Env) (request : Request) (hostPort hostname : String) (input : Target)
    (payloadValues : GoMap) (sched : List Action) (st : State) :
    Except String (Option String × State) :=
  if request.generator.isSome ∧ request.Threads > 1 then
    match executeRequestParallel env request hostPort hostname input payloadValues forward
        sched st with
    | .error p => .error p
    | .ok st => .ok (none, st)
  else
    let st := { st with gotMatches := false }
    match request.generator with
    | some generator =>
      match sequentialLoop env request hostPort input hostname payloadValues forward
          generator.NewIterator.remaining st with
      | .error p => .error p
      | .ok st => .ok (none, st)
    | none =>
      executeRequestWithPayloads env request hostPort input hostname [] payloadValues forward st

/-- How the precondition step of `ExecuteWithResults` ends: the call returns, or the
run goes on to the dispatch. -/
inductive Gate where
  | returned (err : Option String) (st : State)
  | passed (st : State)

/-- The precondition step of `ExecuteWithResults`, entered when a precondition is
declared; `.error` when `getArgsCopy` panics. -/
def precondition (env : Env) (request : Request) (input : Target)
    (payloadValues previous : GoMap) (st : State) : Except String Gate :=
  let payloads := MergeMaps [payloadValues, previous]
  match getArgsCopy env request input payloads true with
  | .error p => .error p
  | .ok argsCopy =>
    let argsCopy : ExecuteArgs := { argsCopy with TemplateCtx := st.templateCtx }
    match env.jsExecute request.PreCondition argsCopy with
    | .error err => .ok (.returned (some ("could not execute pre-condition: " ++ err)) st)
    | .ok result =>
      if GetSuccess result = false ∨ ToStringAt env result "error" ≠ "" then
        .ok (.returned none { st with failedRequests := st.failedRequests + 1 })
      else if env.Options.Debug ∨ env.Options.DebugRequests then
        .ok (.passed { st with requests := st.requests + 1 })
      else .ok (.passed st)

/-- The input of the run: the target cloned and given the network port of the
request. -/
def resolveInput (env : Env) (request : Request) (target : Target) : Target :=
  env.useNetworkPort target (getPort env request) (getExcludePorts env request)

/-- The host name of the run: the host part of the address, or the whole address
when it has none. -/
def resolveHostname (env : Env) (hostPort : String) : String :=
  if (env.splitHostPort hostPort).1 = "" then hostPort else (env.splitHostPort hostPort).1

/-- The per-target payload values and the template context with which a run on
`target` reaches the precondition. -/
def targetScope (env : Env) (request : Request) (target : Target)
    (dynamicValues templateCtx : GoMap) : GoMap × GoMap :=
  let hostPort := (getAddress env (resolveInput env request target).Input).1
  buildScope env hostPort (resolveHostname env hostPort) (env.splitHostPort hostPort).2
    dynamicValues templateCtx

/-- The method `ExecuteWithResults` on one target, the caller's callback being
`forward`. The result is the returned error and the state, or `.error` on a panic;
`sched` is the interleaving of the parallel strategy and plays no part elsewhere. -/
def ExecuteWithResults (env : Env) (request : Request) (target : Target)
    (dynamicValues previous : GoMap) (sched : List Action) (st : State) :
    Except String (Option String × State) :=
  let input := resolveInput env request target
  match getAddress env input.Input with
  | (_, some err) => .ok (some err, { st with failedRequests := st.failedRequests + 1 })
  | (hostPort, none) =>
    let hostname := resolveHostname env hostPort
    let scope := buildScope env hostPort hostname (env.splitHostPort hostPort).2 dynamicValues
      st.templateCtx
    let payloadValues := scope.1
    let st := { st with templateCtx := scope.2 }
    if request.PreCondition ≠ "" then
      match precondition env request input payloadValues previous st with
      | .error p => .error p
      | .ok (.returned err st) => .ok (err, st)
      | .ok (.passed st) => dispatch env request hostPort hostname input payloadValues sched st
    else dispatch env request hostPort hostname input payloadValues sched st

/-! ## Notions used to state properties -/

/-- A callback given to a probe passes the event on to the caller: the caller's log
gains exactly that event, and nothing is registered out of band. -/
def Forwards (callback : InternalWrappedEvent → State → State) : Prop :=
  ∀ event st, (callback event st).events = st.events ++ [event] ∧
    (callback event st).registrations = st.registrations

/-- The arguments a probe hands to the interpreter, from the arguments `getArgsCopy`
returned. -/
def probeArgs (argsCopy : ExecuteArgs) (st : State) : ExecuteArgs :=
  { argsCopy with TemplateCtx := st.templateCtx }

/-- The final outcome data of the probe run from `st` with the arguments `argsCopy`:
the map whose `error` key the outcome routing tests. -/
def probeOutcomeData (env : Env) (request : Request) (hostPort : String) (input : Target)
    (payload previous : GoMap) (argsCopy : ExecuteArgs) (st : State) : GoMap :=
  (outcomeData env request hostPort input (MergeMaps [payload, previous])
    (probeResults (env.jsExecute (probeBody env request).1 (probeArgs argsCopy st))).1
    st.templateCtx).1

/-- The state of a probe when it reaches the outcome routing: the request is counted,
the call is logged, and the template context holds the probe's variables. -/
def afterCall (env : Env) (request : Request) (hostPort : String) (input : Target)
    (payload previous : GoMap) (argsCopy : ExecuteArgs) (st : State) : State :=
  { st with
    requests := st.requests + 1
    probes := st.probes ++
      [ProbeCall.mk payload (probeBody env request).1 (probeArgs argsCopy st)]
    templateCtx := (outcomeData env request hostPort input (MergeMaps [payload, previous])
      (probeResults (env.jsExecute (probeBody env request).1 (probeArgs argsCopy st))).1
      st.templateCtx).2 }

/-- The event the outcome routing builds for a probe whose outcome data carry an
error key. -/
def errorEvent (env : Env) (request : Request) (hostPort : String) (input : Target)
    (payload previous : GoMap) (argsCopy : ExecuteArgs) (st : State) : InternalWrappedEvent :=
  CreateEventWithAdditionalOptions env request
    (MergeMaps [probeOutcomeData env request hostPort input payload previous argsCopy st,
      MergeMaps [payload, previous]]) payload

/-! ## Concrete scenarios -/

/-- The independent sweep of a payload specification: one value set for each value of
each field. -/
def demoSweep (payloads : GoMap) : List GoMap :=
  payloads.flatMap (fun kv =>
    match kv.2 with
    | .list xs => xs.map (fun x => [(kv.1, Value.str x)])
    | v => [[(kv.1, v)]])

/-- Operators in miniature: a matcher matches data whose entry at the matcher's part
is the matcher's body, and the operators match when one matcher does. -/
def demoExecute (ops : Operators) (data : GoMap) : Option OperatorsResult :=
  if ops.Matchers.any (fun m => data.get m.Part == some (Value.str m.body)) then
    some ⟨true, false, [], []⟩
  else none

/-- An environment in miniature: the interpreter fails on the body `fail` and answers
every other body with success, expressions evaluate to themselves, and there is no
out-of-band client. -/
def demoEnv : Env where
  Options := ⟨false, false, false, false, false, ""⟩
  StopAtFirstMatch := false
  TemplateID := "demo"
  TemplatePath := "demo.yaml"
  TemplateInfo := .null
  ExcludeMatchers := []
  Constants := []
  generatorsNew := fun payloads _ => (some ⟨demoSweep payloads⟩, none)
  operatorsCompile := fun _ => none
  operatorsExecute := demoExecute
  render := fun _ => ""
  exprEvaluate := fun s _ => .ok s
  jsExecute := fun code _ =>
    if code = "fail" then .error "boom"
    else if code = "false" then .ok [("success", .bool false)]
    else .ok [("success", .bool true), ("response", .str code)]
  jsInit := fun _ _ => .done (.ok [])
  Interactsh := none
  addTemplateVars := fun ctx _ _ => ctx
  variablesEvaluate := fun _ => []
  variablesGetAll := []
  varsAsMap := []
  buildPayloadFromOptions := []
  generateDNSVariables := fun _ => []
  beautify := fun _ => none
  useNetworkPort := fun t _ _ => t
  urlParseHost := fun _ => none
  splitHostPort := fun _ => ("", "")

/-- The environment in miniature with debug output of requests switched on. -/
def demoEnvDebug : Env :=
  { demoEnv with Options := ⟨true, false, false, false, false, ""⟩ }

/-- A request as parsed from a template, before `Compile`. -/
def demoRequest (code preCondition : String) (args payloads : GoMap) (matchers : List Matcher)
    (stop : Bool) (threads : Int) : Request where
  Operators := ⟨matchers, [], [], ""⟩
  CompiledOperators := none
  ID := ""
  Init := ""
  PreCondition := preCondition
  Args := args
  Code := code
  StopAtFirstMatch := stop
  AttackType := "sniper"
  Threads := threads
  Payloads := payloads
  generator := none

/-- The target of the scenarios. -/
def demoTarget : Target := ⟨"scanme.sh:22", "22"⟩

/-- The state before a run: nothing counted, nothing logged. -/
def State.init : State := ⟨0, 0, 0, [], [], [], [], 0, false⟩

/-- A compiled request without payloads whose probe body is `code`. -/
def demoSingle (code : String) (matchers : List Matcher) : Request :=
  (Compile demoEnv (demoRequest code "" [] [] matchers false 0)).1

/-- A compiled request sweeping `id` over `ids` with the probe body `code`. -/
def demoSweepRequest (code : String) (ids : List String) (matchers : List Matcher)
    (stop : Bool) (threads : Int) : Request :=
  (Compile demoEnv (demoRequest code "" [] [("id", .list ids)] matchers stop threads)).1

/-- The state a run ends in, for a run known to end without a panic. -/
def endState (r : Except String State) : State :=
  match r with
  | .ok st => st
  | .error _ => State.init

/-- The spec's example: `id` sweeps over 1, 2, 3, the matcher wants `id` to be 2, and
the request stops at the first match. -/
def demoStopRequest : Request :=
  demoSweepRequest "probe" ["1", "2", "3"] [⟨"id", .WordsMatcher, "2"⟩] true 1

/-- The state of the spec's example after its first probe. -/
def demoStopFirst : State :=
  endState (sequentialLoop demoEnv demoStopRequest "scanme.sh:22" demoTarget "scanme.sh:22" []
    forward [[("id", .str "1")]] State.init)

/-- The state of the spec's example after its second probe. -/
def demoStopSecond : State :=
  endState (sequentialLoop demoEnv demoStopRequest "scanme.sh:22" demoTarget "scanme.sh:22" []
    forward [[("id", .str "1")], [("id", .str "2")]] State.init)

/-- A compiled request without payloads whose precondition is `preCondition`. -/
def demoGatedRequest (preCondition : String) : Request :=
  (Compile demoEnv (demoRequest "probe" preCondition [] [] [] false 0)).1

/-! ## Notions used to state properties of the parallel strategy -/

/-- The state in which `executeRequestParallel` starts its dispatcher: the iterator is
fresh, the pool is empty, nothing is cancelled and the shared flag is down. -/
def parallelStart (generator : PayloadGenerator) (st : State) : ParState :=
  ⟨generator.NewIterator.remaining, [], false, { st with gotMatches := false }⟩

/-- The number of workers of a pool that have passed the cancellation check. -/
def startedCount (workers : List Worker) : Nat :=
  (workers.filter Worker.started).length

/-- A sweep of `id` over 2, 2, 3 with a matcher wanting 2, stopping at the first match,
on two threads. -/
def demoRaceRequest : Request :=
  demoSweepRequest "probe" ["2", "2", "3"] [⟨"id", .WordsMatcher, "2"⟩] true 2

/-- The bound on matched events in a parallel run that stops at the first match and
started with `before` matched events given to the caller: the signal is the shared
flag; while it is down no matched event has been added and the pool is within its
capacity; once it is set, the matched events added and the workers past the check
together do not exceed the capacity. -/
def MatchBound (limit before : Nat) (workers : List Worker) (cancelled : Bool)
    (st : State) : Prop :=
  cancelled = st.gotMatches ∧
  (cancelled = false → st.matchedEvents = before ∧ workers.length ≤ limit) ∧
  (cancelled = true → st.matchedEvents + startedCount workers ≤ before + limit)

/-- The dispatcher's cursor in a parallel run over `values` that started with `before`
value sets taken: what has been taken so far is an initial stretch of `values`, what
the iterator still holds is the rest, and the count of value sets taken has grown by
the length of that stretch. -/
def Pulled (values : List GoMap) (before : Nat) (iterator : List GoMap) (pulls : Nat) : Prop :=
  ∃ taken, taken ++ iterator = values ∧ before + taken.length = pulls

/-- Every value set in the pool or still in the iterator is one of `values`. -/
def Within (values : List GoMap) (workers : List Worker) (iterator : List GoMap) : Prop :=
  (∀ w ∈ workers, w.value ∈ values) ∧ (∀ value ∈ iterator, value ∈ values)

/-- The arguments `Compile` hands to the init script: the arguments of the request
evaluated best-effort in the compile-time scope, none when that evaluation fails. -/
def initArgs (env : Env) (request : Request) : ExecuteArgs :=
  ⟨match evaluateArgs env request
        (MergeMaps [env.variablesGetAll, env.varsAsMap, env.Constants]) true with
    | .ok a => a
    | .error _ => [], []⟩

/-- The request as `Compile` has made it when it reaches the check of the port and the
init phase, payload parsing and operator compilation having succeeded. -/
def beforeInit (env : Env) (request : Request) : Request :=
  let request :=
    if request.Payloads.length > 0 then
      { request with generator := (env.generatorsNew request.Payloads request.AttackType).1 }
    else request
  if request.Operators.Matchers.length > 0 ∨ request.Operators.Extractors.length > 0 then
    { request with
      Operators := prepareOperators env request
      CompiledOperators := some (prepareOperators env request) }
  else request

/-- The init script as `Compile` runs it for a request that reaches the init phase:
the request it leaves and the interpreter's answer. -/
def initOutcome (env : Env) (request : Request) : Request × Except String GoMap :=
  runInit env (env.jsInit request.Init (initArgs env (beforeInit env request)))
    (beforeInit env request)

/-- The environment in miniature with an interpreter that runs `script` as the init
script, and a payload generator that refuses a payload field named `bad`. -/
def demoEnvInit (script : InitRun) : Env :=
  { demoEnv with
    jsInit := fun _ _ => script
    generatorsNew := fun payloads _ =>
      if payloads.has "bad" then (none, some "unsupported payload")
      else (some ⟨demoSweep payloads⟩, none) }

/-- A request with the init script `init()`, as parsed from a template. -/
def demoInitRequest (args payloads : GoMap) : Request :=
  { demoRequest "probe" "" args payloads [] false 0 with Init := "init()" }

/-- An init script that sets `token` and then fails in the interpreter. -/
def demoFailingInit : InitRun :=
  .set "token" (.str "secret") (fun _ => .done (.error "boom"))

/-- An init script that sets `token` and ends with a result carrying an error. -/
def demoComplainingInit : InitRun :=
  .set "token" (.str "secret") (fun _ => .done (.ok [("error", .str "boom")]))

/-- An init script that updates the payload `bad`, which the generator refuses, and
then the payload `good`. -/
def demoTwoUpdates : InitRun :=
  .updatePayload "bad" (.list ["x"]) (fun _ =>
    .updatePayload "good" (.list ["y"]) (fun failed =>
      .done (.ok [("second-update-failed", .bool failed)])))

/-- A request declaring three matchers: one without part, one of the DSL kind without
part, one with a part of its own. -/
def demoMatchersRequest : Request :=
  demoRequest "probe" "" [] []
    [⟨"", .WordsMatcher, "a"⟩, ⟨"", .DSLMatcher, "b"⟩, ⟨"banner", .RegexMatcher, "c"⟩] false 0

/-! ## Notions used to state properties of the arguments -/

/-- The value the loop of `evaluateArgs` stores for an argument of value `v` when the
evaluation of its expression, if it has one, returns no error. -/
def storedArg (env : Env) (payloadValues : GoMap) (ignoreErrors : Bool) (v : Value) : Value :=
  match v with
  | .str vVal =>
    if Contains vVal "\x7b" then
      match env.exprEvaluate vVal payloadValues with
      | .error _ => v
      | .ok finalAddress =>
        if finalAddress = vVal ∧ ignoreErrors = true then .str "" else .str finalAddress
    else v
  | _ => v

/-- The evaluator returns no error on any expression among the arguments `args`. -/
def Evaluates (env : Env) (payloadValues args : GoMap) : Prop :=
  ∀ k vVal, (k, Value.str vVal) ∈ args → Contains vVal "\x7b" = true →
    ∃ finalAddress, env.exprEvaluate vVal payloadValues = .ok finalAddress

/-- A request whose arguments are a plain string, a number, an expression the scope
resolves and one it does not. -/
def demoArgsRequest : Request :=
  demoRequest "probe" "" [("host", .str "scanme.sh"), ("Port", .str "8080"),
    ("user", .str "\x7b\x7busername\x7d\x7d"), ("pass", .str "\x7b\x7bpassword\x7d\x7d")]
    [] [] false 0

/-- The environment in miniature with an evaluator that resolves the expression
`username` to `admin` and returns every other string as it is. -/
def demoEnvResolving : Env :=
  { demoEnv with
    exprEvaluate := fun s _ =>
      if s = "\x7b\x7busername\x7d\x7d" then .ok "admin" else .ok s }

/-! ## Notions used to state properties of the scope of a probe -/

/-- The environment in miniature with an evaluator that resolves the expression
`token` to the string the scope holds under that name, when it holds one. -/
def demoEnvLookup : Env :=
  { demoEnv with
    exprEvaluate := fun s scope =>
      if s = "\x7b\x7btoken\x7d\x7d" then
        match scope.get "token" with
        | some (.str v) => .ok v
        | _ => .ok s
      else .ok s }

/-- A compiled request sweeping `token` over the one value `from-payload`, whose
argument `user` is the expression `token`. -/
def demoTokenRequest : Request :=
  (Compile demoEnvLookup (demoRequest "probe" ""
    [("user", .str "\x7b\x7btoken\x7d\x7d")] [("token", .list ["from-payload"])] [] false 1)).1

/-- The value of the argument `user` each probe of a run handed to the interpreter. -/
def usersProbed (r : Except String (Option String × State)) : List (Option Value) :=
  match r with
  | .ok out => out.2.probes.map (fun call => call.args.Args.get "user")
  | .error _ => []

/-! ## The workers of the parallel strategy, step by step -/

/-- Where a worker goroutine stands: spawned and before its check of the cancellation
signal; past the check and before its probe; in its probe, after the wrapper has seen
the event and stored the flag and before it calls the caller's callback, the events
still to pass on in hand; after its probe and before it loads the flag. -/
inductive Stage where
  | waiting
  | started
  | ran (held : List InternalWrappedEvent)
  | delivered
  deriving DecidableEq, Repr

/-- A worker goroutine holding a slot of the pool: its value set and where it stands. -/
structure Goroutine where
  value : GoMap
  stage : Stage
  deriving DecidableEq, Repr

/-- The parallel strategy in flight, worker steps apart: what the iterator still
holds, the workers holding a slot of the pool, the cancellation signal, and the state
of the run. -/
structure Pool where
  iterator : List GoMap
  workers : List Goroutine
  cancelled : Bool
  st : State
  deriving DecidableEq, Repr

/-- The moves of an interleaving, worker steps apart: the dispatcher takes a value set
and starts a worker when the pool has room; worker `i` checks the cancellation
signal; worker `i` runs its probe up to the store of the flag; worker `i` calls the
caller's callback; worker `i` loads the flag, cancels when the run stops at the first
match and the flag is up, and ends. -/
inductive Move where
  | spawn
  | check (i : Nat)
  | run (i : Nat)
  | deliver (i : Nat)
  | finish (i : Nat)
  deriving DecidableEq, Repr

/-- The probe of a worker up to the call of the caller's callback, which is the last
thing the wrapper does and the last thing the probe does: the probe is run with the
caller's log set aside, what it gives the caller is kept in hand, and the log is put
back. -/
def probeHeld (env : Env) (request : Request) (hostPort : String) (input : Target)
    (hostname : String) (payloadValues value : GoMap) (st : State) :
    Except String (List InternalWrappedEvent × State) :=
  match executeRequestWithPayloads env request hostPort input hostname value payloadValues
      (parallelCallback forward) { st with events := [] } with
  | .error p => .error p
  | .ok (_, st') => .ok (st'.events, { st' with events := st.events })

/-- One move of an interleaving, worker steps apart; a move that is not possible
changes nothing. -/
def poolStep (env : Env) (request : Request) (hostPort : String) (input : Target)
    (hostname : String) (payloadValues : GoMap) (limit : Nat) :
    Move → Pool → Except String Pool
  | .spawn, pool =>
    match pool.iterator with
    | [] => .ok pool
    | value :: rest =>
      if pool.workers.length < limit then
        .ok { pool with iterator := rest, workers := pool.workers ++ [⟨value, .waiting⟩],
                        st := { pool.st with pulls := pool.st.pulls + 1 } }
      else .ok pool
  | .check i, pool =>
    match pool.workers.get? i with
    | some ⟨value, .waiting⟩ =>
      if pool.cancelled then .ok { pool with workers := pool.workers.eraseIdx i }
      else .ok { pool with workers := pool.workers.set i ⟨value, .started⟩ }
    | _ => .ok pool
  | .run i, pool =>
    match pool.workers.get? i with
    | some ⟨value, .started⟩ =>
      match probeHeld env request hostPort input hostname payloadValues value pool.st with
      | .error p => .error p
      | .ok (held, st) =>
        .ok { pool with workers := pool.workers.set i ⟨value, .ran held⟩, st := st }
    | _ => .ok pool
  | .deliver i, pool =>
    match pool.workers.get? i with
    | some ⟨value, .ran held⟩ =>
      .ok { pool with workers := pool.workers.set i ⟨value, .delivered⟩,
                      st := { pool.st with events := pool.st.events ++ held } }
    | _ => .ok pool
  | .finish i, pool =>
    match pool.workers.get? i with
    | some ⟨_, .delivered⟩ =>
      .ok { pool with
        workers := pool.workers.eraseIdx i
        cancelled := pool.cancelled ||
          (shouldStopAtFirstMatch env request && pool.st.gotMatches) }
    | _ => .ok pool

/-- The moves of an interleaving, one after the other. -/
def poolRun (env : Env) (request : Request) (hostPort : String) (input : Target)
    (hostname : String) (payloadValues : GoMap) (limit : Nat) :
    List Move → Pool → Except String Pool
  | [], pool => .ok pool
  | move :: rest, pool =>
    match poolStep env request hostPort input hostname payloadValues limit move pool with
    | .error p => .error p
    | .ok pool => poolRun env request hostPort input hostname payloadValues limit rest pool

/-- The pool in which `executeRequestParallel` starts its dispatcher: the iterator is
fresh, no worker is spawned, nothing is cancelled and the shared flag is down. -/
def poolStart (generator : PayloadGenerator) (st : State) : Pool :=
  ⟨generator.NewIterator.remaining, [], false, { st with gotMatches := false }⟩

/-! ## Notions used to state properties of the workers -/

/-- The evaluator of expressions returns no error, as the loop of `evaluateArgs`
presumes when it tells an unresolved expression by getting it back unchanged. -/
def EvaluateReturns (env : Env) : Prop :=
  ∀ vVal scope, ∃ finalAddress, env.exprEvaluate vVal scope = .ok finalAddress

/-- The number of workers of a pool that are past the check and before their probe. -/
def startedIn (workers : List Goroutine) : Nat :=
  (workers.map (fun w => if w.stage = .started then 1 else 0)).sum

/-- The number of events the workers of a pool have in hand. -/
def heldIn (workers : List Goroutine) : Nat :=
  (workers.map (fun w =>
    match w.stage with
    | .ran held => held.length
    | _ => 0)).sum

/-- A worker of the pool has a matched event in hand. -/
def HoldsMatch (workers : List Goroutine) : Prop :=
  ∃ w ∈ workers, ∃ held, w.stage = .ran held ∧ ∃ event ∈ held, event.isMatched = true

/-- The flag and the signal are sound in a pool of a run that started with `before`
matched events given to the caller: the signal is set only when the run stops at the
first match and the flag is up, and the flag is up only when a probe of the run has
produced a matched event, which has reached the caller or is in the hand of a worker. -/
def FlagSound (env : Env) (request : Request) (before : Nat) (pool : Pool) : Prop :=
  (pool.cancelled = true →
    shouldStopAtFirstMatch env request = true ∧ pool.st.gotMatches = true) ∧
  (pool.st.gotMatches = true →
    before < pool.st.matchedEvents ∨ HoldsMatch pool.workers) ∧
  before ≤ pool.st.matchedEvents

/-- A sweep of `id` over 2 and 3 with a matcher wanting 2, stopping at the first match,
on two threads. -/
def demoSignalRequest : Request :=
  demoSweepRequest "probe" ["2", "3"] [⟨"id", .WordsMatcher, "2"⟩] true 2

/-- The pool a list of moves ends in, for moves known to end without a panic. -/
def endPool (r : Except String Pool) : Pool :=
  match r with
  | .ok pool => pool
  | .error _ => ⟨[], [], false, State.init⟩

/-- The pool of the signal scenario when both workers have run their probes, the first
has stored the flag for its matched event and has not yet called the caller, and the
second has given the caller its event, loaded the flag and cancelled; the dispatcher
has nothing left. -/
def demoSignalPool : Pool :=
  endPool (poolRun demoEnv demoSignalRequest "scanme.sh:22" demoTarget "scanme.sh:22" [] 2
    [.spawn, .spawn, .check 0, .check 1, .run 0, .run 1, .deliver 1, .finish 1]
    (poolStart ⟨demoSweep [("id", .list ["2", "3"])]⟩ State.init))

/-- The pool of the signal scenario after the first worker has run, matched, called
the caller and cancelled, while the second has not yet checked the signal. -/
def demoLatePool : Pool :=
  endPool (poolRun demoEnv demoSignalRequest "scanme.sh:22" demoTarget "scanme.sh:22" [] 2
    [.spawn, .spawn, .check 0, .run 0, .deliver 0, .finish 0]
    (poolStart ⟨demoSweep [("id", .list ["2", "3"])]⟩ State.init))

/-- A pool of the parallel strategy whose workers take their probe in one step, seen
worker steps apart: each worker is before its check or before its probe. -/
def ParState.toPool (ps : ParState) : Pool :=
  ⟨ps.iterator,
    ps.workers.map (fun w => ⟨w.value, if w.started then .started else .waiting⟩),
    ps.cancelled, ps.st⟩

/-- A move of the parallel strategy whose workers take their probe in one step, as
moves worker steps apart: the probe with what follows it is the probe up to the store
of the flag, the call of the caller's callback, and the load of the flag with the end
of the worker, in a row. -/
def Action.toMoves : Action → List Move
  | .spawn => [.spawn]
  | .check i => [.check i]
  | .run i => [.run i, .deliver i, .finish i]

/-- A compiled request sweeping `id` over 1, 2, 3 with a probe body the interpreter
fails on. -/
def demoFailingSweep : Request :=
  demoSweepRequest "fail" ["1", "2", "3"] [] false 1

end Javascript

namespace Signer

/-! ## The template signer

The package `signer` signs the text of a template. Byte slices and strings are
strings here, a byte being a character. The hash, the ECDSA signature, the `gob`
encoding, the hexadecimal rendering and the file system are collaborators, the fields
of `Library`; each call of `ecdsa.SignASN1` reads `rand.Reader`, and what it reads is an
argument of the call. -/

/-- The class `\s` of Go regular expressions: tab, line feed, form feed, carriage
return, space. -/
def isPerlSpace (c : Char) : Bool :=
  c == '\t' || c == '\n' || c == '\x0c' || c == '\r' || c == ' '

/-- The longest initial run of characters other than the line feed: what `.+` takes
before `$` in multi-line mode. -/
def lineRun : List Char → List Char
  | [] => []
  | c :: cs => if c = '\n' then [] else c :: lineRun cs

/-- Whether `p` is an initial segment of the first list. -/
def hasPrefixChars : List Char → List Char → Bool
  | _, [] => true
  | [], _ :: _ => false
  | c :: cs, p :: ps => c == p && hasPrefixChars cs ps

/-- The match of `ReDigest`, the expression `(?m)^#\sdigest:\s.+$`, that starts at the
head of the text, the head standing at the start of a line: a `#`, one character of the
class `\s`, the word `digest:`, one character of the class `\s`, and the rest of the
line, which is not empty. -/
def matchDigest : List Char → Option (List Char)
  | c₀ :: s₁ :: rest =>
    if c₀ = '#' ∧ isPerlSpace s₁ = true ∧ hasPrefixChars rest "digest:".data = true then
      match rest.drop 7 with
      | s₂ :: tail =>
        if isPerlSpace s₂ = true ∧ lineRun tail ≠ [] then
          some (c₀ :: s₁ :: ("digest:".data ++ s₂ :: lineRun tail))
        else none
      | [] => none
    else none
  | _ => none

/-- The leftmost match of `ReDigest` in the text, `atLineStart` telling whether the
head stands at the start of the text or after a line feed. -/
def findDigest : Bool → List Char → Option (List Char)
  | _, [] => none
  | atLineStart, c :: cs =>
    match (if atLineStart then matchDigest (c :: cs) else none) with
    | some m => some m
    | none => findDigest (c == '\n') cs

/-- The text with every match of `ReDigest` taken out, from left to right: `skip`
counts the characters of the current match still to drop, and a match ends in a
character other than the line feed, so that no match starts right after it. -/
def removeDigests : Nat → Bool → List Char → List Char
  | _, _, [] => []
  | skip + 1, _, _ :: cs => removeDigests skip false cs
  | 0, atLineStart, c :: cs =>
    match (if atLineStart then matchDigest (c :: cs) else none) with
    | some m => removeDigests (m.length - 1) false cs
    | none => c :: removeDigests 0 (c == '\n') cs

/-- The function `bytes.Trim` with the cutset of one character. -/
def Trim (s : List Char) (cut : Char) : List Char :=
  ((s.dropWhile (fun c => c == cut)).reverse.dropWhile (fun c => c == cut)).reverse

/-- The function `RemoveSignatureFromData`. -/
def RemoveSignatureFromData (data : String) : String :=
  ⟨Trim (removeDigests 0 true data.data) '\n'⟩

/-- The function `GetSignatureFromData`; the nil slice of no match is the empty
string, as it is under the conversion `string(sig)` of `Sign`. -/
def GetSignatureFromData (data : String) : String :=
  match findDigest true data.data with
  | some m => ⟨m⟩
  | none => ""

/-- The function `unicode.IsSpace`. -/
def isSpace (c : Char) : Bool :=
  (9 ≤ c.toNat && c.toNat ≤ 13) || c.toNat == 32 || c.toNat == 133 || c.toNat == 160 ||
  c.toNat == 5760 || (8192 ≤ c.toNat && c.toNat ≤ 8202) || c.toNat == 8232 ||
  c.toNat == 8233 || c.toNat == 8239 || c.toNat == 8287 || c.toNat == 12288

/-- The function `strings.TrimSpace`. -/
def TrimSpace (s : String) : String :=
  ⟨((s.data.dropWhile isSpace).reverse.dropWhile isSpace).reverse⟩

/-- The call `strings.SplitN(s, "@", 2)`: the text before the first `@` and the text
after it, or the text alone when it has no `@`. -/
def SplitN (s : String) : List String :=
  match s.data.dropWhile (fun c => c != '@') with
  | _ :: rest => [⟨s.data.takeWhile (fun c => c != '@')⟩, ⟨rest⟩]
  | [] => [s]

/-- The interface `SignableTemplate`, by the values its two methods return. -/
structure SignableTemplate where
  GetFileImports : List String
  HasCodeProtocol : Bool

/-- The keys of the signer the methods read: the private key and the bytes of the
coordinate `X` of the public key. -/
structure KeyHandler where
  ecdsaKey : String
  ecdsaPubKeyX : String

/-- The type `TemplateSigner`. -/
structure TemplateSigner where
  handler : KeyHandler

/-- The collaborators of the signer: `sha256.Sum256`, `ecdsa.SignASN1` with what it
reads from `rand.Reader` as first argument, the `gob` encoding of a byte slice, the
verb `%x` of `fmt`, and `os.ReadFile`. -/
structure Library where
  Sum256 : String → String
  SignASN1 : String → String → String → Except String String
  gobEncode : String → Except String String
  hex : String → String
  ReadFile : String → Except String String

/-- The method `GetUserFragment`: the returned string and error. -/
def TemplateSigner.GetUserFragment (lib : Library) (t : TemplateSigner) (rand : String) :
    String × Option String :=
  let hashed := lib.Sum256 t.handler.ecdsaPubKeyX
  match lib.SignASN1 rand t.handler.ecdsaKey hashed with
  | .error err => ("", some err)
  | .ok ecdsaSignature =>
    match lib.gobEncode ecdsaSignature with
    | .error err => ("", some err)
    | .ok signatureData => (lib.hex signatureData, none)

/-- The method `sign`: the returned string and error; `rand₁` is read for the signature
of the data, `rand₂` for the fragment. -/
def TemplateSigner.sign (lib : Library) (t : TemplateSigner) (rand₁ rand₂ : String)
    (data : String) : String × Option String :=
  let dataHash := lib.Sum256 data
  match lib.SignASN1 rand₁ t.handler.ecdsaKey dataHash with
  | .error err => ("", some err)
  | .ok ecdsaSignature =>
    match lib.gobEncode ecdsaSignature with
    | .error err => ("", some err)
    | .ok signatureData =>
      match t.GetUserFragment lib rand₂ with
      | (_, some err) => ("", some err)
      | (fragment, none) => ("# digest: " ++ lib.hex signatureData ++ "@" ++ fragment, none)

/-- The loop of `Sign` over the imported files: each is read and appended to the
buffer after a line feed; a file that cannot be read ends the loop with its error. -/
def appendImports (lib : Library) : List String → String → Except String String
  | [], buff => .ok buff
  | file :: rest, buff =>
    match lib.ReadFile file with
    | .error err => .error err
    | .ok bin => appendImports lib rest (buff ++ "\n" ++ bin)

/-- The part of `Sign` after the check of the existing signature. -/
def signTemplate (lib : Library) (t : TemplateSigner) (rand₁ rand₂ : String)
    (data : String) (tmpl : SignableTemplate) : String × Option String :=
  match appendImports lib tmpl.GetFileImports (RemoveSignatureFromData data) with
  | .error err => ("", some err)
  | .ok buff =>
    match t.sign lib rand₁ rand₂ buff with
    | (_, some err) => ("", some err)
    | (signatureData, none) => (signatureData, none)

/-- The check of `Sign` on the existing signature of a template with a code protocol
section: the error it returns, if any. The tag `signer` of the errors is left out. -/
def checkFragment (lib : Library) (t : TemplateSigner) (rand₀ : String) (data : String) :
    Option String :=
  let sig := GetSignatureFromData data
  match SplitN sig with
  | [piece] =>
    if TrimSpace piece ≠ "" then
      some "re-signing code protocol templates not allowed: no fragment found"
    else none
  | [_, existing] =>
    let fragment := (t.GetUserFragment lib rand₀).1
    if fragment ≠ existing then
      some ("fragment mismatch: expected '" ++ fragment ++ "' got '" ++ existing ++ "'")
    else none
  | _ => none

/-- The method `Sign`: the returned signature and error; `rand₀` is read for the
fragment of the check, `rand₁` and `rand₂` by `sign`. -/
def TemplateSigner.Sign (lib : Library) (t : TemplateSigner) (rand₀ rand₁ rand₂ : String)
    (data : String) (tmpl : SignableTemplate) : String × Option String :=
  match (if tmpl.HasCodeProtocol then checkFragment lib t rand₀ data else none) with
  | some err => ("", some err)
  | none => signTemplate lib t rand₁ rand₂ data tmpl

/-! ## Concrete scenarios of the signer -/

/-- A library in miniature: every function shows its operands, and one file exists. -/
def demoLibrary : Library where
  Sum256 := fun s => "h(" ++ s ++ ")"
  SignASN1 := fun rand key hashed => .ok (key ++ "/" ++ hashed ++ "/" ++ rand)
  gobEncode := fun s => .ok s
  hex := fun s => s
  ReadFile := fun file => if file = "helper.py" then .ok "print(1)" else .error "no such file"

/-- The signer of the scenarios. -/
def demoSigner : TemplateSigner := ⟨⟨"key", "pub"⟩⟩

/-- A template with a code protocol section that imports one file. -/
def demoCodeTemplate : SignableTemplate := ⟨["helper.py"], true⟩

/-- A template without a code protocol section. -/
def demoPlainTemplate : SignableTemplate := ⟨[], false⟩

end Signer

namespace Smb

/-! ## The SMBGhost probe

The method `DetectSMBGhost` of `v2/pkg/js/libs/smb/smbghost.go`. A byte is a natural
number, a Go slice is its backing array from the first element of the slice on, whose
length is the capacity, together with the length of the slice. What the peer does in
one call is a `Peer`; the function `structs.StructsUnpack` is a parameter. A Go
run-time panic is the `Except.error` case of a result. -/

/-- A Go byte slice: the backing array from the first element of the slice to the end
of the array, and the length of the slice. -/
structure Slice where
  array : List Nat
  len : Nat
  deriving DecidableEq, Repr

/-- The capacity `cap(s)`. -/
def Slice.cap (s : Slice) : Nat :=
  s.array.length

/-- The elements of the slice. -/
def Slice.bytes (s : Slice) : List Nat :=
  s.array.take s.len

/-- The call `make([]byte, length)`: zero bytes, length and capacity `length`; a
negative length panics. -/
def make (length : Int) : Except String Slice :=
  if length < 0 then .error "panic: runtime error: makeslice: len out of range"
  else .ok ⟨List.replicate length.toNat 0, length.toNat⟩

/-- The slice expression `s[lo:hi]`: it panics unless `lo ≤ hi ≤ cap(s)`, and may
reach past the length of the slice into its capacity. -/
def Slice.slice (s : Slice) (lo hi : Nat) : Except String Slice :=
  if hi > s.cap then .error "panic: runtime error: slice bounds out of range"
  else if lo > hi then .error "panic: runtime error: slice bounds out of range"
  else .ok ⟨s.array.drop lo, hi - lo⟩

/-- The call `conn.Read(b)` when the peer delivers `received`: as many bytes as fit in
the length of `b` are written at its start; the slice after the call and the count. -/
def Read (received : List Nat) (b : Slice) : Slice × Nat :=
  (⟨received.take (min received.length b.len) ++ b.array.drop (min received.length b.len),
    b.len⟩, min received.length b.len)

/-- What the network does during one call: the error of the dial, the error of the
write, the bytes delivered to the first read, the bytes delivered to the second read
and the error of the second read. -/
structure Peer where
  dialErr : Option String
  writeErr : Option String
  header : List Nat
  body : List Nat
  bodyErr : Option String
  deriving DecidableEq, Repr

/-- The method `DetectSMBGhost`: the returned pair of flag and error, or `.error` on a
panic. `StructsUnpack` is the function of that name. -/
def DetectSMBGhost (StructsUnpack : String → List Nat → Except String (List Int))
    (peer : Peer) : Except String (Bool × Option String) :=
  match peer.dialErr with
  | some err => .ok (false, some err)
  | none =>
    match peer.writeErr with
    | some err => .ok (false, some err)
    | none =>
      match make 4 with
      | .error p => .error p
      | .ok buff =>
        match (Read peer.header buff).1.slice 0 (Read peer.header buff).2 with
        | .error p => .error p
        | .ok head =>
          match StructsUnpack ">I" head.bytes with
          | .error err => .ok (false, some err)
          | .ok args =>
            if args.length ≠ 1 then .ok (false, some "invalid response")
            else
              match make (args.headD 0) with
              | .error p => .error p
              | .ok data =>
                match peer.bodyErr with
                | some err => .ok (false, some err)
                | none =>
                  match (Read peer.body data).1.slice 0 (Read peer.body data).2 with
                  | .error p => .error p
                  | .ok data =>
                    match data.slice 68 70 with
                    | .error p => .error p
                    | .ok first =>
                      if first.bytes ≠ [17, 3] then .ok (false, none)
                      else
                        match data.slice 70 72 with
                        | .error p => .error p
                        | .ok second =>
                          if second.bytes ≠ [2, 0] then .ok (false, none)
                          else .ok (true, none)

/-! ## Concrete scenarios of the SMBGhost probe -/

/-- An unpacker in miniature for the format `>I`: four bytes give one number, the first
byte counting most; fewer bytes are an error. -/
def bigEndian (_format : String) (bytes : List Nat) : Except String (List Int) :=
  match bytes with
  | [b₀, b₁, b₂, b₃] => .ok [((b₀ * 256 + b₁) * 256 + b₂) * 256 + b₃]
  | _ => .error "struct.error: unpack requires a buffer of 4 bytes"

/-- A peer that announces `length` body bytes in its header and delivers `body`. -/
def demoPeer (length : Nat) (body : List Nat) : Peer :=
  ⟨none, none, [0, 0, 0, length], body, none⟩

end Smb

namespace Javascript

/-! ## Maps -/

theorem GoMap.has_set_self (m : GoMap) (k : String) (v : Value) : (m.set k v).has k = true := by
  induction m with
  | nil => simp [GoMap.set, GoMap.has, GoMap.get, List.lookup]
  | cons kv rest ih =>
    obtain ⟨k', v'⟩ := kv
    by_cases h : k' = k
    · simp [GoMap.set, h, GoMap.has, GoMap.get, List.lookup]
    · have hne : (k == k') = false := by
        simp only [beq_eq_false_iff_ne, ne_eq]
        exact fun e => h e.symm
      simp only [GoMap.has, GoMap.get] at ih
      simp [GoMap.set, h, GoMap.has, GoMap.get, List.lookup, hne, ih]

theorem GoMap.has_set_of_has (m : GoMap) (k k' : String) (v : Value) (h : m.has k = true) :
    (m.set k' v).has k = true := by
  induction m with
  | nil => simp [GoMap.has, GoMap.get, List.lookup] at h
  | cons kv rest ih =>
    obtain ⟨k₀, v₀⟩ := kv
    by_cases h₀ : k₀ = k'
    · subst h₀
      by_cases hk : k = k₀
      · subst hk
        simp [GoMap.set, GoMap.has, GoMap.get, List.lookup]
      · have hne : (k == k₀) = false := by simpa using hk
        simp only [GoMap.has, GoMap.get, List.lookup, hne] at h
        simp [GoMap.set, GoMap.has, GoMap.get, List.lookup, hne, h]
    · by_cases hk : k = k₀
      · subst hk
        simp [GoMap.set, h₀, GoMap.has, GoMap.get, List.lookup]
      · have hne : (k == k₀) = false := by simpa using hk
        simp only [GoMap.has, GoMap.get, List.lookup, hne] at h
        simp only [GoMap.has, GoMap.get] at ih
        simp [GoMap.set, h₀, GoMap.has, GoMap.get, List.lookup, hne, ih h]

theorem GoMap.has_setAll_of_has (src dst : GoMap) (k : String) (h : dst.has k = true) :
    (dst.setAll src).has k = true := by
  induction src generalizing dst with
  | nil => simpa [GoMap.setAll] using h
  | cons kv rest ih =>
    simp only [GoMap.setAll, List.foldl_cons]
    exact ih _ (GoMap.has_set_of_has dst k kv.1 kv.2 h)

theorem GoMap.has_setAll_of_src (src dst : GoMap) (k : String) (h : src.has k = true) :
    (dst.setAll src).has k = true := by
  induction src generalizing dst with
  | nil => simp [GoMap.has, GoMap.get, List.lookup] at h
  | cons kv rest ih =>
    obtain ⟨k₀, v₀⟩ := kv
    simp only [GoMap.setAll, List.foldl_cons]
    by_cases hk : k = k₀
    · subst hk
      exact GoMap.has_setAll_of_has rest _ k (GoMap.has_set_self dst k v₀)
    · have hne : (k == k₀) = false := by simpa using hk
      simp only [GoMap.has, GoMap.get, List.lookup, hne] at h
      exact ih _ (by simpa [GoMap.has, GoMap.get] using h)

theorem MergeMaps_pair (a b : GoMap) : MergeMaps [a, b] = (GoMap.setAll [] a).setAll b := by
  simp [MergeMaps]

theorem MergeMaps_has_left (a b : GoMap) (k : String) (h : a.has k = true) :
    (MergeMaps [a, b]).has k = true := by
  rw [MergeMaps_pair]
  exact GoMap.has_setAll_of_has b _ k (GoMap.has_setAll_of_src a [] k h)

/-! ## Compile and Requests -/

theorem runInit_PreCondition (env : Env) (run : InitRun) (request : Request) :
    (runInit env run request).1.PreCondition = request.PreCondition := by
  induction run generalizing request with
  | done result => rfl
  | set varname value next ih =>
    simp only [runInit]
    split_ifs
    · exact ih _ _
    · exact ih _ _
    · rw [ih]
  | updatePayload varname value next ih =>
    simp only [runInit]
    split
    · rw [ih]
    · exact ih _ _

theorem compileInit_PreCondition (env : Env) (request : Request) :
    (compileInit env request).1.PreCondition = request.PreCondition := by
  have h := runInit_PreCondition env
    (env.jsInit request.Init
      ⟨match evaluateArgs env request
          (MergeMaps [env.variablesGetAll, env.varsAsMap, env.Constants]) true with
        | .ok a => a
        | .error _ => [], []⟩) request
  simp only [compileInit]
  split
  · rename_i r err heq
    rw [heq] at h
    exact h
  · rename_i r res heq
    rw [heq] at h
    exact h

theorem compilePortAndInit_PreCondition (env : Env) (request : Request) :
    (compilePortAndInit env request).1.PreCondition = request.PreCondition := by
  simp only [compilePortAndInit]
  split_ifs
  · rfl
  · exact compileInit_PreCondition env request
  · rfl

theorem compileOperators_PreCondition (env : Env) (request : Request) :
    (compileOperators env request).1.PreCondition = request.PreCondition := by
  simp only [compileOperators]
  split_ifs
  · split
    · rfl
    · rw [compilePortAndInit_PreCondition]
  · exact compilePortAndInit_PreCondition env request

theorem Compile_PreCondition (env : Env) (request : Request) :
    (Compile env request).1.PreCondition = request.PreCondition := by
  simp only [Compile]
  split_ifs
  · split
    · rfl
    · rw [compileOperators_PreCondition]
  · exact compileOperators_PreCondition env request

/-- C1: for the request that leaves `Compile`, `Requests` is the total of a fresh
iterator of its generator plus `p` when a generator was built, and `1 + p` when none
was, `p` being 1 for a declared precondition and 0 for an empty one. -/
theorem C1_requests_total (env : Env) (request : Request) :
    (∀ generator, (Compile env request).1.generator = some generator →
      Requests (Compile env request).1
        = generator.NewIterator.Total + (if request.PreCondition ≠ "" then 1 else 0)) ∧
    ((Compile env request).1.generator = none →
      Requests (Compile env request).1 = 1 + (if request.PreCondition ≠ "" then 1 else 0)) := by
  have hp := Compile_PreCondition env request
  constructor
  · intro generator hg
    simp only [Requests, hg, hp]
  · intro hg
    simp only [Requests, hg, hp]

theorem EqualFold_symm (a b : String) (h : EqualFold a b = false) : EqualFold b a = false := by
  simp only [EqualFold, beq_eq_false_iff_ne, ne_eq] at h ⊢
  exact fun e => h e.symm

theorem EqualFold_of_common (a b c : String) (ha : EqualFold a c = true)
    (hb : EqualFold b c = true) : EqualFold a b = true := by
  simp only [EqualFold, beq_iff_eq] at ha hb ⊢
  rw [ha, hb]

/-- With keys unique up to case, the port check of `Compile` fires exactly when the
argument named `Port` up to case has a string form containing the opener. -/
theorem getPort_contains_iff (env : Env) (request : Request)
    (huniq : request.Args.Pairwise (fun a b => EqualFold a.1 b.1 = false)) :
    Contains (getPort env request) "\x7b\x7b" = true ↔
      ∃ kv ∈ request.Args, EqualFold kv.1 "Port" = true ∧
        Contains (ToString env kv.2) "\x7b\x7b" = true := by
  unfold getPort
  cases hfind : request.Args.find? (fun kv => EqualFold kv.1 "Port") with
  | none =>
    constructor
    · intro h
      have hempty : Contains "" "\x7b\x7b" = false := by decide
      simp only [hempty] at h
      exact absurd h (by decide)
    · rintro ⟨kv, hmem, hkey, _⟩
      have := List.find?_eq_none.mp hfind kv hmem
      simp [hkey] at this
  | some kv₀ =>
    have hmem₀ : kv₀ ∈ request.Args := List.mem_of_find?_eq_some hfind
    have hkey₀ : EqualFold kv₀.1 "Port" = true := by
      simpa using List.find?_some hfind
    constructor
    · intro h
      exact ⟨kv₀, hmem₀, hkey₀, h⟩
    · rintro ⟨kv, hmem, hkey, hcont⟩
      have hsame : kv = kv₀ := by
        by_contra hne
        have hsymm : Symmetric (fun a b : String × Value => EqualFold a.1 b.1 = false) :=
          fun a b hab => EqualFold_symm a.1 b.1 hab
        have hdiff := huniq.forall hsymm hmem hmem₀ hne
        rw [EqualFold_of_common kv.1 kv₀.1 "Port" hkey hkey₀] at hdiff
        exact absurd hdiff (by decide)
      rw [← hsame]
      exact hcont

/-- C5: with argument keys unique up to case, payload parsing and operator
compilation succeeding and no init script, `Compile` returns an error exactly when
the argument whose key is `Port` up to case has a value whose string contains the
expression opener. -/
theorem C5_compile_fails_iff_port_expression (env : Env) (request : Request)
    (huniq : request.Args.Pairwise (fun a b => EqualFold a.1 b.1 = false))
    (hpayloads : request.Payloads.length > 0 →
      (env.generatorsNew request.Payloads request.AttackType).2 = none)
    (hoperators : request.Operators.Matchers.length > 0 ∨
        request.Operators.Extractors.length > 0 →
      env.operatorsCompile (prepareOperators env request) = none)
    (hinit : request.Init = "") :
    (Compile env request).2.isSome = true ↔
      ∃ kv ∈ request.Args, EqualFold kv.1 "Port" = true ∧
        Contains (ToString env kv.2) "\x7b\x7b" = true := by
  rw [← getPort_contains_iff env request huniq]
  have hport : ∀ r : Request, r.Args = request.Args → r.Init = "" →
      ((compilePortAndInit env r).2.isSome = true ↔
        Contains (getPort env request) "\x7b\x7b" = true) := by
    intro r hargs hi
    have hgp : getPort env r = getPort env request := by simp only [getPort, hargs]
    simp only [compilePortAndInit, hgp, hi]
    by_cases hc : Contains (getPort env request) "\x7b\x7b" = true
    · simp [hc]
    · simp [hc]
  have hops : ∀ r : Request, r.Args = request.Args → r.Init = "" →
      r.Operators = request.Operators →
      ((compileOperators env r).2.isSome = true ↔
        Contains (getPort env request) "\x7b\x7b" = true) := by
    intro r hargs hi hop
    have hprep : prepareOperators env r = prepareOperators env request := by
      simp only [prepareOperators, hop]
    simp only [compileOperators, hprep, hop]
    split_ifs with hdecl
    · simp only [hoperators hdecl]
      exact hport _ hargs hi
    · exact hport _ hargs hi
  simp only [Compile]
  split_ifs with hlen
  · simp only [hpayloads hlen]
    exact hops _ rfl hinit rfl
  · exact hops _ rfl hinit rfl

/-- C5 at work: `PORT` with an expression fails to compile. -/
theorem C5_compile_fails_iff_port_expression_witness :
    (Compile demoEnv
        (demoRequest "probe" "" [("PORT", .str "\x7b\x7bport\x7d\x7d")] [] [] false 0)).2.isSome = true ↔
      ∃ kv ∈ (demoRequest "probe" "" [("PORT", .str "\x7b\x7bport\x7d\x7d")] [] [] false 0).Args,
        EqualFold kv.1 "Port" = true ∧ Contains (ToString demoEnv kv.2) "\x7b\x7b" = true :=
  C5_compile_fails_iff_port_expression demoEnv
    (demoRequest "probe" "" [("PORT", .str "\x7b\x7bport\x7d\x7d")] [] [] false 0)
    (by simp [demoRequest]) (by simp [demoRequest]) (by simp [demoRequest]) (by rfl)

/-- The port argument `PORT` holding an expression is refused. -/
theorem Compile_refuses_port_expression :
    (Compile demoEnv
      (demoRequest "probe" "" [("PORT", .str "\x7b\x7bport\x7d\x7d")] [] [] false 0)).2.isSome
      = true := by decide

/-- The port argument `PORT` holding a number is accepted. -/
theorem Compile_accepts_port_literal :
    (Compile demoEnv
      (demoRequest "probe" "" [("PORT", .str "8080")] [] [] false 0)).2 = none := by decide

/-! ## One probe -/

theorem Forwards_forward : Forwards forward := by
  intro event st
  simp [forward]

theorem CreateEvent_InternalEvent (env : Env) (request : Request) (outputEvent payload : GoMap) :
    (CreateEventWithAdditionalOptions env request outputEvent payload).InternalEvent
      = outputEvent := by
  simp only [CreateEventWithAdditionalOptions]
  split
  · rfl
  · split <;> rfl

theorem CreateEvent_not_matched (env : Env) (request : Request) (outputEvent payload : GoMap)
    (h : request.CompiledOperators = none) :
    (CreateEventWithAdditionalOptions env request outputEvent payload).isMatched = false := by
  simp [CreateEventWithAdditionalOptions, h, InternalWrappedEvent.isMatched]

theorem probeData_has_of_results (env : Env) (request : Request) (hostPort : String)
    (input : Target) (payloadValues results : GoMap) (k : String)
    (h : results.has k = true) :
    (probeData env request hostPort input payloadValues results).has k = true := by
  simp only [probeData]
  have h0 := GoMap.has_setAll_of_src results
    ((GoMap.setAll [] payloadValues).set "type" (.str "javascript")) k h
  split_ifs
  · repeat apply GoMap.has_set_of_has
    exact h0
  · repeat apply GoMap.has_set_of_has
    exact h0

theorem outcomeData_has_of_results (env : Env) (request : Request) (hostPort : String)
    (input : Target) (payloadValues results templateCtx : GoMap) (k : String)
    (h : results.has k = true) :
    (outcomeData env request hostPort input payloadValues results templateCtx).1.has k
      = true := by
  simp only [outcomeData]
  exact MergeMaps_has_left _ _ k (probeData_has_of_results env request hostPort input _ _ k h)

/-- A probe whose arguments were produced is the outcome routing applied to its
outcome data, in the state that has counted the request and logged the call. -/
theorem executeRequestWithPayloads_of_args (env : Env) (request : Request) (hostPort : String)
    (input : Target) (hostname : String) (payload previous : GoMap)
    (callback : InternalWrappedEvent → State → State) (st : State) (argsCopy : ExecuteArgs)
    (hargs : getArgsCopy env request input (MergeMaps [payload, previous]) false = .ok argsCopy) :
    executeRequestWithPayloads env request hostPort input hostname payload previous callback st
      = .ok (routeOutcome env request payload (MergeMaps [payload, previous])
          (probeOutcomeData env request hostPort input payload previous argsCopy st)
          (probeBody env request).2
          (probeResults (env.jsExecute (probeBody env request).1 (probeArgs argsCopy st))).2
          callback (afterCall env request hostPort input payload previous argsCopy st)) := by
  simp only [executeRequestWithPayloads, hargs, probeOutcomeData, probeArgs, afterCall]

/-- A probe that returns had its arguments produced. -/
theorem args_of_executeRequestWithPayloads (env : Env) (request : Request) (hostPort : String)
    (input : Target) (hostname : String) (payload previous : GoMap)
    (callback : InternalWrappedEvent → State → State) (st : State)
    (r : Option String × State)
    (hrun : executeRequestWithPayloads env request hostPort input hostname payload previous
      callback st = .ok r) :
    ∃ argsCopy, getArgsCopy env request input (MergeMaps [payload, previous]) false
      = .ok argsCopy := by
  cases hargs : getArgsCopy env request input (MergeMaps [payload, previous]) false with
  | error p => simp [executeRequestWithPayloads, hargs] at hrun
  | ok argsCopy => exact ⟨argsCopy, rfl⟩

theorem probeBody_urls_of_no_client (env : Env) (request : Request)
    (h : env.Interactsh = none) : (probeBody env request).2 = [] := by
  simp [probeBody, h]

/-- The outcome routing under a forwarding callback: one event and no registration
with an error key or without placeholders, one registration and no event otherwise. -/
theorem routeOutcome_forwards (env : Env) (request : Request) (payload payloadValues data : GoMap)
    (err : Option String) (callback : InternalWrappedEvent → State → State) (st : State)
    (hcb : Forwards callback) :
    (data.has "error" = true ∨ (probeBody env request).2 = [] →
      (∃ event, (routeOutcome env request payload payloadValues data (probeBody env request).2
          err callback st).2.events = st.events ++ [event]) ∧
      (routeOutcome env request payload payloadValues data (probeBody env request).2
          err callback st).2.registrations = st.registrations) ∧
    (data.has "error" = false ∧ (probeBody env request).2 ≠ [] →
      (routeOutcome env request payload payloadValues data (probeBody env request).2
          err callback st).2.events = st.events ∧
      ∃ registration, (routeOutcome env request payload payloadValues data
          (probeBody env request).2 err callback st).2.registrations
            = st.registrations ++ [registration]) := by
  constructor
  · intro h
    by_cases herr : data.has "error" = true
    · simp only [routeOutcome, herr, if_true]
      exact ⟨⟨_, (hcb _ _).1⟩, (hcb _ _).2⟩
    · rcases h with h | h
      · exact absurd h herr
      · simp only [routeOutcome, herr, h, List.length_nil, if_true]
        exact ⟨⟨_, (hcb _ _).1⟩, (hcb _ _).2⟩
  · rintro ⟨herr, hurls⟩
    have hlen : ¬ (probeBody env request).2.length = 0 := by
      intro h0
      exact hurls (List.length_eq_zero.mp h0)
    cases hclient : env.Interactsh with
    | none => exact absurd (probeBody_urls_of_no_client env request hclient) hurls
    | some client =>
      simp only [routeOutcome, herr, hlen, hclient]
      exact ⟨rfl, ⟨_, rfl⟩⟩

/-- C7: an executed probe under a forwarding callback invokes the callback exactly once
when its outcome data carry an error key or no out-of-band placeholder was generated,
and invokes it not at all while making exactly one out-of-band registration when
there is no error key and at least one placeholder. -/
theorem C7_outcome_routing (env : Env) (request : Request) (hostPort : String)
    (input : Target) (hostname : String) (payload previous : GoMap)
    (callback : InternalWrappedEvent → State → State) (st : State) (argsCopy : ExecuteArgs)
    (hcb : Forwards callback)
    (hargs : getArgsCopy env request input (MergeMaps [payload, previous]) false = .ok argsCopy) :
    ∃ err st', executeRequestWithPayloads env request hostPort input hostname payload previous
        callback st = .ok (err, st') ∧
      ((probeOutcomeData env request hostPort input payload previous argsCopy st).has "error"
            = true ∨ (probeBody env request).2 = [] →
        (∃ event, st'.events = st.events ++ [event]) ∧
          st'.registrations = st.registrations) ∧
      ((probeOutcomeData env request hostPort input payload previous argsCopy st).has "error"
            = false ∧ (probeBody env request).2 ≠ [] →
        st'.events = st.events ∧
          ∃ registration, st'.registrations = st.registrations ++ [registration]) := by
  rw [executeRequestWithPayloads_of_args env request hostPort input hostname payload previous
    callback st argsCopy hargs]
  refine ⟨_, _, rfl, ?_⟩
  exact routeOutcome_forwards env request payload _ _ _ callback _ hcb

/-- A failing interpreter call: the probe returns the interpreter's error after giving
the callback the error event, whose data carry the error key. -/
theorem probe_of_failure (env : Env) (request : Request) (hostPort : String)
    (input : Target) (hostname : String) (payload previous : GoMap)
    (callback : InternalWrappedEvent → State → State) (st : State) (argsCopy : ExecuteArgs)
    (e : String)
    (hargs : getArgsCopy env request input (MergeMaps [payload, previous]) false = .ok argsCopy)
    (hfail : env.jsExecute (probeBody env request).1 (probeArgs argsCopy st) = .error e) :
    executeRequestWithPayloads env request hostPort input hostname payload previous
        callback st
      = .ok (some e, callback
          (errorEvent env request hostPort input payload previous argsCopy st)
          (afterCall env request hostPort input payload previous argsCopy st)) ∧
    (errorEvent env request hostPort input payload previous argsCopy st).InternalEvent.has
      "error" = true := by
  rw [executeRequestWithPayloads_of_args env request hostPort input hostname payload previous
    callback st argsCopy hargs]
  have hres : (probeResults (env.jsExecute (probeBody env request).1 (probeArgs argsCopy st)))
      = ([("success", .bool false), ("error", .str e)], some e) := by
    rw [hfail]; rfl
  have hkey : (probeOutcomeData env request hostPort input payload previous argsCopy st).has
      "error" = true := by
    simp only [probeOutcomeData, hres]
    exact outcomeData_has_of_results _ _ _ _ _ _ _ _
      (by simp [GoMap.has, GoMap.get, List.lookup])
  constructor
  · simp only [routeOutcome, hkey, if_true, hres, errorEvent]
  · rw [errorEvent, CreateEvent_InternalEvent]
    exact MergeMaps_has_left _ _ _ hkey

/-- C7 at work: a probe without out-of-band client gives the callback one event. -/
theorem C7_outcome_routing_witness :
    Forwards forward ∧
    getArgsCopy demoEnv (demoSingle "probe" []) demoTarget (MergeMaps [[], []]) false
      = .ok ⟨[("Port", .str "22")], []⟩ ∧
    ∃ err st', executeRequestWithPayloads demoEnv (demoSingle "probe" []) "scanme.sh:22"
        demoTarget "scanme.sh" [] [] forward State.init = .ok (err, st') ∧
      ((probeOutcomeData demoEnv (demoSingle "probe" []) "scanme.sh:22" demoTarget [] []
            ⟨[("Port", .str "22")], []⟩ State.init).has "error" = true ∨
          (probeBody demoEnv (demoSingle "probe" [])).2 = [] →
        (∃ event, st'.events = State.init.events ++ [event]) ∧
          st'.registrations = State.init.registrations) ∧
      ((probeOutcomeData demoEnv (demoSingle "probe" []) "scanme.sh:22" demoTarget [] []
            ⟨[("Port", .str "22")], []⟩ State.init).has "error" = false ∧
          (probeBody demoEnv (demoSingle "probe" [])).2 ≠ [] →
        st'.events = State.init.events ∧
          ∃ registration, st'.registrations = State.init.registrations ++ [registration]) :=
  ⟨Forwards_forward, by rfl,
    C7_outcome_routing demoEnv (demoSingle "probe" []) "scanme.sh:22" demoTarget "scanme.sh"
      [] [] forward State.init ⟨[("Port", .str "22")], []⟩ Forwards_forward (by rfl)⟩

/-- C3 as stated fails: the interpreter fails on the one probe of a sequential run
whose matcher looks for the error text, and the match counter goes from 0 to 1. -/
theorem C3_counterexample :
    (∀ args, demoEnv.jsExecute "fail" args = .error "boom") ∧
    (ExecuteWithResults demoEnv
        (demoSweepRequest "fail" ["1"] [⟨"error", .WordsMatcher, "boom"⟩] false 0)
        demoTarget [] [] [] State.init).toOption.map
      (fun r => (r.2.probes.length, r.2.events.map (fun ev => ev.InternalEvent.has "error"),
        r.2.matched)) = some (1, [true], 1) :=
  ⟨fun _ => rfl, by rfl⟩

/-- C3, amended: a probe whose interpreter call fails gives the callback exactly one
event, whose data carry the `error` key; the sequential loop counts a match for it
exactly when the compiled operators match that event, a parallel worker then sets
the shared flag and leaves the counter alone, the single probe leaves both alone;
and the event is not matched when no operators are compiled. -/
theorem C3_failed_probe_event (env : Env) (request : Request) (hostPort : String)
    (input : Target) (hostname : String) (payload previous : GoMap) (st : State)
    (argsCopy : ExecuteArgs) (e : String)
    (hargs : getArgsCopy env request input (MergeMaps [payload, previous]) false = .ok argsCopy)
    (hfail : env.jsExecute (probeBody env request).1 (probeArgs argsCopy st) = .error e) :
    ∃ event : InternalWrappedEvent,
      event.InternalEvent.has "error" = true ∧
      (request.CompiledOperators = none → event.isMatched = false) ∧
      (∃ st', executeRequestWithPayloads env request hostPort input hostname payload previous
          (sequentialCallback forward) st = .ok (some e, st') ∧
        st'.events = st.events ++ [event] ∧
        st'.matched = st.matched + (if event.isMatched then 1 else 0)) ∧
      (∃ st', executeRequestWithPayloads env request hostPort input hostname payload previous
          (parallelCallback forward) st = .ok (some e, st') ∧
        st'.events = st.events ++ [event] ∧ st'.matched = st.matched ∧
        st'.gotMatches = (st.gotMatches || event.isMatched)) ∧
      (∃ st', executeRequestWithPayloads env request hostPort input hostname payload previous
          forward st = .ok (some e, st') ∧
        st'.events = st.events ++ [event] ∧ st'.matched = st.matched ∧
        st'.gotMatches = st.gotMatches) := by
  refine ⟨errorEvent env request hostPort input payload previous argsCopy st, ?_, ?_, ?_, ?_, ?_⟩
  · exact (probe_of_failure env request hostPort input hostname payload previous forward st
      argsCopy e hargs hfail).2
  · intro hnone
    exact CreateEvent_not_matched env request _ _ hnone
  · refine ⟨_, (probe_of_failure env request hostPort input hostname payload previous
      (sequentialCallback forward) st argsCopy e hargs hfail).1, ?_, ?_⟩
    · simp only [sequentialCallback]
      split_ifs <;> simp [forward, afterCall]
    · simp only [sequentialCallback]
      split_ifs <;> simp [forward, afterCall]
  · refine ⟨_, (probe_of_failure env request hostPort input hostname payload previous
      (parallelCallback forward) st argsCopy e hargs hfail).1, ?_, ?_, ?_⟩
    · simp only [parallelCallback]
      split_ifs <;> simp [forward, afterCall]
    · simp only [parallelCallback]
      split_ifs <;> simp [forward, afterCall]
    · simp only [parallelCallback]
      split_ifs with hm <;> simp [forward, afterCall, hm]
  · refine ⟨_, (probe_of_failure env request hostPort input hostname payload previous
      forward st argsCopy e hargs hfail).1, ?_, ?_, ?_⟩ <;> simp [forward, afterCall]

/-- C3 at work: the failing probe of the sweep over one value set. -/
theorem C3_failed_probe_event_witness :
    getArgsCopy demoEnv (demoSweepRequest "fail" ["1"] [⟨"error", .WordsMatcher, "boom"⟩] false 0)
      demoTarget (MergeMaps [[("id", .str "1")], []]) false = .ok ⟨[("Port", .str "22")], []⟩ ∧
    demoEnv.jsExecute
      (probeBody demoEnv (demoSweepRequest "fail" ["1"] [⟨"error", .WordsMatcher, "boom"⟩] false 0)).1
      (probeArgs ⟨[("Port", .str "22")], []⟩ State.init) = .error "boom" ∧
    ∃ event : InternalWrappedEvent,
      event.InternalEvent.has "error" = true ∧
      ((demoSweepRequest "fail" ["1"] [⟨"error", .WordsMatcher, "boom"⟩] false 0).CompiledOperators = none → event.isMatched = false) ∧
      (∃ st', executeRequestWithPayloads demoEnv (demoSweepRequest "fail" ["1"] [⟨"error", .WordsMatcher, "boom"⟩] false 0)
          "scanme.sh:22" demoTarget "scanme.sh" [("id", .str "1")] []
          (sequentialCallback forward) State.init = .ok (some "boom", st') ∧
        st'.events = State.init.events ++ [event] ∧
        st'.matched = State.init.matched + (if event.isMatched then 1 else 0)) ∧
      (∃ st', executeRequestWithPayloads demoEnv (demoSweepRequest "fail" ["1"] [⟨"error", .WordsMatcher, "boom"⟩] false 0)
          "scanme.sh:22" demoTarget "scanme.sh" [("id", .str "1")] []
          (parallelCallback forward) State.init = .ok (some "boom", st') ∧
        st'.events = State.init.events ++ [event] ∧ st'.matched = State.init.matched ∧
        st'.gotMatches = (State.init.gotMatches || event.isMatched)) ∧
      (∃ st', executeRequestWithPayloads demoEnv (demoSweepRequest "fail" ["1"] [⟨"error", .WordsMatcher, "boom"⟩] false 0)
          "scanme.sh:22" demoTarget "scanme.sh" [("id", .str "1")] []
          forward State.init = .ok (some "boom", st') ∧
        st'.events = State.init.events ++ [event] ∧ st'.matched = State.init.matched ∧
        st'.gotMatches = State.init.gotMatches) :=
  ⟨by rfl, by rfl,
    C3_failed_probe_event demoEnv (demoSweepRequest "fail" ["1"] [⟨"error", .WordsMatcher, "boom"⟩] false 0)
      "scanme.sh:22" demoTarget "scanme.sh" [("id", .str "1")] [] State.init
      ⟨[("Port", .str "22")], []⟩ "boom" (by rfl) (by rfl)⟩

/-! ## The sequential loop -/

theorem matchedEvents_forward (event : InternalWrappedEvent) (st : State) :
    (forward event st).matchedEvents
      = st.matchedEvents + (if event.isMatched then 1 else 0) := by
  simp only [State.matchedEvents, forward, List.filter_append, List.length_append]
  by_cases h : event.isMatched = true
  · simp [List.filter, h]
  · simp [List.filter, h]

/-- What one call of the sequential callback changes: the log of events grows by the
event, and a matched event sets the flag and counts a match. -/
theorem sequentialCallback_effect (event : InternalWrappedEvent) (st : State) :
    (sequentialCallback forward event st).probes = st.probes ∧
    (sequentialCallback forward event st).pulls = st.pulls ∧
    (sequentialCallback forward event st).requests = st.requests ∧
    ((sequentialCallback forward event st).matchedEvents = st.matchedEvents ∧
      (sequentialCallback forward event st).gotMatches = st.gotMatches ∧
      (sequentialCallback forward event st).matched = st.matched ∨
     (sequentialCallback forward event st).matchedEvents = st.matchedEvents + 1 ∧
      (sequentialCallback forward event st).gotMatches = true ∧
      (sequentialCallback forward event st).matched = st.matched + 1) := by
  by_cases h : event.isMatched = true
  · simp only [sequentialCallback, h, if_true]
    refine ⟨rfl, rfl, rfl, Or.inr ⟨?_, rfl, rfl⟩⟩
    rw [matchedEvents_forward]
    simp [h, State.matchedEvents]
  · have hf : event.isMatched = false := by simpa using h
    simp only [sequentialCallback, hf, Bool.false_eq_true, if_false]
    refine ⟨rfl, rfl, rfl, Or.inl ⟨?_, rfl, rfl⟩⟩
    rw [matchedEvents_forward]
    simp [hf]

/-- What the outcome routing changes under the sequential callback. -/
theorem routeOutcome_sequential (env : Env) (request : Request)
    (payload payloadValues data : GoMap) (urls : List String) (err : Option String)
    (st : State) :
    (routeOutcome env request payload payloadValues data urls err
        (sequentialCallback forward) st).2.probes = st.probes ∧
    (routeOutcome env request payload payloadValues data urls err
        (sequentialCallback forward) st).2.pulls = st.pulls ∧
    (routeOutcome env request payload payloadValues data urls err
        (sequentialCallback forward) st).2.requests = st.requests ∧
    ((routeOutcome env request payload payloadValues data urls err
          (sequentialCallback forward) st).2.matchedEvents = st.matchedEvents ∧
      (routeOutcome env request payload payloadValues data urls err
          (sequentialCallback forward) st).2.gotMatches = st.gotMatches ∧
      (routeOutcome env request payload payloadValues data urls err
          (sequentialCallback forward) st).2.matched = st.matched ∨
     (routeOutcome env request payload payloadValues data urls err
          (sequentialCallback forward) st).2.matchedEvents = st.matchedEvents + 1 ∧
      (routeOutcome env request payload payloadValues data urls err
          (sequentialCallback forward) st).2.gotMatches = true ∧
      (routeOutcome env request payload payloadValues data urls err
          (sequentialCallback forward) st).2.matched = st.matched + 1) := by
  simp only [routeOutcome]
  split_ifs
  · exact sequentialCallback_effect _ _
  · exact sequentialCallback_effect _ _
  · split
    · exact ⟨rfl, rfl, rfl, Or.inl ⟨rfl, rfl, rfl⟩⟩
    · exact ⟨rfl, rfl, rfl, Or.inl ⟨rfl, rfl, rfl⟩⟩

/-- What one step of the sequential loop changes: one value set is taken, one probe is
issued for it and counted, and either no matched event reaches the caller and the
flag keeps its value, or exactly one does and the flag is set. -/
theorem sequential_step (env : Env) (request : Request) (hostPort : String) (input : Target)
    (hostname : String) (payloadValues value : GoMap) (st st' : State) (err : Option String)
    (hrun : executeRequestWithPayloads env request hostPort input hostname value payloadValues
      (sequentialCallback forward) { st with pulls := st.pulls + 1 } = .ok (err, st')) :
    st'.probes.map ProbeCall.payload = st.probes.map ProbeCall.payload ++ [value] ∧
    st'.pulls = st.pulls + 1 ∧
    st'.requests = st.requests + 1 ∧
    (st'.matchedEvents = st.matchedEvents ∧ st'.gotMatches = st.gotMatches ∧
      st'.matched = st.matched ∨
     st'.matchedEvents = st.matchedEvents + 1 ∧ st'.gotMatches = true ∧
      st'.matched = st.matched + 1) := by
  obtain ⟨argsCopy, hargs⟩ := args_of_executeRequestWithPayloads env request hostPort input
    hostname value payloadValues _ _ _ hrun
  rw [executeRequestWithPayloads_of_args env request hostPort input hostname value payloadValues
    _ _ argsCopy hargs] at hrun
  have hst : st' = (routeOutcome env request value (MergeMaps [value, payloadValues])
      (probeOutcomeData env request hostPort input value payloadValues argsCopy
        { st with pulls := st.pulls + 1 })
      (probeBody env request).2
      (probeResults (env.jsExecute (probeBody env request).1
        (probeArgs argsCopy { st with pulls := st.pulls + 1 }))).2
      (sequentialCallback forward)
      (afterCall env request hostPort input value payloadValues argsCopy
        { st with pulls := st.pulls + 1 })).2 := by
    injection hrun with hrun
    rw [hrun]
  obtain ⟨h1, h2, h3, h4⟩ := routeOutcome_sequential env request value
    (MergeMaps [value, payloadValues])
    (probeOutcomeData env request hostPort input value payloadValues argsCopy
      { st with pulls := st.pulls + 1 })
    (probeBody env request).2
    (probeResults (env.jsExecute (probeBody env request).1
      (probeArgs argsCopy { st with pulls := st.pulls + 1 }))).2
    (afterCall env request hostPort input value payloadValues argsCopy
      { st with pulls := st.pulls + 1 })
  rw [← hst] at h1 h2 h3 h4
  refine ⟨?_, ?_, ?_, ?_⟩
  · rw [h1]
    simp [afterCall]
  · rw [h2]
    simp [afterCall]
  · rw [h3]
    simp [afterCall]
  · simpa [afterCall, State.matchedEvents] using h4

/-- The number of matched events given to the caller never goes down in the loop. -/
theorem sequentialLoop_matchedEvents_mono (env : Env) (request : Request) (hostPort : String)
    (input : Target) (hostname : String) (payloadValues : GoMap) (values : List GoMap)
    (st st' : State)
    (hrun : sequentialLoop env request hostPort input hostname payloadValues forward values st
      = .ok st') :
    st.matchedEvents ≤ st'.matchedEvents := by
  induction values generalizing st with
  | nil =>
    simp only [sequentialLoop] at hrun
    injection hrun with hrun
    rw [hrun]
  | cons value rest ih =>
    cases hexec : executeRequestWithPayloads env request hostPort input hostname value
        payloadValues (sequentialCallback forward) { st with pulls := st.pulls + 1 } with
    | error p => simp [sequentialLoop, hexec] at hrun
    | ok r =>
      obtain ⟨err, s⟩ := r
      obtain ⟨_, _, _, hm⟩ := sequential_step env request hostPort input hostname payloadValues
        value st s err hexec
      have hle : st.matchedEvents ≤ s.matchedEvents := by
        rcases hm with ⟨h, _, _⟩ | ⟨h, _, _⟩ <;> omega
      simp only [sequentialLoop, hexec] at hrun
      split_ifs at hrun
      · injection hrun with hrun
        rw [← hrun]
        exact hle
      · exact le_trans hle (ih s hrun)

/-- A stretch of the loop that starts with the flag down and gives the caller no
matched event runs through all of its value sets and leaves the flag down; what
follows it in the iterator is served from the state it ends in. -/
theorem sequentialLoop_quiet (env : Env) (request : Request) (hostPort : String)
    (input : Target) (hostname : String) (payloadValues : GoMap) (pre : List GoMap)
    (st st₁ : State)
    (hgot : st.gotMatches = false)
    (hrun : sequentialLoop env request hostPort input hostname payloadValues forward pre st
      = .ok st₁)
    (hquiet : st₁.matchedEvents = st.matchedEvents) :
    st₁.gotMatches = false ∧
    st₁.probes.length = st.probes.length + pre.length ∧
    st₁.pulls = st.pulls + pre.length ∧
    ∀ rest, sequentialLoop env request hostPort input hostname payloadValues forward
        (pre ++ rest) st
      = sequentialLoop env request hostPort input hostname payloadValues forward rest st₁ := by
  induction pre generalizing st with
  | nil =>
    simp only [sequentialLoop] at hrun
    injection hrun with hrun
    subst hrun
    exact ⟨hgot, by simp, by simp, fun rest => by simp⟩
  | cons value pre ih =>
    cases hexec : executeRequestWithPayloads env request hostPort input hostname value
        payloadValues (sequentialCallback forward) { st with pulls := st.pulls + 1 } with
    | error p => simp [sequentialLoop, hexec] at hrun
    | ok r =>
      obtain ⟨err, s⟩ := r
      obtain ⟨hp, hpull, _, hm⟩ := sequential_step env request hostPort input hostname
        payloadValues value st s err hexec
      have hplen : s.probes.length = st.probes.length + 1 := by
        have := congrArg List.length hp
        simpa using this
      simp only [sequentialLoop, hexec] at hrun
      rcases hm with ⟨hme, hg, _⟩ | ⟨hme, hg, _⟩
      · have hsg : s.gotMatches = false := by rw [hg, hgot]
        simp only [hsg, Bool.and_false, Bool.false_eq_true, if_false] at hrun
        obtain ⟨h1, h2, h3, h4⟩ := ih s hsg hrun (by rw [hquiet, hme])
        refine ⟨h1, ?_, ?_, ?_⟩
        · rw [h2, hplen, List.length_cons]; omega
        · rw [h3, hpull, List.length_cons]; omega
        · intro rest
          simp only [List.cons_append, sequentialLoop, hexec, hsg, Bool.and_false,
            Bool.false_eq_true, if_false]
          exact h4 rest
      · exfalso
        split_ifs at hrun
        · injection hrun with hrun
          rw [← hrun] at hquiet
          omega
        · have := sequentialLoop_matchedEvents_mono env request hostPort input hostname
            payloadValues pre s st₁ hrun
          omega

/-- C2: in the sequential loop stopping at the first match, when the entries before
the k-th give the caller no matched event and the k-th gives one, the loop returns
after the k-th probe: k probes issued, k value sets taken from the iterator, and one
matched event given to the caller. -/
theorem C2_sequential_stops_at_first_match (env : Env) (request : Request)
    (hostPort : String) (input : Target) (hostname : String) (payloadValues : GoMap)
    (pre post : List GoMap) (value : GoMap) (st st₁ st₂ : State) (err : Option String)
    (hstop : shouldStopAtFirstMatch env request = true)
    (hgot : st.gotMatches = false)
    (hpre : sequentialLoop env request hostPort input hostname payloadValues forward pre st
      = .ok st₁)
    (hquiet : st₁.matchedEvents = st.matchedEvents)
    (hkth : executeRequestWithPayloads env request hostPort input hostname value payloadValues
      (sequentialCallback forward) { st₁ with pulls := st₁.pulls + 1 } = .ok (err, st₂))
    (hmatch : st₂.matchedEvents = st₁.matchedEvents + 1) :
    sequentialLoop env request hostPort input hostname payloadValues forward
        (pre ++ value :: post) st = .ok st₂ ∧
    st₂.probes.length = st.probes.length + (pre.length + 1) ∧
    st₂.pulls = st.pulls + (pre.length + 1) ∧
    st₂.matchedEvents = st.matchedEvents + 1 := by
  obtain ⟨_, hprobes, hpulls, hrest⟩ := sequentialLoop_quiet env request hostPort input
    hostname payloadValues pre st st₁ hgot hpre hquiet
  obtain ⟨hp, hpull, _, hm⟩ := sequential_step env request hostPort input hostname
    payloadValues value st₁ st₂ err hkth
  have hplen : st₂.probes.length = st₁.probes.length + 1 := by
    have := congrArg List.length hp
    simpa using this
  have hflag : st₂.gotMatches = true := by
    rcases hm with ⟨h, _, _⟩ | ⟨_, h, _⟩
    · omega
    · exact h
  refine ⟨?_, ?_, ?_, ?_⟩
  · rw [hrest]
    simp [sequentialLoop, hkth, hstop, hflag]
  · omega
  · omega
  · omega

/-- C2 at work, on the spec's example: the sweep of `id` over 1, 2, 3 with a matcher
wanting 2 issues two probes, takes two value sets and gives the caller one matched
event. -/
theorem C2_sequential_stops_at_first_match_witness :
    shouldStopAtFirstMatch demoEnv demoStopRequest = true ∧
    State.init.gotMatches = false ∧
    sequentialLoop demoEnv demoStopRequest "scanme.sh:22" demoTarget "scanme.sh:22" []
        forward [[("id", .str "1")]] State.init = .ok demoStopFirst ∧
    demoStopFirst.matchedEvents = State.init.matchedEvents ∧
    executeRequestWithPayloads demoEnv demoStopRequest "scanme.sh:22" demoTarget "scanme.sh:22"
        [("id", .str "2")] [] (sequentialCallback forward)
        { demoStopFirst with pulls := demoStopFirst.pulls + 1 } = .ok (none, demoStopSecond) ∧
    demoStopSecond.matchedEvents = demoStopFirst.matchedEvents + 1 ∧
    (sequentialLoop demoEnv demoStopRequest "scanme.sh:22" demoTarget "scanme.sh:22" []
        forward ([[("id", .str "1")]] ++ [("id", .str "2")] :: [[("id", .str "3")]]) State.init
        = .ok demoStopSecond ∧
      demoStopSecond.probes.length = State.init.probes.length + ([[("id", Value.str "1")]].length + 1) ∧
      demoStopSecond.pulls = State.init.pulls + ([[("id", Value.str "1")]].length + 1) ∧
      demoStopSecond.matchedEvents = State.init.matchedEvents + 1) :=
  ⟨by rfl, by rfl, by rfl, by rfl, by rfl, by rfl,
    C2_sequential_stops_at_first_match demoEnv demoStopRequest "scanme.sh:22" demoTarget
      "scanme.sh:22" [] [[("id", .str "1")]] [[("id", .str "3")]] [("id", .str "2")]
      State.init demoStopFirst demoStopSecond none (by rfl) (by rfl) (by rfl) (by rfl) (by rfl)
      (by rfl)⟩

/-- The spec's example through `ExecuteWithResults`: two probes, two value sets taken,
two events given to the caller of which one is matched, one match counted. -/
theorem demoStopRequest_run :
    (ExecuteWithResults demoEnv demoStopRequest demoTarget [] [] [] State.init).toOption.map
      (fun r => (r.1, r.2.probes.map ProbeCall.payload, r.2.pulls, r.2.events.length,
        r.2.matchedEvents, r.2.matched))
      = some (none, [[("id", .str "1")], [("id", .str "2")]], 2, 2, 1, 1) := by
  rfl

/-! ## ExecuteWithResults -/

theorem getAddress_no_error (env : Env) (toTest : String) :
    getAddress env toTest = ((getAddress env toTest).1, none) := by
  simp only [getAddress]
  split <;> rfl

/-- The run on a target, with the address resolved: the scope is built, then the
precondition, if declared, decides whether the dispatch is reached. -/
theorem ExecuteWithResults_eq (env : Env) (request : Request) (target : Target)
    (dynamicValues previous : GoMap) (sched : List Action) (st : State) :
    ExecuteWithResults env request target dynamicValues previous sched st
      = if request.PreCondition ≠ "" then
          match precondition env request (resolveInput env request target)
              (targetScope env request target dynamicValues st.templateCtx).1 previous
              { st with templateCtx :=
                  (targetScope env request target dynamicValues st.templateCtx).2 } with
          | .error p => .error p
          | .ok (.returned err st₁) => .ok (err, st₁)
          | .ok (.passed st₁) =>
            dispatch env request (getAddress env (resolveInput env request target).Input).1
              (resolveHostname env (getAddress env (resolveInput env request target).Input).1)
              (resolveInput env request target)
              (targetScope env request target dynamicValues st.templateCtx).1 sched st₁
        else
          dispatch env request (getAddress env (resolveInput env request target).Input).1
            (resolveHostname env (getAddress env (resolveInput env request target).Input).1)
            (resolveInput env request target)
            (targetScope env request target dynamicValues st.templateCtx).1 sched
            { st with templateCtx :=
                (targetScope env request target dynamicValues st.templateCtx).2 } := by
  unfold ExecuteWithResults
  simp only [targetScope]
  have hno := getAddress_no_error env (resolveInput env request target).Input
  generalize getAddress env (resolveInput env request target).Input = address at hno ⊢
  obtain ⟨hostPort, err⟩ := address
  simp only [Prod.mk.injEq, true_and] at hno
  subst hno
  rfl

/-- C4: when the declared precondition is evaluated and its result is not a success
(success flag false, or a non-empty error string), `ExecuteWithResults` returns no
error, counts exactly one failed request, issues no probe, gives the callback no
event, takes no value set from an iterator, and counts no request and no match. -/
theorem C4_precondition_not_satisfied (env : Env) (request : Request) (target : Target)
    (dynamicValues previous : GoMap) (sched : List Action) (st : State)
    (argsCopy : ExecuteArgs) (result : GoMap)
    (hpre : request.PreCondition ≠ "")
    (hargs : getArgsCopy env request (resolveInput env request target)
      (MergeMaps [(targetScope env request target dynamicValues st.templateCtx).1, previous])
      true = .ok argsCopy)
    (hres : env.jsExecute request.PreCondition
      { argsCopy with
        TemplateCtx := (targetScope env request target dynamicValues st.templateCtx).2 }
      = .ok result)
    (hfail : GetSuccess result = false ∨ ToStringAt env result "error" ≠ "") :
    ∃ st', ExecuteWithResults env request target dynamicValues previous sched st
        = .ok (none, st') ∧
      st'.failedRequests = st.failedRequests + 1 ∧
      st'.probes = st.probes ∧ st'.events = st.events ∧ st'.pulls = st.pulls ∧
      st'.registrations = st.registrations ∧
      st'.requests = st.requests ∧ st'.matched = st.matched := by
  rw [ExecuteWithResults_eq]
  simp only [hpre, ne_eq, not_false_eq_true, if_true, precondition, hargs, hres, hfail]
  exact ⟨_, rfl, rfl, rfl, rfl, rfl, rfl, rfl, rfl⟩

/-- C4 at work: the precondition `false` of the environment in miniature. -/
theorem C4_precondition_not_satisfied_witness :
    (demoGatedRequest "false").PreCondition ≠ "" ∧
    getArgsCopy demoEnv (demoGatedRequest "false") (resolveInput demoEnv (demoGatedRequest "false") demoTarget)
      (MergeMaps [(targetScope demoEnv (demoGatedRequest "false") demoTarget [] State.init.templateCtx).1, []])
      true = .ok ⟨[("Port", .str "22")], []⟩ ∧
    demoEnv.jsExecute (demoGatedRequest "false").PreCondition
      { (⟨[("Port", .str "22")], []⟩ : ExecuteArgs) with
        TemplateCtx := (targetScope demoEnv (demoGatedRequest "false") demoTarget [] State.init.templateCtx).2 }
      = .ok [("success", .bool false)] ∧
    (GetSuccess [("success", .bool false)] = false ∨
      ToStringAt demoEnv [("success", .bool false)] "error" ≠ "") ∧
    ∃ st', ExecuteWithResults demoEnv (demoGatedRequest "false") demoTarget [] [] [] State.init = .ok (none, st') ∧
      st'.failedRequests = State.init.failedRequests + 1 ∧
      st'.probes = State.init.probes ∧ st'.events = State.init.events ∧
      st'.pulls = State.init.pulls ∧ st'.registrations = State.init.registrations ∧
      st'.requests = State.init.requests ∧ st'.matched = State.init.matched :=
  ⟨by decide, by rfl, by rfl, Or.inl (by rfl),
    C4_precondition_not_satisfied demoEnv (demoGatedRequest "false") demoTarget [] [] [] State.init
      ⟨[("Port", .str "22")], []⟩ [("success", .bool false)] (by decide) (by rfl) (by rfl)
      (Or.inl (by rfl))⟩

/-! ## Behaviour at the inputs where the source departs from the specification -/

/-- With a generator the dispatch returns no error of its own, whatever the probes
return. -/
theorem dispatch_error_of_generator (env : Env) (request : Request) (hostPort hostname : String)
    (input : Target) (payloadValues : GoMap) (sched : List Action) (st st' : State)
    (err : Option String) (generator : PayloadGenerator)
    (hgen : request.generator = some generator)
    (hrun : dispatch env request hostPort hostname input payloadValues sched st
      = .ok (err, st')) :
    err = none := by
  simp only [dispatch, hgen] at hrun
  split_ifs at hrun
  · split at hrun
    · exact absurd hrun (by simp)
    · injection hrun with hrun
      injection hrun with h _
      exact h.symm
  · split at hrun
    · exact absurd hrun (by simp)
    · injection hrun with hrun
      injection hrun with h _
      exact h.symm

/-- C6 at the failing input: for a request without payloads the interpreter's error
`boom` is what `ExecuteWithResults` returns, after the error event has been given to
the callback; the same failing body under a sweep returns no error. -/
theorem C6_single_probe_returns_interpreter_error :
    (∀ args, demoEnv.jsExecute "fail" args = .error "boom") ∧
    (ExecuteWithResults demoEnv (demoSingle "fail" []) demoTarget [] [] []
        State.init).toOption.map
      (fun r => (r.1, r.2.events.map (fun ev => ev.InternalEvent.has "error")))
      = some (some "boom", [true]) ∧
    (ExecuteWithResults demoEnv (demoSweepRequest "fail" ["1"] [] false 0) demoTarget [] [] []
        State.init).toOption.map
      (fun r => (r.1, r.2.events.map (fun ev => ev.InternalEvent.has "error")))
      = some (none, [true]) :=
  ⟨fun _ => rfl, by rfl, by rfl⟩

/-- C8 at the failing inputs: the single probe of a request without payloads gives the
caller one matched event and counts no match; a parallel run without stop at first
match gives the caller two matched events and counts one match; the sequential run
over the same sweep counts two. -/
theorem C8_matches_not_counted_per_event :
    (ExecuteWithResults demoEnv (demoSingle "probe" [⟨"response", .WordsMatcher, "probe"⟩])
        demoTarget [] [] [] State.init).toOption.map (fun r => (r.2.matchedEvents, r.2.matched))
      = some (1, 0) ∧
    (ExecuteWithResults demoEnv
        (demoSweepRequest "probe" ["2", "2", "3"] [⟨"id", .WordsMatcher, "2"⟩] false 2)
        demoTarget [] [] [.spawn, .spawn, .check 0, .check 1, .run 1, .run 0]
        State.init).toOption.map (fun r => (r.2.matchedEvents, r.2.matched))
      = some (2, 1) ∧
    (ExecuteWithResults demoEnv
        (demoSweepRequest "probe" ["2", "2", "3"] [⟨"id", .WordsMatcher, "2"⟩] false 1)
        demoTarget [] [] [] State.init).toOption.map (fun r => (r.2.matchedEvents, r.2.matched))
      = some (2, 2) :=
  ⟨by rfl, by rfl, by rfl⟩

/-- C9 at the failing input: with a satisfied precondition, no payloads and debug
output off, `Requests` announces 2 and the run counts 1 request; with debug output of
requests on, the same run counts 2. -/
theorem C9_precondition_counted_only_in_debug :
    Requests (demoGatedRequest "true") = 2 ∧
    (ExecuteWithResults demoEnv (demoGatedRequest "true") demoTarget [] [] []
        State.init).toOption.map (fun r => (r.1, r.2.failedRequests, r.2.requests))
      = some (none, 0, 1) ∧
    (ExecuteWithResults demoEnvDebug (demoGatedRequest "true") demoTarget [] [] []
        State.init).toOption.map (fun r => (r.1, r.2.failedRequests, r.2.requests))
      = some (none, 0, 2) :=
  ⟨by rfl, by rfl, by rfl⟩

/-! ## The sequential sweep without stop at the first match -/

/-- Without stop at first match, a sequential loop that returns has issued one probe
for each value set, in the iterator's order, whatever the probes returned. -/
theorem sequentialLoop_runs_all (env : Env) (request : Request) (hostPort : String)
    (input : Target) (hostname : String) (payloadValues : GoMap) (values : List GoMap)
    (st st' : State)
    (hstop : shouldStopAtFirstMatch env request = false)
    (hrun : sequentialLoop env request hostPort input hostname payloadValues forward values st
      = .ok st') :
    st'.probes.map ProbeCall.payload = st.probes.map ProbeCall.payload ++ values ∧
    st'.pulls = st.pulls + values.length ∧
    st'.requests = st.requests + values.length := by
  induction values generalizing st with
  | nil =>
    simp only [sequentialLoop] at hrun
    injection hrun with hrun
    subst hrun
    simp
  | cons value rest ih =>
    cases hexec : executeRequestWithPayloads env request hostPort input hostname value
        payloadValues (sequentialCallback forward) { st with pulls := st.pulls + 1 } with
    | error p => simp [sequentialLoop, hexec] at hrun
    | ok r =>
      obtain ⟨err, s⟩ := r
      obtain ⟨hp, hpull, hreq, _⟩ := sequential_step env request hostPort input hostname
        payloadValues value st s err hexec
      simp only [sequentialLoop, hexec, hstop, Bool.false_and, Bool.false_eq_true,
        if_false] at hrun
      obtain ⟨h1, h2, h3⟩ := ih s hrun
      refine ⟨?_, ?_, ?_⟩
      · rw [h1, hp]
        simp
      · rw [h2, hpull, List.length_cons]
        omega
      · rw [h3, hreq, List.length_cons]
        omega

/-- The sequential loop returns when the arguments of every value set evaluate. -/
theorem sequentialLoop_returns (env : Env) (request : Request) (hostPort : String)
    (input : Target) (hostname : String) (payloadValues : GoMap) (values : List GoMap)
    (st : State)
    (hargs : ∀ value ∈ values, ∃ argsCopy,
      getArgsCopy env request input (MergeMaps [value, payloadValues]) false = .ok argsCopy) :
    ∃ st', sequentialLoop env request hostPort input hostname payloadValues forward values st
      = .ok st' := by
  induction values generalizing st with
  | nil => exact ⟨st, rfl⟩
  | cons value rest ih =>
    obtain ⟨argsCopy, ha⟩ := hargs value (List.mem_cons_self _ _)
    have hexec := executeRequestWithPayloads_of_args env request hostPort input hostname value
      payloadValues (sequentialCallback forward) { st with pulls := st.pulls + 1 } argsCopy ha
    simp only [sequentialLoop, hexec]
    split_ifs
    · exact ⟨_, rfl⟩
    · exact ih _ (fun v hv => hargs v (List.mem_cons_of_mem _ hv))

/-! ## The parallel strategy -/

/-- What one call of the parallel callback changes: the log of events grows by the
event, and a matched event sets the shared flag. -/
theorem parallelCallback_effect (event : InternalWrappedEvent) (st : State) :
    (parallelCallback forward event st).probes = st.probes ∧
    (parallelCallback forward event st).pulls = st.pulls ∧
    (parallelCallback forward event st).requests = st.requests ∧
    (parallelCallback forward event st).matched = st.matched ∧
    (parallelCallback forward event st).failedRequests = st.failedRequests ∧
    ((parallelCallback forward event st).matchedEvents = st.matchedEvents ∧
      (parallelCallback forward event st).gotMatches = st.gotMatches ∨
     (parallelCallback forward event st).matchedEvents = st.matchedEvents + 1 ∧
      (parallelCallback forward event st).gotMatches = true) := by
  by_cases h : event.isMatched = true
  · simp only [parallelCallback, h, if_true]
    refine ⟨rfl, rfl, rfl, rfl, rfl, Or.inr ⟨?_, rfl⟩⟩
    rw [matchedEvents_forward]
    simp [h, State.matchedEvents]
  · have hf : event.isMatched = false := by simpa using h
    simp only [parallelCallback, hf, Bool.false_eq_true, if_false]
    refine ⟨rfl, rfl, rfl, rfl, rfl, Or.inl ⟨?_, rfl⟩⟩
    rw [matchedEvents_forward]
    simp [hf]

/-- What the outcome routing changes under the parallel callback. -/
theorem routeOutcome_parallel (env : Env) (request : Request)
    (payload payloadValues data : GoMap) (urls : List String) (err : Option String)
    (st : State) :
    (routeOutcome env request payload payloadValues data urls err
        (parallelCallback forward) st).2.probes = st.probes ∧
    (routeOutcome env request payload payloadValues data urls err
        (parallelCallback forward) st).2.pulls = st.pulls ∧
    (routeOutcome env request payload payloadValues data urls err
        (parallelCallback forward) st).2.requests = st.requests ∧
    (routeOutcome env request payload payloadValues data urls err
        (parallelCallback forward) st).2.matched = st.matched ∧
    (routeOutcome env request payload payloadValues data urls err
        (parallelCallback forward) st).2.failedRequests = st.failedRequests ∧
    ((routeOutcome env request payload payloadValues data urls err
          (parallelCallback forward) st).2.matchedEvents = st.matchedEvents ∧
      (routeOutcome env request payload payloadValues data urls err
          (parallelCallback forward) st).2.gotMatches = st.gotMatches ∨
     (routeOutcome env request payload payloadValues data urls err
          (parallelCallback forward) st).2.matchedEvents = st.matchedEvents + 1 ∧
      (routeOutcome env request payload payloadValues data urls err
          (parallelCallback forward) st).2.gotMatches = true) := by
  simp only [routeOutcome]
  split_ifs
  · exact parallelCallback_effect _ _
  · exact parallelCallback_effect _ _
  · split
    · exact ⟨rfl, rfl, rfl, rfl, rfl, Or.inl ⟨rfl, rfl⟩⟩
    · exact ⟨rfl, rfl, rfl, rfl, rfl, Or.inl ⟨rfl, rfl⟩⟩

/-- What a worker changes from its probe to its end: one probe is issued for its
value set and counted, no value set is taken, no match is counted, and either no matched
event reaches the caller and the flag keeps its value, or exactly one does and the
flag is set; the signal after it is the signal before it, or set because the run
stops at the first match and the flag is up. -/
theorem worker_step (env : Env) (request : Request) (hostPort : String) (input : Target)
    (hostname : String) (payloadValues value : GoMap) (cancelled cancelled' : Bool)
    (st st' : State)
    (hrun : workerRun env request hostPort input hostname payloadValues forward value
      cancelled st = .ok (cancelled', st')) :
    st'.probes.map ProbeCall.payload = st.probes.map ProbeCall.payload ++ [value] ∧
    st'.pulls = st.pulls ∧
    st'.requests = st.requests + 1 ∧
    st'.matched = st.matched ∧
    st'.failedRequests = st.failedRequests ∧
    (st'.matchedEvents = st.matchedEvents ∧ st'.gotMatches = st.gotMatches ∨
     st'.matchedEvents = st.matchedEvents + 1 ∧ st'.gotMatches = true) ∧
    cancelled' = (cancelled || (shouldStopAtFirstMatch env request && st'.gotMatches)) := by
  simp only [workerRun] at hrun
  cases hexec : executeRequestWithPayloads env request hostPort input hostname value
      payloadValues (parallelCallback forward) st with
  | error p => simp [hexec] at hrun
  | ok r =>
    obtain ⟨err, s⟩ := r
    simp only [hexec] at hrun
    injection hrun with hrun
    injection hrun with hc hs
    subst hs
    obtain ⟨argsCopy, hargs⟩ := args_of_executeRequestWithPayloads env request hostPort input
      hostname value payloadValues _ _ _ hexec
    rw [executeRequestWithPayloads_of_args env request hostPort input hostname value
      payloadValues _ _ argsCopy hargs] at hexec
    have hst : s = (routeOutcome env request value (MergeMaps [value, payloadValues])
        (probeOutcomeData env request hostPort input value payloadValues argsCopy st)
        (probeBody env request).2
        (probeResults (env.jsExecute (probeBody env request).1 (probeArgs argsCopy st))).2
        (parallelCallback forward)
        (afterCall env request hostPort input value payloadValues argsCopy st)).2 := by
      injection hexec with hexec
      rw [hexec]
    obtain ⟨h1, h2, h3, h4, h5, h6⟩ := routeOutcome_parallel env request value
      (MergeMaps [value, payloadValues])
      (probeOutcomeData env request hostPort input value payloadValues argsCopy st)
      (probeBody env request).2
      (probeResults (env.jsExecute (probeBody env request).1 (probeArgs argsCopy st))).2
      (afterCall env request hostPort input value payloadValues argsCopy st)
    rw [← hst] at h1 h2 h3 h4 h5 h6
    refine ⟨?_, ?_, ?_, ?_, ?_, ?_, hc.symm⟩
    · rw [h1]; simp [afterCall]
    · rw [h2]; simp [afterCall]
    · rw [h3]; simp [afterCall]
    · rw [h4]; simp [afterCall]
    · rw [h5]; simp [afterCall]
    · simpa [afterCall, State.matchedEvents] using h6

theorem pool_length_eraseIdx (ws : List Worker) (i : Nat) (w : Worker)
    (h : ws.get? i = some w) : (ws.eraseIdx i).length + 1 = ws.length := by
  induction ws generalizing i with
  | nil => simp at h
  | cons a rest ih =>
    cases i with
    | zero => simp
    | succ j =>
      simp only [List.get?_cons_succ] at h
      simp only [List.eraseIdx_cons_succ, List.length_cons]
      rw [ih j h]

theorem startedCount_le_length (ws : List Worker) : startedCount ws ≤ ws.length := by
  simp only [startedCount]
  exact List.length_filter_le _ _

theorem startedCount_cons (w : Worker) (ws : List Worker) :
    startedCount (w :: ws) = (if w.started then 1 else 0) + startedCount ws := by
  simp only [startedCount, List.filter_cons]
  split_ifs <;> simp [Nat.add_comm]

theorem startedCount_eraseIdx (ws : List Worker) (i : Nat) (w : Worker)
    (h : ws.get? i = some w) :
    startedCount (ws.eraseIdx i) + (if w.started then 1 else 0) = startedCount ws := by
  induction ws generalizing i with
  | nil => simp at h
  | cons a rest ih =>
    cases i with
    | zero =>
      simp only [List.get?_cons_zero, Option.some.injEq] at h
      subst h
      simp only [List.eraseIdx_cons_zero, startedCount_cons]
      omega
    | succ j =>
      simp only [List.get?_cons_succ] at h
      simp only [List.eraseIdx_cons_succ, startedCount_cons]
      have := ih j h
      omega

theorem startedCount_append_unstarted (ws : List Worker) (value : GoMap) :
    startedCount (ws ++ [⟨value, false⟩]) = startedCount ws := by
  simp [startedCount, List.filter_append]

/-- A worker leaving the pool after its probe keeps the bound on matched events. -/
theorem MatchBound_worker (env : Env) (request : Request) (hostPort : String)
    (input : Target) (hostname : String) (payloadValues : GoMap) (limit before : Nat)
    (w : Worker) (pool rest : List Worker) (cancelled cancelled' : Bool) (st st' : State)
    (hstop : shouldStopAtFirstMatch env request = true)
    (hinv : MatchBound limit before pool cancelled st)
    (hlen : rest.length + 1 = pool.length)
    (hcount : startedCount rest + (if w.started then 1 else 0) = startedCount pool)
    (hstarted : cancelled = true → w.started = true)
    (hrun : workerRun env request hostPort input hostname payloadValues forward w.value
      cancelled st = .ok (cancelled', st')) :
    MatchBound limit before rest cancelled' st' := by
  obtain ⟨_, _, _, _, _, hm, hc⟩ := worker_step env request hostPort input hostname
    payloadValues w.value cancelled cancelled' st st' hrun
  obtain ⟨h1, h2, h3⟩ := hinv
  simp only [hstop, Bool.true_and] at hc
  have hle := startedCount_le_length rest
  cases hcan : cancelled with
  | true =>
    have hw := hstarted hcan
    have hb := h3 hcan
    simp only [hw, if_true] at hcount
    have hg : st.gotMatches = true := by rw [← h1, hcan]
    have hg' : st'.gotMatches = true := by
      rcases hm with ⟨_, hge⟩ | ⟨_, hge⟩
      · rw [hge, hg]
      · exact hge
    have hc' : cancelled' = true := by rw [hc, hcan]; rfl
    refine ⟨by rw [hc', hg'], ?_, ?_⟩
    · intro hf
      rw [hc'] at hf
      exact absurd hf (by decide)
    · intro _
      rcases hm with ⟨hme, _⟩ | ⟨hme, _⟩ <;> omega
  | false =>
    obtain ⟨hb, hpool⟩ := h2 hcan
    have hg : st.gotMatches = false := by rw [← h1, hcan]
    have hc' : cancelled' = st'.gotMatches := by rw [hc, hcan]; rfl
    refine ⟨hc', ?_, ?_⟩
    · intro hf
      rw [hc'] at hf
      rcases hm with ⟨hme, _⟩ | ⟨_, hge⟩
      · exact ⟨by omega, by omega⟩
      · rw [hge] at hf
        exact absurd hf (by decide)
    · intro _
      rcases hm with ⟨hme, _⟩ | ⟨hme, _⟩ <;> omega

/-- A move of an interleaving keeps the bound on matched events. -/
theorem MatchBound_parStep (env : Env) (request : Request) (hostPort : String)
    (input : Target) (hostname : String) (payloadValues : GoMap) (limit before : Nat)
    (a : Action) (ps ps' : ParState)
    (hstop : shouldStopAtFirstMatch env request = true)
    (hinv : MatchBound limit before ps.workers ps.cancelled ps.st)
    (hstep : parStep env request hostPort input hostname payloadValues forward limit a ps
      = .ok ps') :
    MatchBound limit before ps'.workers ps'.cancelled ps'.st := by
  cases a with
  | spawn =>
    simp only [parStep] at hstep
    split at hstep
    · injection hstep with hstep
      subst hstep
      exact hinv
    · split_ifs at hstep with hroom
      · injection hstep with hstep
        subst hstep
        obtain ⟨h1, h2, h3⟩ := hinv
        refine ⟨h1, ?_, ?_⟩
        · intro hf
          refine ⟨(h2 hf).1, ?_⟩
          simp only [List.length_append, List.length_singleton]
          omega
        · intro ht
          simp only [startedCount_append_unstarted]
          exact h3 ht
      · injection hstep with hstep
        subst hstep
        exact hinv
  | check i =>
    simp only [parStep] at hstep
    split at hstep
    · injection hstep with hstep
      subst hstep
      exact hinv
    · rename_i w hw
      obtain ⟨h1, h2, h3⟩ := hinv
      split_ifs at hstep with hs hc
      · injection hstep with hstep
        subst hstep
        exact ⟨h1, h2, h3⟩
      · injection hstep with hstep
        subst hstep
        have hcount := startedCount_eraseIdx ps.workers i w hw
        have hs' : w.started = false := by simpa using hs
        simp only [hs', Bool.false_eq_true, if_false, Nat.add_zero] at hcount
        refine ⟨h1, ?_, ?_⟩
        · intro hf
          rw [hc] at hf
          exact absurd hf (by decide)
        · intro ht
          simp only [hcount]
          exact h3 ht
      · injection hstep with hstep
        subst hstep
        have hc' : ps.cancelled = false := by simpa using hc
        refine ⟨h1, ?_, ?_⟩
        · intro hf
          refine ⟨(h2 hf).1, ?_⟩
          simp only [List.length_set]
          exact (h2 hf).2
        · intro ht
          rw [hc'] at ht
          exact absurd ht (by decide)
  | run i =>
    simp only [parStep] at hstep
    split at hstep
    · injection hstep with hstep
      subst hstep
      exact hinv
    · rename_i w hw
      split_ifs at hstep with hs
      · cases hrun : workerRun env request hostPort input hostname payloadValues forward
            w.value ps.cancelled ps.st with
        | error p => simp [hrun] at hstep
        | ok r =>
          obtain ⟨c, s⟩ := r
          simp only [hrun] at hstep
          injection hstep with hstep
          subst hstep
          exact MatchBound_worker env request hostPort input hostname payloadValues limit
            before w ps.workers (ps.workers.eraseIdx i) ps.cancelled c ps.st s hstop hinv
            (pool_length_eraseIdx ps.workers i w hw) (startedCount_eraseIdx ps.workers i w hw)
            (fun _ => hs) hrun
      · injection hstep with hstep
        subst hstep
        exact hinv

/-- Every state an interleaving reaches keeps the bound on matched events. -/
theorem MatchBound_runSchedule (env : Env) (request : Request) (hostPort : String)
    (input : Target) (hostname : String) (payloadValues : GoMap) (limit before : Nat)
    (sched : List Action) (ps ps' : ParState)
    (hstop : shouldStopAtFirstMatch env request = true)
    (hinv : MatchBound limit before ps.workers ps.cancelled ps.st)
    (hrun : runSchedule env request hostPort input hostname payloadValues forward limit sched ps
      = .ok ps') :
    MatchBound limit before ps'.workers ps'.cancelled ps'.st := by
  induction sched generalizing ps with
  | nil =>
    simp only [runSchedule] at hrun
    injection hrun with hrun
    subst hrun
    exact hinv
  | cons a rest ih =>
    simp only [runSchedule] at hrun
    cases hstep : parStep env request hostPort input hostname payloadValues forward limit a ps with
    | error p => simp [hstep] at hrun
    | ok ps₁ =>
      simp only [hstep] at hrun
      exact ih ps₁ (MatchBound_parStep env request hostPort input hostname payloadValues
        limit before a ps ps₁ hstop hinv hstep) hrun

/-- The workers in flight finish within the bound on matched events. -/
theorem MatchBound_drainWorkers (env : Env) (request : Request) (hostPort : String)
    (input : Target) (hostname : String) (payloadValues : GoMap) (limit before : Nat)
    (workers : List Worker) (cancelled cancelled' : Bool) (st st' : State)
    (hstop : shouldStopAtFirstMatch env request = true)
    (hinv : MatchBound limit before workers cancelled st)
    (hrun : drainWorkers env request hostPort input hostname payloadValues forward workers
      cancelled st = .ok (cancelled', st')) :
    MatchBound limit before [] cancelled' st' := by
  induction workers generalizing cancelled st with
  | nil =>
    simp only [drainWorkers] at hrun
    injection hrun with hrun
    injection hrun with hc hs
    subst hc hs
    exact hinv
  | cons w rest ih =>
    simp only [drainWorkers] at hrun
    split_ifs at hrun with hskip
    · obtain ⟨hs, hc⟩ := hskip
      refine ih cancelled st ?_ hrun
      obtain ⟨h1, h2, h3⟩ := hinv
      refine ⟨h1, ?_, ?_⟩
      · intro hf
        rw [hc] at hf
        exact absurd hf (by decide)
      · intro ht
        have := h3 ht
        simp only [startedCount_cons, hs, Bool.false_eq_true, if_false] at this
        omega
    · cases hw : workerRun env request hostPort input hostname payloadValues forward w.value
          cancelled st with
      | error p => simp [hw] at hrun
      | ok r =>
        obtain ⟨c, s⟩ := r
        simp only [hw] at hrun
        refine ih c s ?_ hrun
        refine MatchBound_worker env request hostPort input hostname payloadValues limit
          before w (w :: rest) rest cancelled c st s hstop hinv (by simp) ?_ ?_ hw
        · rw [startedCount_cons]
          omega
        · intro hc
          by_contra hns
          exact hskip ⟨by simpa using hns, hc⟩

/-- The rest of the iterator is served within the bound on matched events. -/
theorem MatchBound_drainIterator (env : Env) (request : Request) (hostPort : String)
    (input : Target) (hostname : String) (payloadValues : GoMap) (limit before : Nat)
    (values : List GoMap) (cancelled cancelled' : Bool) (st st' : State)
    (hstop : shouldStopAtFirstMatch env request = true) (hlimit : 0 < limit)
    (hinv : MatchBound limit before [] cancelled st)
    (hrun : drainIterator env request hostPort input hostname payloadValues forward values
      cancelled st = .ok (cancelled', st')) :
    MatchBound limit before [] cancelled' st' := by
  induction values generalizing cancelled st with
  | nil =>
    simp only [drainIterator] at hrun
    injection hrun with hrun
    injection hrun with hc hs
    subst hc hs
    exact hinv
  | cons value rest ih =>
    simp only [drainIterator] at hrun
    split_ifs at hrun with hc
    · exact ih cancelled { st with pulls := st.pulls + 1 } hinv hrun
    · cases hw : workerRun env request hostPort input hostname payloadValues forward value
          cancelled { st with pulls := st.pulls + 1 } with
      | error p => simp [hw] at hrun
      | ok r =>
        obtain ⟨c, s⟩ := r
        simp only [hw] at hrun
        refine ih c s ?_ hrun
        have hpool : MatchBound limit before [⟨value, false⟩] cancelled
            { st with pulls := st.pulls + 1 } := by
          obtain ⟨h1, h2, h3⟩ := hinv
          refine ⟨h1, ?_, ?_⟩
          · intro hf
            exact ⟨(h2 hf).1, by simpa using hlimit⟩
          · intro ht
            exact absurd ht hc
        exact MatchBound_worker env request hostPort input hostname payloadValues limit
          before ⟨value, false⟩ [⟨value, false⟩] [] cancelled c _ s hstop hpool (by simp)
          (by simp [startedCount]) (fun h => absurd h hc) hw

theorem poolLimit_pos (threads : Int) : 0 < poolLimit threads := by
  simp only [poolLimit]
  split_ifs with h
  · omega
  · decide

/-- The parallel strategy stopping at the first match gives the caller at most as many
matched events as the pool has slots. -/
theorem executeRequestParallel_matchedEvents_le (env : Env) (request : Request)
    (hostPort hostname : String) (input : Target) (payloadValues : GoMap)
    (sched : List Action) (st st' : State)
    (hstop : shouldStopAtFirstMatch env request = true)
    (hrun : executeRequestParallel env request hostPort hostname input payloadValues forward
      sched st = .ok st') :
    st'.matchedEvents
      ≤ st.matchedEvents + poolLimit (if request.Threads = 0 then 1 else request.Threads) := by
  simp only [executeRequestParallel] at hrun
  cases hgen : request.generator with
  | none =>
    simp only [hgen] at hrun
    split_ifs at hrun <;>
    · injection hrun with hrun
      subst hrun
      simp [State.matchedEvents]
  | some generator =>
    simp only [hgen] at hrun
    cases hsched : runSchedule env request hostPort input hostname payloadValues forward
        (poolLimit (if request.Threads = 0 then 1 else request.Threads)) sched
        ⟨generator.NewIterator.remaining, [], false, { st with gotMatches := false }⟩ with
    | error p => simp [hsched] at hrun
    | ok ps =>
      simp only [hsched] at hrun
      have hstart : MatchBound (poolLimit (if request.Threads = 0 then 1 else request.Threads))
          st.matchedEvents (parallelStart generator st).workers
          (parallelStart generator st).cancelled (parallelStart generator st).st := by
        refine ⟨rfl, ?_, ?_⟩
        · intro _
          exact ⟨rfl, by simp [parallelStart]⟩
        · intro h
          simp [parallelStart] at h
      have h1 := MatchBound_runSchedule env request hostPort input hostname payloadValues _
        st.matchedEvents sched (parallelStart generator st) ps hstop hstart hsched
      cases hdw : drainWorkers env request hostPort input hostname payloadValues forward
          ps.workers ps.cancelled ps.st with
      | error p => simp [hdw] at hrun
      | ok r =>
        obtain ⟨c, s⟩ := r
        simp only [hdw] at hrun
        have h2 := MatchBound_drainWorkers env request hostPort input hostname payloadValues _
          st.matchedEvents ps.workers ps.cancelled c ps.st s hstop h1 hdw
        cases hdi : drainIterator env request hostPort input hostname payloadValues forward
            ps.iterator c s with
        | error p => simp [hdi] at hrun
        | ok r' =>
          obtain ⟨c', s'⟩ := r'
          simp only [hdi] at hrun
          obtain ⟨h3, h4, h5⟩ := MatchBound_drainIterator env request hostPort input hostname
            payloadValues _ st.matchedEvents ps.iterator c c' s s' hstop (poolLimit_pos _) h2 hdi
          have hbound : s'.matchedEvents ≤ st.matchedEvents
              + poolLimit (if request.Threads = 0 then 1 else request.Threads) := by
            cases hc : c' with
            | true =>
              have := h5 hc
              simp only [startedCount, List.filter_nil, List.length_nil, Nat.add_zero] at this
              exact this
            | false =>
              have := (h4 hc).1
              omega
          split_ifs at hrun <;>
          · injection hrun with hrun
            subst hrun
            simpa [State.matchedEvents] using hbound

/-- C12 as stated fails: with two threads and stop at first match, both workers pass
the cancellation check before either has run, both probes match, and the caller is
given two matched events. -/
theorem C12_counterexample :
    shouldStopAtFirstMatch demoEnv demoRaceRequest = true ∧
    demoRaceRequest.Threads = 2 ∧
    (ExecuteWithResults demoEnv demoRaceRequest demoTarget [] []
        [.spawn, .spawn, .check 0, .check 1, .run 1, .run 0] State.init).toOption.map
      (fun r => (r.2.probes.map ProbeCall.payload, r.2.matchedEvents))
      = some ([[("id", .str "2")], [("id", .str "2")]], 2) :=
  ⟨by rfl, by rfl, by rfl⟩

/-- C12, amended: in the parallel strategy with stop at first match and T > 1 threads,
every interleaving that returns has given the caller at most T matched events more
than the run started with. -/
theorem C12_parallel_matched_events_bounded (env : Env) (request : Request)
    (hostPort hostname : String) (input : Target) (payloadValues : GoMap)
    (sched : List Action) (st st' : State)
    (hstop : shouldStopAtFirstMatch env request = true)
    (hthreads : request.Threads > 1)
    (hrun : executeRequestParallel env request hostPort hostname input payloadValues forward
      sched st = .ok st') :
    st'.matchedEvents ≤ st.matchedEvents + request.Threads.toNat := by
  have h := executeRequestParallel_matchedEvents_le env request hostPort hostname input
    payloadValues sched st st' hstop hrun
  have hne : ¬ request.Threads = 0 := by omega
  have hpos : request.Threads > 0 := by omega
  simpa [hne, poolLimit, hpos] using h

/-- C12 at work: the race scenario reaches the bound of two matched events. -/
theorem C12_parallel_matched_events_bounded_witness :
    shouldStopAtFirstMatch demoEnv demoRaceRequest = true ∧
    demoRaceRequest.Threads > 1 ∧
    executeRequestParallel demoEnv demoRaceRequest "scanme.sh:22" "scanme.sh:22" demoTarget []
        forward [.spawn, .spawn, .check 0, .check 1, .run 1, .run 0] State.init
      = .ok (endState (executeRequestParallel demoEnv demoRaceRequest "scanme.sh:22"
          "scanme.sh:22" demoTarget [] forward
          [.spawn, .spawn, .check 0, .check 1, .run 1, .run 0] State.init)) ∧
    (endState (executeRequestParallel demoEnv demoRaceRequest "scanme.sh:22"
        "scanme.sh:22" demoTarget [] forward
        [.spawn, .spawn, .check 0, .check 1, .run 1, .run 0] State.init)).matchedEvents = 2 ∧
    (endState (executeRequestParallel demoEnv demoRaceRequest "scanme.sh:22"
        "scanme.sh:22" demoTarget [] forward
        [.spawn, .spawn, .check 0, .check 1, .run 1, .run 0] State.init)).matchedEvents
      ≤ State.init.matchedEvents + demoRaceRequest.Threads.toNat :=
  ⟨by rfl, by decide, by rfl, by rfl,
    C12_parallel_matched_events_bounded demoEnv demoRaceRequest "scanme.sh:22" "scanme.sh:22"
      demoTarget [] [.spawn, .spawn, .check 0, .check 1, .run 1, .run 0] State.init _
      (by rfl) (by decide) (by rfl)⟩

/-- A move of an interleaving advances the dispatcher's cursor by at most one value
set, the iterator's next one, and no other move touches it. -/
theorem Pulled_parStep (env : Env) (request : Request) (hostPort : String)
    (input : Target) (hostname : String) (payloadValues : GoMap) (limit before : Nat)
    (values : List GoMap) (a : Action) (ps ps' : ParState)
    (hinv : Pulled values before ps.iterator ps.st.pulls)
    (hstep : parStep env request hostPort input hostname payloadValues forward limit a ps
      = .ok ps') :
    Pulled values before ps'.iterator ps'.st.pulls := by
  cases a with
  | spawn =>
    simp only [parStep] at hstep
    split at hstep
    · injection hstep with hstep
      subst hstep
      exact hinv
    · rename_i value rest hit
      split_ifs at hstep
      · injection hstep with hstep
        subst hstep
        obtain ⟨taken, h1, h2⟩ := hinv
        refine ⟨taken ++ [value], ?_, ?_⟩
        · rw [← h1, hit]
          simp
        · simp only [List.length_append, List.length_singleton]
          omega
      · injection hstep with hstep
        subst hstep
        exact hinv
  | check i =>
    simp only [parStep] at hstep
    split at hstep
    · injection hstep with hstep
      subst hstep
      exact hinv
    · split_ifs at hstep <;>
      · injection hstep with hstep
        subst hstep
        exact hinv
  | run i =>
    simp only [parStep] at hstep
    split at hstep
    · injection hstep with hstep
      subst hstep
      exact hinv
    · rename_i w hw
      split_ifs at hstep
      · cases hrun : workerRun env request hostPort input hostname payloadValues forward
            w.value ps.cancelled ps.st with
        | error p => simp [hrun] at hstep
        | ok r =>
          obtain ⟨c, s⟩ := r
          simp only [hrun] at hstep
          injection hstep with hstep
          subst hstep
          obtain ⟨_, hp, _⟩ := worker_step env request hostPort input hostname payloadValues
            w.value ps.cancelled c ps.st s hrun
          obtain ⟨taken, h1, h2⟩ := hinv
          exact ⟨taken, h1, by rw [hp]; exact h2⟩
      · injection hstep with hstep
        subst hstep
        exact hinv

/-- In every state an interleaving reaches, the value sets taken so far are an initial
stretch of the iterator's sequence. -/
theorem Pulled_runSchedule (env : Env) (request : Request) (hostPort : String)
    (input : Target) (hostname : String) (payloadValues : GoMap) (limit before : Nat)
    (values : List GoMap) (sched : List Action) (ps ps' : ParState)
    (hinv : Pulled values before ps.iterator ps.st.pulls)
    (hrun : runSchedule env request hostPort input hostname payloadValues forward limit sched ps
      = .ok ps') :
    Pulled values before ps'.iterator ps'.st.pulls := by
  induction sched generalizing ps with
  | nil =>
    simp only [runSchedule] at hrun
    injection hrun with hrun
    subst hrun
    exact hinv
  | cons a rest ih =>
    simp only [runSchedule] at hrun
    cases hstep : parStep env request hostPort input hostname payloadValues forward limit a ps with
    | error p => simp [hstep] at hrun
    | ok ps₁ =>
      simp only [hstep] at hrun
      exact ih ps₁ (Pulled_parStep env request hostPort input hostname payloadValues
        limit before values a ps ps₁ hinv hstep) hrun

/-- The workers in flight finish without taking a value set. -/
theorem drainWorkers_pulls (env : Env) (request : Request) (hostPort : String)
    (input : Target) (hostname : String) (payloadValues : GoMap)
    (workers : List Worker) (cancelled cancelled' : Bool) (st st' : State)
    (hrun : drainWorkers env request hostPort input hostname payloadValues forward workers
      cancelled st = .ok (cancelled', st')) :
    st'.pulls = st.pulls := by
  induction workers generalizing cancelled st with
  | nil =>
    simp only [drainWorkers] at hrun
    injection hrun with hrun
    injection hrun with hc hs
    rw [hs]
  | cons w rest ih =>
    simp only [drainWorkers] at hrun
    split_ifs at hrun
    · exact ih cancelled st hrun
    · cases hw : workerRun env request hostPort input hostname payloadValues forward w.value
          cancelled st with
      | error p => simp [hw] at hrun
      | ok r =>
        obtain ⟨c, s⟩ := r
        simp only [hw] at hrun
        obtain ⟨_, hp, _⟩ := worker_step env request hostPort input hostname payloadValues
          w.value cancelled c st s hw
        rw [ih c s hrun, hp]

/-- The rest of the iterator is taken to the last value set, cancelled or not. -/
theorem drainIterator_pulls (env : Env) (request : Request) (hostPort : String)
    (input : Target) (hostname : String) (payloadValues : GoMap)
    (values : List GoMap) (cancelled cancelled' : Bool) (st st' : State)
    (hrun : drainIterator env request hostPort input hostname payloadValues forward values
      cancelled st = .ok (cancelled', st')) :
    st'.pulls = st.pulls + values.length := by
  induction values generalizing cancelled st with
  | nil =>
    simp only [drainIterator] at hrun
    injection hrun with hrun
    injection hrun with hc hs
    rw [← hs]
    simp
  | cons value rest ih =>
    simp only [drainIterator] at hrun
    split_ifs at hrun
    · have h := ih cancelled _ hrun
      simp only [List.length_cons] at h ⊢
      omega
    · cases hw : workerRun env request hostPort input hostname payloadValues forward value
          cancelled { st with pulls := st.pulls + 1 } with
      | error p => simp [hw] at hrun
      | ok r =>
        obtain ⟨c, s⟩ := r
        simp only [hw] at hrun
        obtain ⟨_, hp, _⟩ := worker_step env request hostPort input hostname payloadValues
          value cancelled c _ s hw
        have h := ih c s hrun
        simp only [List.length_cons] at h hp ⊢
        omega

/-- A parallel run that returns has taken every value set of the iterator, whether or
not a match cancelled it. -/
theorem executeRequestParallel_pulls (env : Env) (request : Request)
    (hostPort hostname : String) (input : Target) (payloadValues : GoMap)
    (sched : List Action) (st st' : State) (generator : PayloadGenerator)
    (hgen : request.generator = some generator)
    (hrun : executeRequestParallel env request hostPort hostname input payloadValues forward
      sched st = .ok st') :
    st'.pulls = st.pulls + generator.NewIterator.Total := by
  simp only [executeRequestParallel, hgen] at hrun
  cases hsched : runSchedule env request hostPort input hostname payloadValues forward
      (poolLimit (if request.Threads = 0 then 1 else request.Threads)) sched
      ⟨generator.NewIterator.remaining, [], false, { st with gotMatches := false }⟩ with
  | error p => simp [hsched] at hrun
  | ok ps =>
    simp only [hsched] at hrun
    have hstart : Pulled generator.NewIterator.remaining st.pulls
        (parallelStart generator st).iterator (parallelStart generator st).st.pulls :=
      ⟨[], rfl, rfl⟩
    obtain ⟨taken, h1, h2⟩ := Pulled_runSchedule env request hostPort input hostname
      payloadValues _ st.pulls generator.NewIterator.remaining sched
      (parallelStart generator st) ps hstart hsched
    cases hdw : drainWorkers env request hostPort input hostname payloadValues forward
        ps.workers ps.cancelled ps.st with
    | error p => simp [hdw] at hrun
    | ok r =>
      obtain ⟨c, s⟩ := r
      simp only [hdw] at hrun
      have h3 := drainWorkers_pulls env request hostPort input hostname payloadValues
        ps.workers ps.cancelled c ps.st s hdw
      cases hdi : drainIterator env request hostPort input hostname payloadValues forward
          ps.iterator c s with
      | error p => simp [hdi] at hrun
      | ok r' =>
        obtain ⟨c', s'⟩ := r'
        simp only [hdi] at hrun
        have h4 := drainIterator_pulls env request hostPort input hostname payloadValues
          ps.iterator c c' s s' hdi
        have hlen : taken.length + ps.iterator.length = generator.NewIterator.Total := by
          simp only [Iterator.Total, ← h1, List.length_append]
        have hps : ps.st.pulls = st.pulls + taken.length := by
          omega
        split_ifs at hrun <;>
        · injection hrun with hrun
          subst hrun
          show s'.pulls = st.pulls + generator.NewIterator.Total
          omega

/-- A worker returns when the arguments of its value set evaluate. -/
theorem workerRun_returns (env : Env) (request : Request) (hostPort : String)
    (input : Target) (hostname : String) (payloadValues value : GoMap) (cancelled : Bool)
    (st : State) (argsCopy : ExecuteArgs)
    (hargs : getArgsCopy env request input (MergeMaps [value, payloadValues]) false
      = .ok argsCopy) :
    ∃ cancelled' st', workerRun env request hostPort input hostname payloadValues forward
      value cancelled st = .ok (cancelled', st') := by
  simp only [workerRun, executeRequestWithPayloads_of_args env request hostPort input hostname
    value payloadValues _ st argsCopy hargs]
  exact ⟨_, _, rfl⟩

/-- A move of an interleaving returns when the arguments of every value set evaluate. -/
theorem parStep_returns (env : Env) (request : Request) (hostPort : String)
    (input : Target) (hostname : String) (payloadValues : GoMap) (limit : Nat)
    (values : List GoMap) (a : Action) (ps : ParState)
    (hargs : ∀ value ∈ values, ∃ argsCopy,
      getArgsCopy env request input (MergeMaps [value, payloadValues]) false = .ok argsCopy)
    (hin : Within values ps.workers ps.iterator) :
    ∃ ps', parStep env request hostPort input hostname payloadValues forward limit a ps
        = .ok ps' ∧ Within values ps'.workers ps'.iterator := by
  obtain ⟨hw, hi⟩ := hin
  cases a with
  | spawn =>
    simp only [parStep]
    split
    · exact ⟨ps, rfl, hw, hi⟩
    · rename_i value rest hit
      rw [hit] at hi
      split_ifs
      · refine ⟨_, rfl, ?_, ?_⟩
        · intro w hmem
          simp only [List.mem_append, List.mem_singleton] at hmem
          rcases hmem with h | h
          · exact hw w h
          · rw [h]
            exact hi value (List.mem_cons_self _ _)
        · intro v hv
          exact hi v (List.mem_cons_of_mem _ hv)
      · exact ⟨ps, rfl, hw, by rw [hit]; exact hi⟩
  | check i =>
    simp only [parStep]
    split
    · exact ⟨ps, rfl, hw, hi⟩
    · rename_i w hget
      split_ifs
      · exact ⟨ps, rfl, hw, hi⟩
      · exact ⟨_, rfl, fun w' h => hw w' (List.mem_of_mem_eraseIdx h), hi⟩
      · refine ⟨_, rfl, ?_, hi⟩
        intro w' h
        rcases List.mem_or_eq_of_mem_set h with h | h
        · exact hw w' h
        · rw [h]
          exact hw w (List.get?_mem hget)
  | run i =>
    simp only [parStep]
    split
    · exact ⟨ps, rfl, hw, hi⟩
    · rename_i w hget
      split_ifs
      · obtain ⟨argsCopy, ha⟩ := hargs w.value (hw w (List.get?_mem hget))
        obtain ⟨c, s, hrun⟩ := workerRun_returns env request hostPort input hostname
          payloadValues w.value ps.cancelled ps.st argsCopy ha
        simp only [hrun]
        exact ⟨_, rfl, fun w' h => hw w' (List.mem_of_mem_eraseIdx h), hi⟩
      · exact ⟨ps, rfl, hw, hi⟩

/-- A schedule returns when the arguments of every value set evaluate. -/
theorem runSchedule_returns (env : Env) (request : Request) (hostPort : String)
    (input : Target) (hostname : String) (payloadValues : GoMap) (limit : Nat)
    (values : List GoMap) (sched : List Action) (ps : ParState)
    (hargs : ∀ value ∈ values, ∃ argsCopy,
      getArgsCopy env request input (MergeMaps [value, payloadValues]) false = .ok argsCopy)
    (hin : Within values ps.workers ps.iterator) :
    ∃ ps', runSchedule env request hostPort input hostname payloadValues forward limit sched ps
        = .ok ps' ∧ Within values ps'.workers ps'.iterator := by
  induction sched generalizing ps with
  | nil => exact ⟨ps, rfl, hin⟩
  | cons a rest ih =>
    obtain ⟨ps₁, hstep, hin₁⟩ := parStep_returns env request hostPort input hostname
      payloadValues limit values a ps hargs hin
    simp only [runSchedule, hstep]
    exact ih ps₁ hin₁

/-- The workers in flight finish when the arguments of their value sets evaluate. -/
theorem drainWorkers_returns (env : Env) (request : Request) (hostPort : String)
    (input : Target) (hostname : String) (payloadValues : GoMap)
    (workers : List Worker) (cancelled : Bool) (st : State)
    (hargs : ∀ w ∈ workers, ∃ argsCopy,
      getArgsCopy env request input (MergeMaps [w.value, payloadValues]) false = .ok argsCopy) :
    ∃ cancelled' st', drainWorkers env request hostPort input hostname payloadValues forward
      workers cancelled st = .ok (cancelled', st') := by
  induction workers generalizing cancelled st with
  | nil => exact ⟨_, _, rfl⟩
  | cons w rest ih =>
    have hrest : ∀ w' ∈ rest, ∃ argsCopy,
        getArgsCopy env request input (MergeMaps [w'.value, payloadValues]) false
          = .ok argsCopy := fun w' h => hargs w' (List.mem_cons_of_mem _ h)
    simp only [drainWorkers]
    split_ifs
    · exact ih cancelled st hrest
    · obtain ⟨argsCopy, ha⟩ := hargs w (List.mem_cons_self _ _)
      obtain ⟨c, s, hrun⟩ := workerRun_returns env request hostPort input hostname
        payloadValues w.value cancelled st argsCopy ha
      simp only [hrun]
      exact ih c s hrest

/-- The rest of the iterator is served when the arguments of its value sets evaluate. -/
theorem drainIterator_returns (env : Env) (request : Request) (hostPort : String)
    (input : Target) (hostname : String) (payloadValues : GoMap)
    (values : List GoMap) (cancelled : Bool) (st : State)
    (hargs : ∀ value ∈ values, ∃ argsCopy,
      getArgsCopy env request input (MergeMaps [value, payloadValues]) false = .ok argsCopy) :
    ∃ cancelled' st', drainIterator env request hostPort input hostname payloadValues forward
      values cancelled st = .ok (cancelled', st') := by
  induction values generalizing cancelled st with
  | nil => exact ⟨_, _, rfl⟩
  | cons value rest ih =>
    have hrest : ∀ v ∈ rest, ∃ argsCopy,
        getArgsCopy env request input (MergeMaps [v, payloadValues]) false
          = .ok argsCopy := fun v h => hargs v (List.mem_cons_of_mem _ h)
    simp only [drainIterator]
    split_ifs
    · exact ih cancelled _ hrest
    · obtain ⟨argsCopy, ha⟩ := hargs value (List.mem_cons_self _ _)
      obtain ⟨c, s, hrun⟩ := workerRun_returns env request hostPort input hostname
        payloadValues value cancelled { st with pulls := st.pulls + 1 } argsCopy ha
      simp only [hrun]
      exact ih c s hrest

/-- The parallel strategy returns under every interleaving when the arguments of every
value set evaluate. -/
theorem executeRequestParallel_returns (env : Env) (request : Request)
    (hostPort hostname : String) (input : Target) (payloadValues : GoMap)
    (sched : List Action) (st : State) (generator : PayloadGenerator)
    (hgen : request.generator = some generator)
    (hargs : ∀ value ∈ generator.NewIterator.remaining, ∃ argsCopy,
      getArgsCopy env request input (MergeMaps [value, payloadValues]) false = .ok argsCopy) :
    ∃ st', executeRequestParallel env request hostPort hostname input payloadValues forward
      sched st = .ok st' := by
  obtain ⟨ps, hsched, hw, hi⟩ := runSchedule_returns env request hostPort input hostname
    payloadValues (poolLimit (if request.Threads = 0 then 1 else request.Threads))
    generator.NewIterator.remaining sched (parallelStart generator st) hargs
    ⟨by simp [parallelStart], by simp [parallelStart]⟩
  obtain ⟨c, s, hdw⟩ := drainWorkers_returns env request hostPort input hostname payloadValues
    ps.workers ps.cancelled ps.st (fun w h => hargs w.value (hw w h))
  obtain ⟨c', s', hdi⟩ := drainIterator_returns env request hostPort input hostname
    payloadValues ps.iterator c s (fun v h => hargs v (hi v h))
  simp only [parallelStart] at hsched
  simp only [executeRequestParallel, hgen, hsched, hdw, hdi]
  split_ifs
  · exact ⟨_, rfl⟩
  · exact ⟨_, rfl⟩

/-! ## Parallel against sequential -/

theorem GoMap.get_set_self (m : GoMap) (k : String) (v : Value) :
    (m.set k v).get k = some v := by
  induction m with
  | nil => simp [GoMap.set, GoMap.get, List.lookup]
  | cons kv rest ih =>
    obtain ⟨k', v'⟩ := kv
    by_cases h : k' = k
    · simp [GoMap.set, h, GoMap.get, List.lookup]
    · have hne : (k == k') = false := by
        simp only [beq_eq_false_iff_ne, ne_eq]
        exact fun e => h e.symm
      simp only [GoMap.get] at ih
      simp [GoMap.set, h, GoMap.get, List.lookup, hne, ih]

theorem GoMap.get_set_of_ne (m : GoMap) (k k' : String) (v : Value) (h : k ≠ k') :
    (m.set k' v).get k = m.get k := by
  induction m with
  | nil =>
    have hne : (k == k') = false := by simpa using h
    simp [GoMap.set, GoMap.get, List.lookup, hne]
  | cons kv rest ih =>
    obtain ⟨k₀, v₀⟩ := kv
    by_cases h₀ : k₀ = k'
    · subst h₀
      have hne : (k == k₀) = false := by simpa using h
      simp [GoMap.set, GoMap.get, List.lookup, hne]
    · simp only [GoMap.get] at ih
      by_cases hk : k = k₀
      · subst hk
        simp [GoMap.set, h₀, GoMap.get, List.lookup]
      · have hne : (k == k₀) = false := by simpa using hk
        simp [GoMap.set, h₀, GoMap.get, List.lookup, hne, ih]

/-- An init script never removes an argument. -/
theorem runInit_Args_has (env : Env) (run : InitRun) (request : Request) (k : String)
    (h : request.Args.has k = true) : (runInit env run request).1.Args.has k = true := by
  induction run generalizing request with
  | done result => exact h
  | set varname value next ih =>
    simp only [runInit]
    split_ifs
    · exact ih _ _ h
    · exact ih _ _ h
    · exact ih _ _ (GoMap.has_set_of_has request.Args k varname value h)
  | updatePayload varname value next ih =>
    simp only [runInit]
    split
    · exact ih _ _ h
    · exact ih _ _ h

/-- An init script leaves the operators and the compiled operators alone. -/
theorem runInit_CompiledOperators (env : Env) (run : InitRun) (request : Request) :
    (runInit env run request).1.CompiledOperators = request.CompiledOperators := by
  induction run generalizing request with
  | done result => rfl
  | set varname value next ih =>
    simp only [runInit]
    split_ifs
    · exact ih _ _
    · exact ih _ _
    · rw [ih]
  | updatePayload varname value next ih =>
    simp only [runInit]
    split
    · rw [ih]
    · exact ih _ _

/-- The init phase returns the request the script leaves, with no error when the
interpreter answers and with an error when it fails. -/
theorem compileInit_eq (env : Env) (request : Request) :
    compileInit env request
      = ((runInit env (env.jsInit request.Init (initArgs env request)) request).1,
          match (runInit env (env.jsInit request.Init (initArgs env request)) request).2 with
          | .error err => some ("could not execute pre-condition: " ++ err)
          | .ok _ => none) := by
  have key : ∀ out : Request × Except String GoMap,
      (match out with
        | (r, .error err) => (r, some ("could not execute pre-condition: " ++ err))
        | (r, .ok _) => (r, none))
      = (out.1,
          match out.2 with
          | .error err => some ("could not execute pre-condition: " ++ err)
          | .ok _ => none) := by
    rintro ⟨r, e | v⟩ <;> rfl
  exact key _

/-- When payload parsing and operator compilation succeed, `Compile` is the check of the
port and the init phase on the request made so far. -/
theorem Compile_eq_compilePortAndInit (env : Env) (request : Request)
    (hpayloads : request.Payloads.length > 0 →
      (env.generatorsNew request.Payloads request.AttackType).2 = none)
    (hoperators : request.Operators.Matchers.length > 0 ∨
        request.Operators.Extractors.length > 0 →
      env.operatorsCompile (prepareOperators env request) = none) :
    Compile env request = compilePortAndInit env (beforeInit env request) := by
  have hops : ∀ r : Request, r.Operators = request.Operators →
      compileOperators env r = compilePortAndInit env
        (if r.Operators.Matchers.length > 0 ∨ r.Operators.Extractors.length > 0 then
          { r with
            Operators := prepareOperators env r
            CompiledOperators := some (prepareOperators env r) }
        else r) := by
    intro r hop
    have hprep : prepareOperators env r = prepareOperators env request := by
      simp only [prepareOperators, hop]
    simp only [compileOperators, hop]
    split_ifs with hdecl
    · simp only [hprep, hoperators hdecl]
    · rfl
  by_cases hlen : request.Payloads.length > 0
  · simp only [Compile, beforeInit, hlen, if_true, hpayloads hlen]
    exact hops _ rfl
  · simp only [Compile, beforeInit, hlen, if_false]
    exact hops _ rfl

theorem beforeInit_Args (env : Env) (request : Request) :
    (beforeInit env request).Args = request.Args := by
  simp only [beforeInit]
  split_ifs <;> rfl

theorem beforeInit_Init (env : Env) (request : Request) :
    (beforeInit env request).Init = request.Init := by
  simp only [beforeInit]
  split_ifs <;> rfl

/-- When payload parsing and operator compilation succeed, the port holds no expression
and an init script is declared, `Compile` is the init phase. -/
theorem Compile_eq_initOutcome (env : Env) (request : Request)
    (hpayloads : request.Payloads.length > 0 →
      (env.generatorsNew request.Payloads request.AttackType).2 = none)
    (hoperators : request.Operators.Matchers.length > 0 ∨
        request.Operators.Extractors.length > 0 →
      env.operatorsCompile (prepareOperators env request) = none)
    (hport : Contains (getPort env request) "\x7b\x7b" = false)
    (hinit : request.Init ≠ "") :
    Compile env request
      = ((initOutcome env request).1,
          match (initOutcome env request).2 with
          | .error err => some ("could not execute pre-condition: " ++ err)
          | .ok _ => none) := by
  rw [Compile_eq_compilePortAndInit env request hpayloads hoperators]
  have hgp : getPort env (beforeInit env request) = getPort env request := by
    simp only [getPort, beforeInit_Args]
  simp only [compilePortAndInit, hgp, hport, Bool.false_eq_true, if_false, beforeInit_Init,
    ne_eq, hinit, not_false_eq_true, if_true, compileInit_eq, initOutcome]

/-- C14 as stated fails: the init script sets `token` and then the interpreter fails
with `boom`; `Compile` returns an error, and `token` stays in the arguments. -/
theorem C14_counterexample :
    (demoInitRequest [] []).Init ≠ "" ∧
    (Compile (demoEnvInit demoFailingInit) (demoInitRequest [] [])).2
      = some "could not execute pre-condition: boom" ∧
    (Compile (demoEnvInit demoFailingInit) (demoInitRequest [] [])).1.Args.get "token"
      = some (.str "secret") :=
  ⟨by decide, by rfl, by rfl⟩

/-- C14, amended: for a request that reaches its init script, `Compile` leaves the
request as the script leaves it; it returns no error when the interpreter answers,
whatever the result carries, and an error when the interpreter fails; every argument
declared stays, and an argument set through `set` with a name and a value at any
point of a script is in the arguments at the end, however the script ends. -/
theorem C14_init_failure (env : Env) (request : Request)
    (hpayloads : request.Payloads.length > 0 →
      (env.generatorsNew request.Payloads request.AttackType).2 = none)
    (hoperators : request.Operators.Matchers.length > 0 ∨
        request.Operators.Extractors.length > 0 →
      env.operatorsCompile (prepareOperators env request) = none)
    (hport : Contains (getPort env request) "\x7b\x7b" = false)
    (hinit : request.Init ≠ "") :
    (Compile env request).1 = (initOutcome env request).1 ∧
    (∀ result, (initOutcome env request).2 = .ok result → (Compile env request).2 = none) ∧
    (∀ err, (initOutcome env request).2 = .error err →
      (Compile env request).2 = some ("could not execute pre-condition: " ++ err)) ∧
    (∀ k, request.Args.has k = true → (Compile env request).1.Args.has k = true) ∧
    (∀ (r : Request) (varname : String) (value : Value) (next : Bool → InitRun),
      varname ≠ "" → value ≠ Value.null →
      (runInit env (.set varname value next) r).1.Args.has varname = true) := by
  rw [Compile_eq_initOutcome env request hpayloads hoperators hport hinit]
  refine ⟨rfl, ?_, ?_, ?_, ?_⟩
  · intro result h
    simp only [h]
  · intro err h
    simp only [h]
  · intro k h
    simp only [initOutcome]
    exact runInit_Args_has env _ _ k (by rw [beforeInit_Args]; exact h)
  · intro r varname value next hn hv
    simp only [runInit, hn, hv, if_false]
    exact runInit_Args_has env _ _ varname (GoMap.has_set_self r.Args varname value)

/-- C14 at work: the init script sets `token` and ends with a result carrying an error;
`Compile` returns no error. -/
theorem C14_init_failure_witness :
    ((demoInitRequest [] []).Payloads.length > 0 →
      ((demoEnvInit demoComplainingInit).generatorsNew (demoInitRequest [] []).Payloads
        (demoInitRequest [] []).AttackType).2 = none) ∧
    ((demoInitRequest [] []).Operators.Matchers.length > 0 ∨
        (demoInitRequest [] []).Operators.Extractors.length > 0 →
      (demoEnvInit demoComplainingInit).operatorsCompile
        (prepareOperators (demoEnvInit demoComplainingInit) (demoInitRequest [] [])) = none) ∧
    Contains (getPort (demoEnvInit demoComplainingInit) (demoInitRequest [] [])) "\x7b\x7b"
      = false ∧
    (demoInitRequest [] []).Init ≠ "" ∧
    (initOutcome (demoEnvInit demoComplainingInit) (demoInitRequest [] [])).2
      = .ok [("error", .str "boom")] ∧
    (Compile (demoEnvInit demoComplainingInit) (demoInitRequest [] [])).2 = none ∧
    (Compile (demoEnvInit demoComplainingInit) (demoInitRequest [] [])).1.Args.get "token"
      = some (.str "secret") :=
  ⟨fun _ => rfl, fun _ => rfl, by rfl, by decide, by rfl,
    (C14_init_failure (demoEnvInit demoComplainingInit) (demoInitRequest [] [])
      (fun _ => rfl) (fun _ => rfl) (by rfl) (by decide)).2.1 [("error", .str "boom")] (by rfl),
    by rfl⟩

theorem defaultPart_spec (declared : Matcher) :
    (defaultPart declared).MType = declared.MType ∧
    (defaultPart declared).body = declared.body ∧
    (declared.Part = "" ∧ declared.MType ≠ MatcherType.DSLMatcher →
      (defaultPart declared).Part = "response") ∧
    (¬ (declared.Part = "" ∧ declared.MType ≠ MatcherType.DSLMatcher) →
      (defaultPart declared).Part = declared.Part) := by
  simp only [defaultPart]
  split_ifs with h
  · exact ⟨rfl, rfl, fun _ => rfl, fun hn => absurd h hn⟩
  · exact ⟨rfl, rfl, fun hp => absurd hp h, fun _ => rfl⟩

theorem compilePortAndInit_CompiledOperators (env : Env) (request : Request) :
    (compilePortAndInit env request).1.CompiledOperators = request.CompiledOperators := by
  simp only [compilePortAndInit]
  split_ifs
  · rfl
  · rw [compileInit_eq]
    exact runInit_CompiledOperators env _ _
  · rfl

/-- What `Compile` leaves as compiled operators: the prepared operators when a matcher or
an extractor is declared, payload parsing succeeded and they compiled; otherwise what
the request had. -/
theorem Compile_CompiledOperators (env : Env) (request : Request) :
    ((request.Operators.Matchers.length > 0 ∨ request.Operators.Extractors.length > 0) →
      (Compile env request).2 = none →
      (Compile env request).1.CompiledOperators = some (prepareOperators env request)) ∧
    (¬ (request.Operators.Matchers.length > 0 ∨ request.Operators.Extractors.length > 0) →
      (Compile env request).1.CompiledOperators = request.CompiledOperators) := by
  have hops : ∀ r : Request, r.Operators = request.Operators →
      r.CompiledOperators = request.CompiledOperators →
      ((request.Operators.Matchers.length > 0 ∨ request.Operators.Extractors.length > 0) →
        (compileOperators env r).2 = none →
        (compileOperators env r).1.CompiledOperators = some (prepareOperators env request)) ∧
      (¬ (request.Operators.Matchers.length > 0 ∨ request.Operators.Extractors.length > 0) →
        (compileOperators env r).1.CompiledOperators = request.CompiledOperators) := by
    intro r hop hco
    have hprep : prepareOperators env r = prepareOperators env request := by
      simp only [prepareOperators, hop]
    constructor
    · intro hdecl hok
      simp only [compileOperators, hop, hdecl, if_true, hprep] at hok ⊢
      cases hc : env.operatorsCompile (prepareOperators env request) with
      | some err => simp [hc] at hok
      | none =>
        simp only [hc]
        rw [compilePortAndInit_CompiledOperators]
    · intro hdecl
      simp only [compileOperators, hop, hdecl, if_false]
      rw [compilePortAndInit_CompiledOperators, hco]
  by_cases hlen : request.Payloads.length > 0
  · cases hb : (env.generatorsNew request.Payloads request.AttackType).2 with
    | some err =>
      simp only [Compile, hlen, if_true, hb]
      exact ⟨fun _ h => by simp at h, fun _ => trivial⟩
    | none =>
      simp only [Compile, hlen, if_true, hb]
      exact hops _ rfl rfl
  · simp only [Compile, hlen, if_false]
    exact hops _ rfl rfl

/-- C15: after a successful `Compile` of a request declaring a matcher or an
extractor, the compiled operators hold the declared matchers in order, each with its
kind and declaration unchanged, with part `response` when it declared no part and is
not of the DSL kind, and with the part it declared otherwise; when neither a matcher
nor an extractor is declared, `Compile` produces no compiled operators. -/
theorem C15_matcher_part_defaults (env : Env) (request : Request) :
    ((request.Operators.Matchers.length > 0 ∨ request.Operators.Extractors.length > 0) →
      (Compile env request).2 = none →
      ∃ compiled, (Compile env request).1.CompiledOperators = some compiled ∧
        List.Forall₂
          (fun declared matcher =>
            matcher.MType = declared.MType ∧ matcher.body = declared.body ∧
            (declared.Part = "" ∧ declared.MType ≠ MatcherType.DSLMatcher →
              matcher.Part = "response") ∧
            (¬ (declared.Part = "" ∧ declared.MType ≠ MatcherType.DSLMatcher) →
              matcher.Part = declared.Part))
          request.Operators.Matchers compiled.Matchers) ∧
    (¬ (request.Operators.Matchers.length > 0 ∨ request.Operators.Extractors.length > 0) →
      request.CompiledOperators = none →
      (Compile env request).1.CompiledOperators = none) := by
  obtain ⟨h1, h2⟩ := Compile_CompiledOperators env request
  constructor
  · intro hdecl hok
    refine ⟨prepareOperators env request, h1 hdecl hok, ?_⟩
    simp only [prepareOperators]
    generalize request.Operators.Matchers = matchers
    induction matchers with
    | nil => exact List.Forall₂.nil
    | cons m rest ih => exact List.Forall₂.cons (defaultPart_spec m) ih
  · intro hdecl hnone
    rw [h2 hdecl, hnone]

/-- C15 at work: three matchers, one without part, one of the DSL kind without part,
one with a part of its own. -/
theorem C15_matcher_part_defaults_witness :
    (demoMatchersRequest.Operators.Matchers.length > 0 ∨
      demoMatchersRequest.Operators.Extractors.length > 0) ∧
    (Compile demoEnv demoMatchersRequest).2 = none ∧
    ((Compile demoEnv demoMatchersRequest).1.CompiledOperators.map
        (fun ops => ops.Matchers.map Matcher.Part)) = some ["response", "", "banner"] ∧
    (∃ compiled, (Compile demoEnv demoMatchersRequest).1.CompiledOperators = some compiled ∧
      List.Forall₂
        (fun declared matcher =>
          matcher.MType = declared.MType ∧ matcher.body = declared.body ∧
          (declared.Part = "" ∧ declared.MType ≠ MatcherType.DSLMatcher →
            matcher.Part = "response") ∧
          (¬ (declared.Part = "" ∧ declared.MType ≠ MatcherType.DSLMatcher) →
            matcher.Part = declared.Part))
        demoMatchersRequest.Operators.Matchers compiled.Matchers) ∧
    (Compile demoEnv (demoRequest "probe" "" [] [] [] false 0)).1.CompiledOperators = none :=
  ⟨Or.inl (by decide), by rfl, by rfl,
    (C15_matcher_part_defaults demoEnv demoMatchersRequest).1 (Or.inl (by decide)) (by rfl),
    by rfl⟩

/-! ## The function `updatePayload` of the init script -/

theorem runInit_no_generator (env : Env) (run : InitRun) (request : Request)
    (h : request.generator = none) :
    (runInit env run request).1.Payloads = request.Payloads ∧
    (runInit env run request).1.generator = none := by
  induction run generalizing request with
  | done result => exact ⟨rfl, h⟩
  | set varname value next ih =>
    simp only [runInit]
    split_ifs
    · exact ih _ _ h
    · exact ih _ _ h
    · exact ih _ _ h
  | updatePayload varname value next ih =>
    simp only [runInit, h]
    exact ih _ _ h

theorem beforeInit_Payloads (env : Env) (request : Request) :
    (beforeInit env request).Payloads = request.Payloads := by
  simp only [beforeInit]
  split_ifs <;> rfl

theorem beforeInit_generator (env : Env) (request : Request) :
    (beforeInit env request).generator
      = if request.Payloads.length > 0 then
          (env.generatorsNew request.Payloads request.AttackType).1
        else request.generator := by
  simp only [beforeInit]
  split_ifs <;> rfl

/-- C19 as stated fails: the payloads are not empty at compile time and `Compile`
succeeds; the init script updates the payload `bad`, for which the generator builder
returns its error and no generator, and then the payload `good`: the second call fails
and `good` keeps the value it had. -/
theorem C19_counterexample :
    (demoInitRequest [] [("good", .list ["a"])]).Payloads.length > 0 ∧
    (Compile (demoEnvInit demoTwoUpdates) (demoInitRequest [] [("good", .list ["a"])])).2
      = none ∧
    (initOutcome (demoEnvInit demoTwoUpdates) (demoInitRequest [] [("good", .list ["a"])])).2
      = .ok [("second-update-failed", .bool true)] ∧
    (Compile (demoEnvInit demoTwoUpdates)
        (demoInitRequest [] [("good", .list ["a"])])).1.Payloads.get "good"
      = some (.list ["a"]) ∧
    (Compile (demoEnvInit demoTwoUpdates)
        (demoInitRequest [] [("good", .list ["a"])])).1.generator.isNone = true :=
  ⟨by decide, by rfl, by rfl, by rfl, by rfl⟩

/-- C19, amended: `updatePayload(name, value)` called while the request has a
generator sets `Payloads[name] = value`, leaves every other payload entry unchanged,
makes the generator of the request what the generator builder returns for the updated
payloads, and fails exactly when the builder does; called while the request has no
generator it fails and changes nothing. A request whose payloads are not empty has at
its init script the generator built from them at compile time; a request compiled
without payloads has none, and whatever its init script does, its payloads stay as
they were. -/
theorem C19_update_payload (env : Env) (request : Request) (varname : String)
    (value : Value) (next : Bool → InitRun) :
    (request.generator ≠ none →
      runInit env (.updatePayload varname value next) request
        = runInit env
            (next (env.generatorsNew (request.Payloads.set varname value)
              request.AttackType).2.isSome)
            { request with
              Payloads := request.Payloads.set varname value
              generator := (env.generatorsNew (request.Payloads.set varname value)
                request.AttackType).1 } ∧
      (request.Payloads.set varname value).get varname = some value ∧
      ∀ k, k ≠ varname → (request.Payloads.set varname value).get k = request.Payloads.get k) ∧
    (request.generator = none →
      runInit env (.updatePayload varname value next) request
        = runInit env (next true) request) ∧
    (request.Payloads.length > 0 →
      (beforeInit env request).generator
        = (env.generatorsNew request.Payloads request.AttackType).1) ∧
    (¬ request.Payloads.length > 0 → request.generator = none →
      (beforeInit env request).generator = none ∧
      ∀ script, (runInit env script (beforeInit env request)).1.Payloads = request.Payloads) := by
  refine ⟨?_, ?_, ?_, ?_⟩
  · intro h
    refine ⟨?_, GoMap.get_set_self _ _ _, fun k hk => GoMap.get_set_of_ne _ _ _ _ hk⟩
    cases hg : request.generator with
    | none => exact absurd hg h
    | some g => simp only [runInit, hg]
  · intro h
    simp only [runInit, h]
  · intro h
    rw [beforeInit_generator, if_pos h]
  · intro h hg
    have hb : (beforeInit env request).generator = none := by
      rw [beforeInit_generator, if_neg h, hg]
    refine ⟨hb, fun script => ?_⟩
    rw [(runInit_no_generator env script _ hb).1, beforeInit_Payloads]

/-- C19 at work: the payload `good` is updated from the init script of a request that
has a generator. -/
theorem C19_update_payload_witness :
    (beforeInit (demoEnvInit demoTwoUpdates)
      (demoInitRequest [] [("good", .list ["a"])])).generator ≠ none ∧
    (runInit (demoEnvInit demoTwoUpdates)
        (.updatePayload "good" (.list ["y"]) (fun failed => .done (.ok [("failed", .bool failed)])))
        (beforeInit (demoEnvInit demoTwoUpdates)
          (demoInitRequest [] [("good", .list ["a"])]))).2
      = .ok [("failed", .bool false)] ∧
    (runInit (demoEnvInit demoTwoUpdates)
        (.updatePayload "good" (.list ["y"]) (fun failed => .done (.ok [("failed", .bool failed)])))
        (beforeInit (demoEnvInit demoTwoUpdates)
          (demoInitRequest [] [("good", .list ["a"])]))).1.Payloads.get "good"
      = some (.list ["y"]) :=
  ⟨by simp [beforeInit, demoInitRequest, demoRequest, demoEnvInit, GoMap.has, GoMap.get,
      List.lookup],
    by
      rw [((C19_update_payload (demoEnvInit demoTwoUpdates)
        (beforeInit (demoEnvInit demoTwoUpdates) (demoInitRequest [] [("good", .list ["a"])]))
        "good" (.list ["y"]) (fun failed => .done (.ok [("failed", .bool failed)]))).1
        (by simp [beforeInit, demoInitRequest, demoRequest, demoEnvInit, GoMap.has, GoMap.get,
          List.lookup])).1]
      rfl,
    by rfl⟩

/-! ## The arguments handed to the interpreter -/

theorem evaluateArgsLoop_cons (env : Env) (payloadValues : GoMap) (ignoreErrors : Bool)
    (k : String) (v : Value) (rest argsCopy : GoMap)
    (h : ∀ vVal, v = .str vVal → Contains vVal "\x7b" = true →
      ∃ finalAddress, env.exprEvaluate vVal payloadValues = .ok finalAddress) :
    evaluateArgsLoop env payloadValues ignoreErrors ((k, v) :: rest) argsCopy
      = evaluateArgsLoop env payloadValues ignoreErrors rest
          (argsCopy.set k (storedArg env payloadValues ignoreErrors v)) := by
  cases v with
  | str vVal =>
    by_cases hc : Contains vVal "\x7b" = true
    · obtain ⟨r, hr⟩ := h vVal rfl hc
      simp only [evaluateArgsLoop, storedArg, hc, if_true, hr]
      split_ifs <;> rfl
    · simp only [evaluateArgsLoop, storedArg, hc, Bool.false_eq_true, if_false]
  | _ => simp only [evaluateArgsLoop, storedArg]

theorem GoMap.get_of_mem_nodup (m : GoMap) (k : String) (v : Value)
    (hkeys : (m.map Prod.fst).Nodup) (h : (k, v) ∈ m) : m.get k = some v := by
  induction m with
  | nil => simp at h
  | cons kv rest ih =>
    obtain ⟨k₀, v₀⟩ := kv
    simp only [List.map_cons, List.nodup_cons] at hkeys
    rcases List.mem_cons.mp h with heq | hmem
    · cases heq
      simp [GoMap.get, List.lookup]
    · have hne : k ≠ k₀ := by
        intro hkk
        rw [hkk] at hmem
        exact hkeys.1 (List.mem_map_of_mem Prod.fst hmem)
      have hb : (k == k₀) = false := by simpa using hne
      have := ih hkeys.2 hmem
      simpa [GoMap.get, List.lookup, hb] using this

/-- The loop of `evaluateArgs` returns when the evaluator returns no error: the copy
holds what was stored for each argument visited and what it held for the others. -/
theorem evaluateArgsLoop_ok (env : Env) (payloadValues : GoMap) (ignoreErrors : Bool)
    (rest argsCopy : GoMap) (hkeys : (rest.map Prod.fst).Nodup)
    (heval : Evaluates env payloadValues rest) :
    ∃ out, evaluateArgsLoop env payloadValues ignoreErrors rest argsCopy = .ok out ∧
      (∀ k v, (k, v) ∈ rest → out.get k = some (storedArg env payloadValues ignoreErrors v)) ∧
      (∀ k, k ∉ rest.map Prod.fst → out.get k = argsCopy.get k) := by
  induction rest generalizing argsCopy with
  | nil => exact ⟨argsCopy, rfl, fun k v h => by simp at h, fun _ _ => rfl⟩
  | cons kv rest ih =>
    obtain ⟨k₀, v₀⟩ := kv
    simp only [List.map_cons, List.nodup_cons] at hkeys
    obtain ⟨out, hout, hin, hnot⟩ :=
      ih (argsCopy.set k₀ (storedArg env payloadValues ignoreErrors v₀))
        hkeys.2 (fun k vVal hm hc => heval k vVal (List.mem_cons_of_mem _ hm) hc)
    refine ⟨out, ?_, ?_, ?_⟩
    · rw [evaluateArgsLoop_cons env payloadValues ignoreErrors k₀ v₀ rest argsCopy
        (fun vVal hv hc => heval k₀ vVal (by rw [hv]; exact List.mem_cons_self _ _) hc)]
      exact hout
    · intro k v hm
      rcases List.mem_cons.mp hm with heq | hmem
      · cases heq
        rw [hnot _ hkeys.1, GoMap.get_set_self]
      · exact hin k v hmem
    · intro k hk
      simp only [List.map_cons, List.mem_cons, not_or] at hk
      rw [hnot k hk.2, GoMap.get_set_of_ne _ _ _ _ hk.1]

/-- A loop of `evaluateArgs` that returns a map met no evaluation error. -/
theorem evaluateArgsLoop_evaluates (env : Env) (payloadValues : GoMap) (ignoreErrors : Bool)
    (rest argsCopy out : GoMap)
    (hok : evaluateArgsLoop env payloadValues ignoreErrors rest argsCopy = .ok out) :
    Evaluates env payloadValues rest := by
  induction rest generalizing argsCopy with
  | nil =>
    intro k vVal hm
    simp at hm
  | cons kv rest ih =>
    obtain ⟨k₀, v₀⟩ := kv
    have hhead : ∀ vVal, v₀ = .str vVal → Contains vVal "\x7b" = true →
        ∃ finalAddress, env.exprEvaluate vVal payloadValues = .ok finalAddress := by
      intro vVal hv hc
      subst hv
      cases he : env.exprEvaluate vVal payloadValues with
      | error err => simp [evaluateArgsLoop, hc, he] at hok
      | ok finalAddress => exact ⟨finalAddress, rfl⟩
    rw [evaluateArgsLoop_cons env payloadValues ignoreErrors k₀ v₀ rest argsCopy hhead] at hok
    intro k vVal hm hc
    rcases List.mem_cons.mp hm with heq | hmem
    · cases heq
      exact hhead vVal rfl hc
    · exact ih _ hok k vVal hmem hc

theorem storedArg_plain (env : Env) (payloadValues : GoMap) (ignoreErrors : Bool) (v : Value)
    (hplain : ∀ vVal, v = .str vVal → Contains vVal "\x7b" = false) :
    storedArg env payloadValues ignoreErrors v = v := by
  cases v with
  | str vVal => simp only [storedArg, hplain vVal rfl, Bool.false_eq_true, if_false]
  | _ => simp only [storedArg]

theorem GoMap.get_eq_none_of_not_mem (m : GoMap) (k : String)
    (h : k ∉ m.map Prod.fst) : m.get k = none := by
  simp only [GoMap.get]
  rw [List.lookup_eq_none_iff]
  intro p hp
  have hne : k ≠ p.1 := fun hpk => h (List.mem_map.mpr ⟨p, hp, hpk.symm⟩)
  simpa using hne

/-- C21: whenever `evaluateArgs` returns a map, in either mode, the map is a copy built
from the empty map by the loop over the arguments of the request, which the loop only
reads: it has exactly the keys of the arguments, and every argument that is not a
string, or is a string without an opening brace, has in it the value declared. -/
theorem C21_evaluateArgs_returns_copy (env : Env) (request : Request) (payloadValues : GoMap)
    (ignoreErrors : Bool) (argsCopy : GoMap)
    (hkeys : (request.Args.map Prod.fst).Nodup)
    (hok : evaluateArgs env request payloadValues ignoreErrors = .ok argsCopy) :
    evaluateArgsLoop env payloadValues ignoreErrors request.Args [] = .ok argsCopy ∧
    (∀ k, argsCopy.has k = request.Args.has k) ∧
    (∀ k v, (k, v) ∈ request.Args →
      (∀ vVal, v = .str vVal → Contains vVal "\x7b" = false) →
      argsCopy.get k = some v ∧ request.Args.get k = some v) := by
  have hloop : evaluateArgsLoop env payloadValues ignoreErrors request.Args [] = .ok argsCopy :=
    hok
  obtain ⟨out, hout, hin, hnot⟩ :=
    evaluateArgsLoop_ok env payloadValues ignoreErrors request.Args [] hkeys
      (evaluateArgsLoop_evaluates env payloadValues ignoreErrors _ _ _ hloop)
  have heq : out = argsCopy := by
    rw [hout] at hloop
    injection hloop
  subst heq
  refine ⟨hout, ?_, ?_⟩
  · intro k
    by_cases hk : k ∈ request.Args.map Prod.fst
    · obtain ⟨⟨k', v⟩, hm, rfl⟩ := List.mem_map.mp hk
      simp only [GoMap.has, hin _ v hm, GoMap.get_of_mem_nodup _ _ v hkeys hm, Option.isSome_some]
    · simp only [GoMap.has, hnot k hk, GoMap.get_eq_none_of_not_mem _ k hk]
      rfl
  · intro k v hm hplain
    exact ⟨by rw [hin k v hm, storedArg_plain env payloadValues ignoreErrors v hplain],
      GoMap.get_of_mem_nodup _ _ v hkeys hm⟩

/-- C21 at work: of four arguments, the two without an expression are copied as
declared, and the arguments of the request are what they were. -/
theorem C21_evaluateArgs_returns_copy_witness :
    (demoArgsRequest.Args.map Prod.fst).Nodup ∧
    evaluateArgs demoEnvResolving demoArgsRequest [] false
      = .ok [("host", .str "scanme.sh"), ("Port", .str "8080"), ("user", .str "admin"),
          ("pass", .str "\x7b\x7bpassword\x7d\x7d")] ∧
    (∀ k, GoMap.has [("host", .str "scanme.sh"), ("Port", .str "8080"), ("user", .str "admin"),
        ("pass", .str "\x7b\x7bpassword\x7d\x7d")] k = demoArgsRequest.Args.has k) ∧
    demoArgsRequest.Args.get "user" = some (.str "\x7b\x7busername\x7d\x7d") :=
  ⟨by decide, by rfl,
    (C21_evaluateArgs_returns_copy demoEnvResolving demoArgsRequest [] false _ (by decide)
      (by rfl)).2.1,
    by rfl⟩

/-! ## The scope of a probe -/

theorem GoMap.get_setAll_of_none (src dst : GoMap) (k : String) (h : src.get k = none) :
    (dst.setAll src).get k = dst.get k := by
  induction src generalizing dst with
  | nil => rfl
  | cons kv rest ih =>
    obtain ⟨k₀, v₀⟩ := kv
    simp only [GoMap.get, List.lookup] at h
    split at h
    · exact absurd h (by simp)
    · next hne =>
      have hk : k ≠ k₀ := by simpa using hne
      simp only [GoMap.setAll, List.foldl_cons]
      have := ih (dst.set k₀ v₀) h
      simp only [GoMap.setAll] at this
      rw [this, GoMap.get_set_of_ne _ _ _ _ hk]

theorem GoMap.get_setAll_of_some (src dst : GoMap) (k : String) (v : Value)
    (hkeys : (src.map Prod.fst).Nodup) (h : src.get k = some v) :
    (dst.setAll src).get k = some v := by
  induction src generalizing dst with
  | nil => simp [GoMap.get, List.lookup] at h
  | cons kv rest ih =>
    obtain ⟨k₀, v₀⟩ := kv
    simp only [List.map_cons, List.nodup_cons] at hkeys
    simp only [GoMap.setAll, List.foldl_cons]
    by_cases hk : k = k₀
    · subst hk
      have hv : v₀ = v := by simpa [GoMap.get, List.lookup] using h
      subst hv
      have := GoMap.get_setAll_of_none rest (dst.set k v₀) k
        (GoMap.get_eq_none_of_not_mem rest k hkeys.1)
      simp only [GoMap.setAll] at this
      rw [this, GoMap.get_set_self]
    · have hne : (k == k₀) = false := by simpa using hk
      have hrest : GoMap.get rest k = some v := by
        simpa [GoMap.get, List.lookup, hne] using h
      have := ih (dst.set k₀ v₀) hkeys.2 hrest
      simpa only [GoMap.setAll] using this

theorem GoMap.keys_set (m : GoMap) (k : String) (v : Value) :
    (m.set k v).map Prod.fst
      = if k ∈ m.map Prod.fst then m.map Prod.fst else m.map Prod.fst ++ [k] := by
  induction m with
  | nil => simp [GoMap.set]
  | cons kv rest ih =>
    obtain ⟨k₀, v₀⟩ := kv
    by_cases h₀ : k₀ = k
    · subst h₀
      simp [GoMap.set]
    · have hne : ¬ k = k₀ := fun h => h₀ h.symm
      simp only [GoMap.set, h₀, if_false, List.map_cons, ih, List.mem_cons, hne, false_or]
      split_ifs <;> simp

theorem GoMap.nodup_set (m : GoMap) (k : String) (v : Value)
    (h : (m.map Prod.fst).Nodup) : ((m.set k v).map Prod.fst).Nodup := by
  rw [GoMap.keys_set]
  split_ifs with hk
  · exact h
  · exact List.Nodup.append h (List.nodup_singleton k) (by
      intro a ha hb
      simp only [List.mem_singleton] at hb
      exact hk (hb ▸ ha))

theorem GoMap.nodup_setAll (src dst : GoMap) (h : (dst.map Prod.fst).Nodup) :
    ((dst.setAll src).map Prod.fst).Nodup := by
  induction src generalizing dst with
  | nil => exact h
  | cons kv rest ih =>
    simp only [GoMap.setAll, List.foldl_cons]
    exact ih _ (GoMap.nodup_set dst kv.1 kv.2 h)

/-- A merged map has each key once. -/
theorem MergeMaps_nodup (maps : List GoMap) : ((MergeMaps maps).map Prod.fst).Nodup := by
  have key : ∀ (maps : List GoMap) (acc : GoMap), (acc.map Prod.fst).Nodup →
      ((maps.foldl GoMap.setAll acc).map Prod.fst).Nodup := by
    intro maps
    induction maps with
    | nil => exact fun _ h => h
    | cons m rest ih =>
      intro acc h
      simp only [List.foldl_cons]
      exact ih _ (GoMap.nodup_setAll m acc h)
  exact key maps [] (by simp)

/-- The merge of two maps: a key of the later operand has the later operand's value,
a key of the earlier operand alone the earlier operand's. -/
theorem MergeMaps_pair_get (a b : GoMap) (k : String)
    (ha : (a.map Prod.fst).Nodup) (hb : (b.map Prod.fst).Nodup) :
    (b.has k = true → (MergeMaps [a, b]).get k = b.get k) ∧
    (b.has k = false → (MergeMaps [a, b]).get k = a.get k) := by
  rw [MergeMaps_pair]
  constructor
  · intro h
    cases hg : b.get k with
    | none => simp [GoMap.has, hg] at h
    | some v => exact GoMap.get_setAll_of_some b _ k v hb hg
  · intro h
    have hg : b.get k = none := by
      cases hg : b.get k with
      | none => rfl
      | some v => simp [GoMap.has, hg] at h
    rw [GoMap.get_setAll_of_none b _ k hg]
    cases hga : a.get k with
    | none => exact GoMap.get_setAll_of_none a [] k hga
    | some v => exact GoMap.get_setAll_of_some a [] k v ha hga

theorem GoMap.has_setAll_false (src dst : GoMap) (k : String) (hd : dst.has k = false)
    (hs : src.has k = false) : (dst.setAll src).has k = false := by
  have hg : src.get k = none := by
    cases hg : src.get k with
    | none => rfl
    | some v => simp [GoMap.has, hg] at hs
  simp only [GoMap.has] at hd ⊢
  rw [GoMap.get_setAll_of_none src dst k hg]
  exact hd

theorem GoMap.has_set_false (m : GoMap) (k k' : String) (v : Value) (hm : m.has k = false)
    (hk : k ≠ k') : (m.set k' v).has k = false := by
  simp only [GoMap.has] at hm ⊢
  rw [GoMap.get_set_of_ne _ _ _ _ hk]
  exact hm

/-- A name that no source of the per-target scope holds is not in it, whatever the
template context holds. -/
theorem buildScope_has_false (env : Env) (hostPort hostname port : String)
    (dynamicValues templateCtx : GoMap) (k : String)
    (hvars : ∀ values, (env.variablesEvaluate values).has k = false)
    (hopts : env.buildPayloadFromOptions.has k = false)
    (hdyn : dynamicValues.has k = false)
    (hconst : env.Constants.has k = false)
    (hdns : ∀ host, (env.generateDNSVariables host).has k = false)
    (h₁ : k ≠ "Hostname") (h₂ : k ≠ "Host") (h₃ : k ≠ "Port") :
    (buildScope env hostPort hostname port dynamicValues templateCtx).1.has k = false := by
  have hempty : GoMap.has [] k = false := rfl
  simp only [buildScope, MergeMaps, List.foldl_cons, List.foldl_nil]
  refine GoMap.has_setAll_false _ _ k
    (GoMap.has_setAll_false _ _ k
      (GoMap.has_setAll_false _ _ k (GoMap.has_setAll_false _ _ k hempty (hvars _)) ?_)
      hconst)
    (hdns _)
  exact GoMap.has_set_false _ _ _ _
    (GoMap.has_set_false _ _ _ _
      (GoMap.has_set_false _ _ _ _
        (GoMap.has_setAll_false _ _ k (GoMap.has_setAll_false _ _ k hempty hopts) hdyn) h₁)
      h₂) h₃

/-- The dynamic values, the constants and the three names derived from the address are
in the per-target scope. -/
theorem buildScope_has_of_source (env : Env) (hostPort hostname port : String)
    (dynamicValues templateCtx : GoMap) (k : String)
    (h : dynamicValues.has k = true ∨ env.Constants.has k = true ∨
      k = "Hostname" ∨ k = "Host" ∨ k = "Port") :
    (buildScope env hostPort hostname port dynamicValues templateCtx).1.has k = true := by
  simp only [buildScope, MergeMaps, List.foldl_cons, List.foldl_nil]
  refine GoMap.has_setAll_of_has _ _ k ?_
  rcases h with h | h | h | h | h
  · refine GoMap.has_setAll_of_has _ _ k (GoMap.has_setAll_of_src _ _ k ?_)
    exact GoMap.has_set_of_has _ _ _ _ (GoMap.has_set_of_has _ _ _ _
      (GoMap.has_set_of_has _ _ _ _ (GoMap.has_setAll_of_src _ _ k h)))
  · exact GoMap.has_setAll_of_src _ _ k h
  · subst h
    refine GoMap.has_setAll_of_has _ _ _ (GoMap.has_setAll_of_src _ _ _ ?_)
    exact GoMap.has_set_of_has _ _ _ _ (GoMap.has_set_of_has _ _ _ _
      (GoMap.has_set_self _ _ _))
  · subst h
    refine GoMap.has_setAll_of_has _ _ _ (GoMap.has_setAll_of_src _ _ _ ?_)
    exact GoMap.has_set_of_has _ _ _ _ (GoMap.has_set_self _ _ _)
  · subst h
    refine GoMap.has_setAll_of_has _ _ _ (GoMap.has_setAll_of_src _ _ _ ?_)
    exact GoMap.has_set_self _ _ _

theorem buildScope_nodup (env : Env) (hostPort hostname port : String)
    (dynamicValues templateCtx : GoMap) :
    ((buildScope env hostPort hostname port dynamicValues templateCtx).1.map Prod.fst).Nodup := by
  simp only [buildScope]
  exact MergeMaps_nodup _

/-- C23 as stated fails for the template context: the name `token` is in the payload
value set and in the template context of the target, and in no other source; the
per-target scope does not hold it, and the probe resolves it to the payload's value. -/
theorem C23_counterexample :
    (targetScope demoEnvLookup demoTokenRequest demoTarget []
      [("token", .str "from-context")]).1.has "token" = false ∧
    (targetScope demoEnvLookup demoTokenRequest demoTarget []
      [("token", .str "from-context")]).2.get "token" = some (.str "from-context") ∧
    demoTokenRequest.generator.map (fun g => g.NewIterator.remaining)
      = some [[("token", .str "from-payload")]] ∧
    usersProbed (ExecuteWithResults demoEnvLookup demoTokenRequest demoTarget [] [] []
        { State.init with templateCtx := [("token", .str "from-context")] })
      = [some (.str "from-payload")] :=
  ⟨by rfl, by rfl, by rfl, by rfl⟩

/-- C23, amended: the probe of a value set evaluates its arguments in the merge of the
value set and the per-target scope, in this order. A name the per-target scope holds
resolves there to the per-target scope's value, and a name it does not hold to the
payload's. The per-target scope holds the dynamic values, the constants and the names
`Hostname`, `Host` and `Port`; it does not hold a name that only the template context
has, the template context being no operand of the merge that builds it. -/
theorem C23_probe_scope_resolution (env : Env) (request : Request) (target : Target)
    (dynamicValues templateCtx value : GoMap) (k : String)
    (hvalue : (value.map Prod.fst).Nodup) :
    (∀ hostPort input hostname callback st r,
      executeRequestWithPayloads env request hostPort input hostname value
        (targetScope env request target dynamicValues templateCtx).1 callback st = .ok r →
      ∃ argsCopy, evaluateArgs env request
        (MergeMaps [value, (targetScope env request target dynamicValues templateCtx).1]) false
          = .ok argsCopy) ∧
    ((targetScope env request target dynamicValues templateCtx).1.has k = true →
      (MergeMaps [value, (targetScope env request target dynamicValues templateCtx).1]).get k
        = (targetScope env request target dynamicValues templateCtx).1.get k) ∧
    ((targetScope env request target dynamicValues templateCtx).1.has k = false →
      (MergeMaps [value, (targetScope env request target dynamicValues templateCtx).1]).get k
        = value.get k) ∧
    (dynamicValues.has k = true ∨ env.Constants.has k = true ∨
        k = "Hostname" ∨ k = "Host" ∨ k = "Port" →
      (targetScope env request target dynamicValues templateCtx).1.has k = true) ∧
    ((∀ values, (env.variablesEvaluate values).has k = false) →
      env.buildPayloadFromOptions.has k = false → dynamicValues.has k = false →
      env.Constants.has k = false → (∀ host, (env.generateDNSVariables host).has k = false) →
      k ≠ "Hostname" → k ≠ "Host" → k ≠ "Port" →
      (targetScope env request target dynamicValues templateCtx).1.has k = false) := by
  have hscope := buildScope_nodup env
    (getAddress env (resolveInput env request target).Input).1
    (resolveHostname env (getAddress env (resolveInput env request target).Input).1)
    (env.splitHostPort (getAddress env (resolveInput env request target).Input).1).2
    dynamicValues templateCtx
  have hpair := MergeMaps_pair_get value
    (targetScope env request target dynamicValues templateCtx).1 k hvalue hscope
  refine ⟨?_, hpair.1, hpair.2, ?_, ?_⟩
  · intro hostPort input hostname callback st r hrun
    obtain ⟨a, ha⟩ := args_of_executeRequestWithPayloads env request hostPort input hostname
      value _ callback st r hrun
    cases he : evaluateArgs env request
        (MergeMaps [value, (targetScope env request target dynamicValues templateCtx).1])
        false with
    | error err => simp [getArgsCopy, he] at ha
    | ok argsCopy => exact ⟨argsCopy, rfl⟩
  · intro h
    exact buildScope_has_of_source env _ _ _ dynamicValues templateCtx k h
  · intro hvars hopts hdyn hconst hdns h₁ h₂ h₃
    exact buildScope_has_false env _ _ _ dynamicValues templateCtx k hvars hopts hdyn hconst
      hdns h₁ h₂ h₃

/-- C23 at work: the name `token` is in the payload value set and in the dynamic
values; the probe resolves it to the value of the dynamic values. -/
theorem C23_probe_scope_resolution_witness :
    (List.map Prod.fst [("token", Value.str "from-payload")]).Nodup ∧
    (targetScope demoEnvLookup demoTokenRequest demoTarget [("token", .str "from-dynamic")]
      []).1.get "token" = some (.str "from-dynamic") ∧
    (MergeMaps [[("token", .str "from-payload")],
      (targetScope demoEnvLookup demoTokenRequest demoTarget [("token", .str "from-dynamic")]
        []).1]).get "token"
      = (targetScope demoEnvLookup demoTokenRequest demoTarget [("token", .str "from-dynamic")]
        []).1.get "token" ∧
    usersProbed (ExecuteWithResults demoEnvLookup demoTokenRequest demoTarget
        [("token", .str "from-dynamic")] [] [] State.init)
      = [some (.str "from-dynamic")] :=
  ⟨by decide, by rfl,
    (C23_probe_scope_resolution demoEnvLookup demoTokenRequest demoTarget
      [("token", .str "from-dynamic")] [] [("token", .str "from-payload")] "token"
      (by decide)).2.1 (by rfl),
    by rfl⟩

/-! ## The workers of the parallel strategy, step by step -/

theorem sum_map_eraseIdx {α : Type} (f : α → Nat) (ws : List α) (i : Nat) (w : α)
    (h : ws.get? i = some w) : ((ws.eraseIdx i).map f).sum + f w = (ws.map f).sum := by
  induction ws generalizing i with
  | nil => simp at h
  | cons x rest ih =>
    cases i with
    | zero =>
      simp only [List.get?_cons_zero, Option.some.injEq] at h
      subst h
      simp only [List.eraseIdx_cons_zero, List.map_cons, List.sum_cons]
      omega
    | succ j =>
      simp only [List.get?_cons_succ] at h
      have := ih j h
      simp only [List.eraseIdx_cons_succ, List.map_cons, List.sum_cons]
      omega

theorem sum_map_set {α : Type} (f : α → Nat) (ws : List α) (i : Nat) (w w' : α)
    (h : ws.get? i = some w) :
    ((ws.set i w').map f).sum + f w = (ws.map f).sum + f w' := by
  induction ws generalizing i with
  | nil => simp at h
  | cons x rest ih =>
    cases i with
    | zero =>
      simp only [List.get?_cons_zero, Option.some.injEq] at h
      subst h
      simp only [List.set_cons_zero, List.map_cons, List.sum_cons]
      omega
    | succ j =>
      simp only [List.get?_cons_succ] at h
      have := ih j h
      simp only [List.set_cons_succ, List.map_cons, List.sum_cons]
      omega

theorem mem_of_getOpt {α : Type} (ws : List α) (i : Nat) (w : α) (h : ws.get? i = some w) :
    w ∈ ws := by
  induction ws generalizing i with
  | nil => simp at h
  | cons x rest ih =>
    cases i with
    | zero =>
      simp only [List.get?_cons_zero, Option.some.injEq] at h
      subst h
      exact List.mem_cons_self _ _
    | succ j =>
      simp only [List.get?_cons_succ] at h
      exact List.mem_cons_of_mem _ (ih j h)

theorem mem_eraseIdx_of_ne {α : Type} (ws : List α) (i : Nat) (w x : α)
    (h : ws.get? i = some w) (hx : x ∈ ws) (hne : x ≠ w) : x ∈ ws.eraseIdx i := by
  induction ws generalizing i with
  | nil => simp at h
  | cons y rest ih =>
    cases i with
    | zero =>
      simp only [List.get?_cons_zero, Option.some.injEq] at h
      subst h
      rcases List.mem_cons.mp hx with hxy | hxr
      · exact absurd hxy hne
      · simpa using hxr
    | succ j =>
      simp only [List.get?_cons_succ] at h
      simp only [List.eraseIdx_cons_succ]
      rcases List.mem_cons.mp hx with hxy | hxr
      · exact hxy ▸ List.mem_cons_self _ _
      · exact List.mem_cons_of_mem _ (ih j h hxr)

theorem mem_set_of_ne {α : Type} (ws : List α) (i : Nat) (w w' x : α)
    (h : ws.get? i = some w) (hx : x ∈ ws) (hne : x ≠ w) : x ∈ ws.set i w' := by
  induction ws generalizing i with
  | nil => simp at h
  | cons y rest ih =>
    cases i with
    | zero =>
      simp only [List.get?_cons_zero, Option.some.injEq] at h
      subst h
      rcases List.mem_cons.mp hx with hxy | hxr
      · exact absurd hxy hne
      · simpa using Or.inr hxr
    | succ j =>
      simp only [List.get?_cons_succ] at h
      simp only [List.set_cons_succ]
      rcases List.mem_cons.mp hx with hxy | hxr
      · exact hxy ▸ List.mem_cons_self _ _
      · exact List.mem_cons_of_mem _ (ih j h hxr)

theorem mem_set_self {α : Type} (ws : List α) (i : Nat) (w w' : α)
    (h : ws.get? i = some w) : w' ∈ ws.set i w' := by
  induction ws generalizing i with
  | nil => simp at h
  | cons y rest ih =>
    cases i with
    | zero => simp
    | succ j =>
      simp only [List.get?_cons_succ] at h
      simp only [List.set_cons_succ]
      exact List.mem_cons_of_mem _ (ih j h)

/-- What one call of the wrapper of a parallel worker does to the caller's log and to
the flag. -/
theorem parallelCallback_held (event : InternalWrappedEvent) (st : State) :
    (parallelCallback forward event st).events = st.events ++ [event] ∧
    (parallelCallback forward event st).gotMatches = (st.gotMatches || event.isMatched) := by
  by_cases h : event.isMatched = true
  · simp [parallelCallback, h, forward]
  · have hf : event.isMatched = false := by simpa using h
    simp [parallelCallback, hf, forward]

/-- What the outcome routing gives the caller under the wrapper of a parallel worker:
at most one event, and the flag is raised exactly when that event is matched. -/
theorem routeOutcome_held (env : Env) (request : Request)
    (payload payloadValues data : GoMap) (urls : List String) (err : Option String)
    (st : State) :
    ∃ held : List InternalWrappedEvent, held.length ≤ 1 ∧
      (routeOutcome env request payload payloadValues data urls err
        (parallelCallback forward) st).2.events = st.events ++ held ∧
      (routeOutcome env request payload payloadValues data urls err
        (parallelCallback forward) st).2.gotMatches
        = (st.gotMatches || held.any InternalWrappedEvent.isMatched) := by
  simp only [routeOutcome]
  split_ifs
  · exact ⟨[_], by simp, (parallelCallback_held _ _).1, by
      rw [(parallelCallback_held _ _).2]
      simp⟩
  · exact ⟨[_], by simp, (parallelCallback_held _ _).1, by
      rw [(parallelCallback_held _ _).2]
      simp⟩
  · split
    · exact ⟨[], by simp, by simp, by simp⟩
    · exact ⟨[], by simp, by simp, by simp⟩

/-- What a probe run up to the caller's callback does: one interpreter call for the
value set, counted as one request; the caller's log and the other counters stay; the
worker has at most one event in hand, and the flag is up after it when it was up
before or that event is matched. -/
theorem probeHeld_spec (env : Env) (request : Request) (hostPort : String) (input : Target)
    (hostname : String) (payloadValues value : GoMap) (st st' : State)
    (held : List InternalWrappedEvent)
    (hrun : probeHeld env request hostPort input hostname payloadValues value st
      = .ok (held, st')) :
    held.length ≤ 1 ∧
    st'.events = st.events ∧
    st'.gotMatches = (st.gotMatches || held.any InternalWrappedEvent.isMatched) ∧
    st'.probes.map ProbeCall.payload = st.probes.map ProbeCall.payload ++ [value] ∧
    st'.requests = st.requests + 1 ∧
    st'.failedRequests = st.failedRequests ∧
    st'.matched = st.matched ∧
    st'.pulls = st.pulls := by
  simp only [probeHeld] at hrun
  cases hexec : executeRequestWithPayloads env request hostPort input hostname value
      payloadValues (parallelCallback forward) { st with events := [] } with
  | error p => simp [hexec] at hrun
  | ok r =>
    obtain ⟨err, s⟩ := r
    simp only [hexec] at hrun
    injection hrun with hrun
    injection hrun with hheld hst
    obtain ⟨argsCopy, hargs⟩ := args_of_executeRequestWithPayloads env request hostPort input
      hostname value payloadValues _ _ _ hexec
    rw [executeRequestWithPayloads_of_args env request hostPort input hostname value
      payloadValues _ _ argsCopy hargs] at hexec
    have hs : s = (routeOutcome env request value (MergeMaps [value, payloadValues])
        (probeOutcomeData env request hostPort input value payloadValues argsCopy
          { st with events := [] })
        (probeBody env request).2
        (probeResults (env.jsExecute (probeBody env request).1
          (probeArgs argsCopy { st with events := [] }))).2
        (parallelCallback forward)
        (afterCall env request hostPort input value payloadValues argsCopy
          { st with events := [] })).2 := by
      injection hexec with hexec
      rw [hexec]
    obtain ⟨h, hlen, hev, hflag⟩ := routeOutcome_held env request value
      (MergeMaps [value, payloadValues])
      (probeOutcomeData env request hostPort input value payloadValues argsCopy
        { st with events := [] })
      (probeBody env request).2
      (probeResults (env.jsExecute (probeBody env request).1
        (probeArgs argsCopy { st with events := [] }))).2
      (afterCall env request hostPort input value payloadValues argsCopy
        { st with events := [] })
    obtain ⟨hp, hpull, hreq, hm, hf, _⟩ := routeOutcome_parallel env request value
      (MergeMaps [value, payloadValues])
      (probeOutcomeData env request hostPort input value payloadValues argsCopy
        { st with events := [] })
      (probeBody env request).2
      (probeResults (env.jsExecute (probeBody env request).1
        (probeArgs argsCopy { st with events := [] }))).2
      (afterCall env request hostPort input value payloadValues argsCopy
        { st with events := [] })
    rw [← hs] at hev hflag hp hpull hreq hm hf
    simp only [afterCall, List.nil_append] at hev hflag hp hpull hreq hm hf
    subst hst
    have hh : held = h := by rw [← hheld, hev]
    subst hh
    refine ⟨hlen, rfl, hflag, ?_, hreq, hf, hm, hpull⟩
    show s.probes.map ProbeCall.payload = _
    rw [hp]
    simp

theorem HoldsMatch_append (ws : List Goroutine) (w : Goroutine) (h : HoldsMatch ws) :
    HoldsMatch (ws ++ [w]) := by
  obtain ⟨x, hx, held, hs, e, he, hm⟩ := h
  exact ⟨x, List.mem_append_left _ hx, held, hs, e, he, hm⟩

theorem HoldsMatch_eraseIdx (ws : List Goroutine) (i : Nat) (w : Goroutine)
    (hw : ws.get? i = some w) (hstage : ∀ held, w.stage ≠ .ran held) (h : HoldsMatch ws) :
    HoldsMatch (ws.eraseIdx i) := by
  obtain ⟨x, hx, held, hs, e, he, hm⟩ := h
  have hne : x ≠ w := by
    intro heq
    exact hstage held (heq ▸ hs)
  exact ⟨x, mem_eraseIdx_of_ne ws i w x hw hx hne, held, hs, e, he, hm⟩

theorem HoldsMatch_set (ws : List Goroutine) (i : Nat) (w w' : Goroutine)
    (hw : ws.get? i = some w) (hstage : ∀ held, w.stage ≠ .ran held) (h : HoldsMatch ws) :
    HoldsMatch (ws.set i w') := by
  obtain ⟨x, hx, held, hs, e, he, hm⟩ := h
  have hne : x ≠ w := by
    intro heq
    exact hstage held (heq ▸ hs)
  exact ⟨x, mem_set_of_ne ws i w w' x hw hx hne, held, hs, e, he, hm⟩

theorem matchedEvents_append (st : State) (held : List InternalWrappedEvent) :
    State.matchedEvents { st with events := st.events ++ held }
      = st.matchedEvents + (held.filter InternalWrappedEvent.isMatched).length := by
  simp [State.matchedEvents]

theorem filter_pos_of_mem (held : List InternalWrappedEvent) (event : InternalWrappedEvent)
    (he : event ∈ held) (hm : event.isMatched = true) :
    0 < (held.filter InternalWrappedEvent.isMatched).length := by
  apply List.length_pos_of_mem
  exact List.mem_filter.mpr ⟨he, hm⟩

/-- Every move of an interleaving keeps the flag and the signal sound. -/
theorem FlagSound_poolStep (env : Env) (request : Request) (hostPort : String)
    (input : Target) (hostname : String) (payloadValues : GoMap) (limit before : Nat)
    (move : Move) (pool pool' : Pool)
    (hinv : FlagSound env request before pool)
    (hstep : poolStep env request hostPort input hostname payloadValues limit move pool
      = .ok pool') :
    FlagSound env request before pool' := by
  obtain ⟨h₁, h₂, h₃⟩ := hinv
  cases move with
  | spawn =>
    simp only [poolStep] at hstep
    split at hstep
    · injection hstep with hstep
      subst hstep
      exact ⟨h₁, h₂, h₃⟩
    · split_ifs at hstep
      · injection hstep with hstep
        subst hstep
        refine ⟨h₁, ?_, h₃⟩
        intro hg
        rcases h₂ hg with h | h
        · exact Or.inl h
        · exact Or.inr (HoldsMatch_append _ _ h)
      · injection hstep with hstep
        subst hstep
        exact ⟨h₁, h₂, h₃⟩
  | check i =>
    cases hw : pool.workers.get? i with
    | none =>
      simp only [poolStep, hw] at hstep
      injection hstep with hstep
      subst hstep
      exact ⟨h₁, h₂, h₃⟩
    | some w =>
      obtain ⟨value, stage⟩ := w
      cases stage with
      | waiting =>
        simp only [poolStep, hw] at hstep
        split_ifs at hstep
        · injection hstep with hstep
          subst hstep
          refine ⟨h₁, ?_, h₃⟩
          intro hg
          rcases h₂ hg with h | h
          · exact Or.inl h
          · exact Or.inr (HoldsMatch_eraseIdx _ i _ hw (by intro held; simp) h)
        · injection hstep with hstep
          subst hstep
          refine ⟨h₁, ?_, h₃⟩
          intro hg
          rcases h₂ hg with h | h
          · exact Or.inl h
          · exact Or.inr (HoldsMatch_set _ i _ _ hw (by intro held; simp) h)
      | started | ran held | delivered =>
        simp only [poolStep, hw] at hstep
        injection hstep with hstep
        subst hstep
        exact ⟨h₁, h₂, h₃⟩
  | run i =>
    cases hw : pool.workers.get? i with
    | none =>
      simp only [poolStep, hw] at hstep
      injection hstep with hstep
      subst hstep
      exact ⟨h₁, h₂, h₃⟩
    | some w =>
      obtain ⟨value, stage⟩ := w
      cases stage with
      | started =>
        simp only [poolStep, hw] at hstep
        cases hp : probeHeld env request hostPort input hostname payloadValues value pool.st with
        | error p => simp [hp] at hstep
        | ok r =>
          obtain ⟨held, s⟩ := r
          simp only [hp] at hstep
          injection hstep with hstep
          subst hstep
          obtain ⟨_, hev, hflag, _⟩ := probeHeld_spec env request hostPort input hostname
            payloadValues value pool.st s held hp
          have hme : s.matchedEvents = pool.st.matchedEvents := by
            simp only [State.matchedEvents, hev]
          refine ⟨?_, ?_, ?_⟩
          · intro hc
            obtain ⟨hs, hg⟩ := h₁ hc
            exact ⟨hs, by
              show s.gotMatches = true
              rw [hflag, hg]
              rfl⟩
          · intro hg
            have hg' : s.gotMatches = true := hg
            rw [hflag, Bool.or_eq_true] at hg'
            show before < s.matchedEvents ∨ _
            rw [hme]
            rcases hg' with hold | hnew
            · rcases h₂ hold with h | h
              · exact Or.inl h
              · exact Or.inr (HoldsMatch_set _ i _ _ hw (by intro held'; simp) h)
            · obtain ⟨e, he, hm⟩ := List.any_eq_true.mp hnew
              exact Or.inr ⟨⟨value, .ran held⟩, mem_set_self _ i _ _ hw, held, rfl, e, he, hm⟩
          · show before ≤ s.matchedEvents
            rw [hme]
            exact h₃
      | waiting | ran held | delivered =>
        simp only [poolStep, hw] at hstep
        injection hstep with hstep
        subst hstep
        exact ⟨h₁, h₂, h₃⟩
  | deliver i =>
    cases hw : pool.workers.get? i with
    | none =>
      simp only [poolStep, hw] at hstep
      injection hstep with hstep
      subst hstep
      exact ⟨h₁, h₂, h₃⟩
    | some w =>
      obtain ⟨value, stage⟩ := w
      cases stage with
      | ran held =>
        simp only [poolStep, hw] at hstep
        injection hstep with hstep
        subst hstep
        refine ⟨h₁, ?_, ?_⟩
        · intro hg
          show before < State.matchedEvents { pool.st with events := pool.st.events ++ held } ∨ _
          rw [matchedEvents_append]
          rcases h₂ hg with h | h
          · exact Or.inl (by omega)
          · obtain ⟨x, hx, held', hs, e, he, hm⟩ := h
            by_cases hxw : x = ⟨value, .ran held⟩
            · subst hxw
              simp only [Stage.ran.injEq] at hs
              subst hs
              have := filter_pos_of_mem _ e he hm
              exact Or.inl (by omega)
            · exact Or.inr ⟨x, mem_set_of_ne _ i _ _ x hw hx hxw, held', hs, e, he, hm⟩
        · show before ≤ State.matchedEvents { pool.st with events := pool.st.events ++ held }
          rw [matchedEvents_append]
          omega
      | waiting | started | delivered =>
        simp only [poolStep, hw] at hstep
        injection hstep with hstep
        subst hstep
        exact ⟨h₁, h₂, h₃⟩
  | finish i =>
    cases hw : pool.workers.get? i with
    | none =>
      simp only [poolStep, hw] at hstep
      injection hstep with hstep
      subst hstep
      exact ⟨h₁, h₂, h₃⟩
    | some w =>
      obtain ⟨value, stage⟩ := w
      cases stage with
      | delivered =>
        simp only [poolStep, hw] at hstep
        injection hstep with hstep
        subst hstep
        refine ⟨?_, ?_, h₃⟩
        · intro hc
          have hc' : (pool.cancelled ||
              (shouldStopAtFirstMatch env request && pool.st.gotMatches)) = true := hc
          rw [Bool.or_eq_true, Bool.and_eq_true] at hc'
          rcases hc' with h | h
          · exact h₁ h
          · exact h
        · intro hg
          rcases h₂ hg with h | h
          · exact Or.inl h
          · exact Or.inr (HoldsMatch_eraseIdx _ i _ hw (by intro held; simp) h)
      | waiting | started | ran held =>
        simp only [poolStep, hw] at hstep
        injection hstep with hstep
        subst hstep
        exact ⟨h₁, h₂, h₃⟩

/-- In every pool an interleaving reaches, the flag and the signal are sound. -/
theorem FlagSound_poolRun (env : Env) (request : Request) (hostPort : String)
    (input : Target) (hostname : String) (payloadValues : GoMap) (limit before : Nat)
    (moves : List Move) (pool pool' : Pool)
    (hinv : FlagSound env request before pool)
    (hrun : poolRun env request hostPort input hostname payloadValues limit moves pool
      = .ok pool') :
    FlagSound env request before pool' := by
  induction moves generalizing pool with
  | nil =>
    simp only [poolRun] at hrun
    injection hrun with hrun
    subst hrun
    exact hinv
  | cons move rest ih =>
    simp only [poolRun] at hrun
    cases hstep : poolStep env request hostPort input hostname payloadValues limit move pool with
    | error p => simp [hstep] at hrun
    | ok pool₁ =>
      simp only [hstep] at hrun
      exact ih pool₁ (FlagSound_poolStep env request hostPort input hostname payloadValues
        limit before move pool pool₁ hinv hstep) hrun

theorem FlagSound_start (env : Env) (request : Request) (generator : PayloadGenerator)
    (st : State) : FlagSound env request st.matchedEvents (poolStart generator st) := by
  refine ⟨?_, ?_, ?_⟩
  · intro h
    simp [poolStart] at h
  · intro h
    simp [poolStart] at h
  · simp [poolStart, State.matchedEvents]

theorem startedIn_append_waiting (ws : List Goroutine) (value : GoMap) :
    startedIn (ws ++ [⟨value, .waiting⟩]) = startedIn ws := by
  simp [startedIn]

theorem heldIn_append_waiting (ws : List Goroutine) (value : GoMap) :
    heldIn (ws ++ [⟨value, .waiting⟩]) = heldIn ws := by
  simp [heldIn]

/-- A move made once the signal is set: the signal stays set, and an interpreter call,
a counted request and an event for the caller come only from a worker that was past
the check: what is done and what the workers past the check have yet to do add up to
what it was. -/
theorem poolStep_after_signal (env : Env) (request : Request) (hostPort : String)
    (input : Target) (hostname : String) (payloadValues : GoMap) (limit : Nat)
    (move : Move) (pool pool' : Pool)
    (hc : pool.cancelled = true)
    (hstep : poolStep env request hostPort input hostname payloadValues limit move pool
      = .ok pool') :
    pool'.cancelled = true ∧
    pool'.st.probes.length + startedIn pool'.workers
      = pool.st.probes.length + startedIn pool.workers ∧
    pool'.st.requests + startedIn pool'.workers
      = pool.st.requests + startedIn pool.workers ∧
    pool'.st.events.length + heldIn pool'.workers + startedIn pool'.workers
      ≤ pool.st.events.length + heldIn pool.workers + startedIn pool.workers ∧
    pool'.st.failedRequests = pool.st.failedRequests ∧
    pool'.st.matched = pool.st.matched := by
  have hsame : pool' = pool →
      pool'.cancelled = true ∧
      pool'.st.probes.length + startedIn pool'.workers
        = pool.st.probes.length + startedIn pool.workers ∧
      pool'.st.requests + startedIn pool'.workers
        = pool.st.requests + startedIn pool.workers ∧
      pool'.st.events.length + heldIn pool'.workers + startedIn pool'.workers
        ≤ pool.st.events.length + heldIn pool.workers + startedIn pool.workers ∧
      pool'.st.failedRequests = pool.st.failedRequests ∧
      pool'.st.matched = pool.st.matched := by
    intro h
    subst h
    exact ⟨hc, rfl, rfl, le_refl _, rfl, rfl⟩
  cases move with
  | spawn =>
    simp only [poolStep] at hstep
    split at hstep
    · injection hstep with hstep
      exact hsame hstep.symm
    · split_ifs at hstep
      · injection hstep with hstep
        subst hstep
        refine ⟨hc, ?_, ?_, ?_, rfl, rfl⟩
        · show pool.st.probes.length + startedIn (pool.workers ++ [_]) = _
          rw [startedIn_append_waiting]
        · show pool.st.requests + startedIn (pool.workers ++ [_]) = _
          rw [startedIn_append_waiting]
        · show pool.st.events.length + heldIn (pool.workers ++ [_])
            + startedIn (pool.workers ++ [_]) ≤ _
          rw [startedIn_append_waiting, heldIn_append_waiting]
      · injection hstep with hstep
        exact hsame hstep.symm
  | check i =>
    cases hw : pool.workers.get? i with
    | none =>
      simp only [poolStep, hw] at hstep
      injection hstep with hstep
      exact hsame hstep.symm
    | some w =>
      obtain ⟨value, stage⟩ := w
      cases stage with
      | waiting =>
        simp only [poolStep, hw] at hstep
        rw [if_pos hc] at hstep
        injection hstep with hstep
        subst hstep
        have hs := sum_map_eraseIdx (fun w : Goroutine => if w.stage = .started then 1 else 0)
          pool.workers i _ hw
        have hh := sum_map_eraseIdx (fun w : Goroutine =>
          match w.stage with
          | .ran held => held.length
          | _ => 0) pool.workers i _ hw
        simp only [reduceCtorEq, if_false, Nat.add_zero] at hs hh
        refine ⟨hc, ?_, ?_, ?_, rfl, rfl⟩
        · show pool.st.probes.length + startedIn (pool.workers.eraseIdx i) = _
          simp only [startedIn, hs]
        · show pool.st.requests + startedIn (pool.workers.eraseIdx i) = _
          simp only [startedIn, hs]
        · show pool.st.events.length + heldIn (pool.workers.eraseIdx i)
            + startedIn (pool.workers.eraseIdx i) ≤ _
          simp only [startedIn, heldIn, hs, hh]
          exact le_refl _
      | started | ran held | delivered =>
        simp only [poolStep, hw] at hstep
        injection hstep with hstep
        exact hsame hstep.symm
  | run i =>
    cases hw : pool.workers.get? i with
    | none =>
      simp only [poolStep, hw] at hstep
      injection hstep with hstep
      exact hsame hstep.symm
    | some w =>
      obtain ⟨value, stage⟩ := w
      cases stage with
      | started =>
        simp only [poolStep, hw] at hstep
        cases hp : probeHeld env request hostPort input hostname payloadValues value pool.st with
        | error p => simp [hp] at hstep
        | ok r =>
          obtain ⟨held, s⟩ := r
          simp only [hp] at hstep
          injection hstep with hstep
          subst hstep
          obtain ⟨hlen, hev, _, hprobes, hreq, hfail, hmatched, _⟩ := probeHeld_spec env request
            hostPort input hostname payloadValues value pool.st s held hp
          have hpl : s.probes.length = pool.st.probes.length + 1 := by
            have := congrArg List.length hprobes
            simpa using this
          have hs := sum_map_set (fun w : Goroutine => if w.stage = .started then 1 else 0)
            pool.workers i _ ⟨value, .ran held⟩ hw
          have hh := sum_map_set (fun w : Goroutine =>
            match w.stage with
            | .ran held => held.length
            | _ => 0) pool.workers i _ ⟨value, .ran held⟩ hw
          simp only [reduceCtorEq, if_false, if_true, Nat.add_zero] at hs hh
          refine ⟨hc, ?_, ?_, ?_, hfail, hmatched⟩
          · show s.probes.length + startedIn (pool.workers.set i ⟨value, .ran held⟩) = _
            simp only [startedIn] at hs ⊢
            omega
          · show s.requests + startedIn (pool.workers.set i ⟨value, .ran held⟩) = _
            simp only [startedIn] at hs ⊢
            omega
          · show s.events.length + heldIn (pool.workers.set i ⟨value, .ran held⟩)
              + startedIn (pool.workers.set i ⟨value, .ran held⟩) ≤ _
            rw [hev]
            simp only [startedIn, heldIn] at hs hh ⊢
            omega
      | waiting | ran held | delivered =>
        simp only [poolStep, hw] at hstep
        injection hstep with hstep
        exact hsame hstep.symm
  | deliver i =>
    cases hw : pool.workers.get? i with
    | none =>
      simp only [poolStep, hw] at hstep
      injection hstep with hstep
      exact hsame hstep.symm
    | some w =>
      obtain ⟨value, stage⟩ := w
      cases stage with
      | ran held =>
        simp only [poolStep, hw] at hstep
        injection hstep with hstep
        subst hstep
        have hs := sum_map_set (fun w : Goroutine => if w.stage = .started then 1 else 0)
          pool.workers i _ ⟨value, .delivered⟩ hw
        have hh := sum_map_set (fun w : Goroutine =>
          match w.stage with
          | .ran held => held.length
          | _ => 0) pool.workers i _ ⟨value, .delivered⟩ hw
        simp only [reduceCtorEq, if_false, Nat.add_zero] at hs hh
        refine ⟨hc, ?_, ?_, ?_, rfl, rfl⟩
        · show pool.st.probes.length + startedIn (pool.workers.set i ⟨value, .delivered⟩) = _
          simp only [startedIn, hs]
        · show pool.st.requests + startedIn (pool.workers.set i ⟨value, .delivered⟩) = _
          simp only [startedIn, hs]
        · show (pool.st.events ++ held).length
            + heldIn (pool.workers.set i ⟨value, .delivered⟩)
            + startedIn (pool.workers.set i ⟨value, .delivered⟩) ≤ _
          simp only [startedIn, heldIn, List.length_append] at hs hh ⊢
          omega
      | waiting | started | delivered =>
        simp only [poolStep, hw] at hstep
        injection hstep with hstep
        exact hsame hstep.symm
  | finish i =>
    cases hw : pool.workers.get? i with
    | none =>
      simp only [poolStep, hw] at hstep
      injection hstep with hstep
      exact hsame hstep.symm
    | some w =>
      obtain ⟨value, stage⟩ := w
      cases stage with
      | delivered =>
        simp only [poolStep, hw] at hstep
        injection hstep with hstep
        subst hstep
        have hs := sum_map_eraseIdx (fun w : Goroutine => if w.stage = .started then 1 else 0)
          pool.workers i _ hw
        have hh := sum_map_eraseIdx (fun w : Goroutine =>
          match w.stage with
          | .ran held => held.length
          | _ => 0) pool.workers i _ hw
        simp only [reduceCtorEq, if_false, Nat.add_zero] at hs hh
        refine ⟨by simp [hc], ?_, ?_, ?_, rfl, rfl⟩
        · show pool.st.probes.length + startedIn (pool.workers.eraseIdx i) = _
          simp only [startedIn, hs]
        · show pool.st.requests + startedIn (pool.workers.eraseIdx i) = _
          simp only [startedIn, hs]
        · show pool.st.events.length + heldIn (pool.workers.eraseIdx i)
            + startedIn (pool.workers.eraseIdx i) ≤ _
          simp only [startedIn, heldIn, hs, hh]
          exact le_refl _
      | waiting | started | ran held =>
        simp only [poolStep, hw] at hstep
        injection hstep with hstep
        exact hsame hstep.symm

/-- Whatever moves follow once the signal is set, what is done and what the workers
past the check have yet to do add up to what it was when the signal was set. -/
theorem poolRun_after_signal (env : Env) (request : Request) (hostPort : String)
    (input : Target) (hostname : String) (payloadValues : GoMap) (limit : Nat)
    (moves : List Move) (pool pool' : Pool)
    (hc : pool.cancelled = true)
    (hrun : poolRun env request hostPort input hostname payloadValues limit moves pool
      = .ok pool') :
    pool'.cancelled = true ∧
    pool'.st.probes.length + startedIn pool'.workers
      = pool.st.probes.length + startedIn pool.workers ∧
    pool'.st.requests + startedIn pool'.workers
      = pool.st.requests + startedIn pool.workers ∧
    pool'.st.events.length + heldIn pool'.workers + startedIn pool'.workers
      ≤ pool.st.events.length + heldIn pool.workers + startedIn pool.workers ∧
    pool'.st.failedRequests = pool.st.failedRequests ∧
    pool'.st.matched = pool.st.matched := by
  induction moves generalizing pool with
  | nil =>
    simp only [poolRun] at hrun
    injection hrun with hrun
    subst hrun
    exact ⟨hc, rfl, rfl, le_refl _, rfl, rfl⟩
  | cons move rest ih =>
    simp only [poolRun] at hrun
    cases hstep : poolStep env request hostPort input hostname payloadValues limit move pool with
    | error p => simp [hstep] at hrun
    | ok pool₁ =>
      simp only [hstep] at hrun
      obtain ⟨a₁, a₂, a₃, a₄, a₅, a₆⟩ := poolStep_after_signal env request hostPort input
        hostname payloadValues limit move pool pool₁ hc hstep
      obtain ⟨b₁, b₂, b₃, b₄, b₅, b₆⟩ := ih pool₁ a₁ hrun
      exact ⟨b₁, by omega, by omega, by omega, by rw [b₅, a₅], by rw [b₆, a₆]⟩

/-- C13: in every pool an interleaving of the parallel strategy reaches, worker steps
apart, the signal is set only when the run stops at the first match and the flag is
up, and then a probe of the run has produced a matched event, which has reached the
caller or is still in the hand of its worker. Once the signal is set, a worker that
has not passed its check has one move, the check, which ends it and changes nothing
else; and whatever moves follow, the interpreter calls made and the requests counted
are those of the workers that were past the check, the events given to the caller do
not exceed what those workers and the workers with an event in hand give, and the
counters of failed requests and of matches stay. -/
theorem C13_cancelled_worker_never_dispatches (env : Env) (request : Request)
    (hostPort : String) (input : Target) (hostname : String) (payloadValues : GoMap)
    (limit : Nat) (generator : PayloadGenerator) (moves : List Move) (st : State)
    (pool : Pool)
    (hreach : poolRun env request hostPort input hostname payloadValues limit moves
      (poolStart generator st) = .ok pool)
    (hsignal : pool.cancelled = true) :
    (shouldStopAtFirstMatch env request = true ∧ pool.st.gotMatches = true ∧
      (st.matchedEvents < pool.st.matchedEvents ∨ HoldsMatch pool.workers)) ∧
    (∀ i value, pool.workers.get? i = some ⟨value, .waiting⟩ →
      poolStep env request hostPort input hostname payloadValues limit (.check i) pool
        = .ok { pool with workers := pool.workers.eraseIdx i } ∧
      poolStep env request hostPort input hostname payloadValues limit (.run i) pool
        = .ok pool ∧
      poolStep env request hostPort input hostname payloadValues limit (.deliver i) pool
        = .ok pool ∧
      poolStep env request hostPort input hostname payloadValues limit (.finish i) pool
        = .ok pool) ∧
    (∀ more pool',
      poolRun env request hostPort input hostname payloadValues limit more pool = .ok pool' →
      pool'.cancelled = true ∧
      pool'.st.probes.length + startedIn pool'.workers
        = pool.st.probes.length + startedIn pool.workers ∧
      pool'.st.requests + startedIn pool'.workers
        = pool.st.requests + startedIn pool.workers ∧
      pool'.st.events.length + heldIn pool'.workers + startedIn pool'.workers
        ≤ pool.st.events.length + heldIn pool.workers + startedIn pool.workers ∧
      pool'.st.failedRequests = pool.st.failedRequests ∧
      pool'.st.matched = pool.st.matched) := by
  obtain ⟨h₁, h₂, _⟩ := FlagSound_poolRun env request hostPort input hostname payloadValues
    limit st.matchedEvents moves (poolStart generator st) pool
    (FlagSound_start env request generator st) hreach
  refine ⟨⟨(h₁ hsignal).1, (h₁ hsignal).2, h₂ (h₁ hsignal).2⟩, ?_, ?_⟩
  · intro i value hw
    refine ⟨?_, ?_, ?_, ?_⟩
    · simp only [poolStep, hw]
      rw [if_pos hsignal]
    · simp only [poolStep, hw]
    · simp only [poolStep, hw]
    · simp only [poolStep, hw]
  · intro more pool' hrun
    exact poolRun_after_signal env request hostPort input hostname payloadValues limit more
      pool pool' hsignal hrun

/-- C13 at work: two workers are past the check; the first runs its probe, whose event
is matched, and stores the flag; the second runs its probe, gives the caller its
unmatched event, loads the flag and cancels. The signal is now set while the caller
has been given no matched event: the matched event is in the hand of the first
worker. In the other pool the signal is set while the second worker has not passed its
check: whatever it does, no second interpreter call is made. -/
theorem C13_cancelled_worker_never_dispatches_witness :
    poolRun demoEnv demoSignalRequest "scanme.sh:22" demoTarget "scanme.sh:22" [] 2
        [.spawn, .spawn, .check 0, .check 1, .run 0, .run 1, .deliver 1, .finish 1]
        (poolStart ⟨demoSweep [("id", .list ["2", "3"])]⟩ State.init)
      = .ok demoSignalPool ∧
    demoSignalPool.cancelled = true ∧
    demoSignalPool.st.matchedEvents = 0 ∧
    (shouldStopAtFirstMatch demoEnv demoSignalRequest = true ∧
      demoSignalPool.st.gotMatches = true ∧
      (State.init.matchedEvents < demoSignalPool.st.matchedEvents ∨
        HoldsMatch demoSignalPool.workers)) ∧
    poolRun demoEnv demoSignalRequest "scanme.sh:22" demoTarget "scanme.sh:22" [] 2
        [.spawn, .spawn, .check 0, .run 0, .deliver 0, .finish 0]
        (poolStart ⟨demoSweep [("id", .list ["2", "3"])]⟩ State.init)
      = .ok demoLatePool ∧
    demoLatePool.cancelled = true ∧
    demoLatePool.workers = [⟨[("id", .str "3")], .waiting⟩] ∧
    demoLatePool.st.probes.length = 1 ∧
    (endPool (poolRun demoEnv demoSignalRequest "scanme.sh:22" demoTarget "scanme.sh:22" [] 2
      [.run 0, .check 0, .run 0, .deliver 0, .finish 0] demoLatePool)).st.probes.length = 1 :=
  ⟨by rfl, by rfl, by rfl,
    (C13_cancelled_worker_never_dispatches demoEnv demoSignalRequest "scanme.sh:22" demoTarget
      "scanme.sh:22" [] 2 ⟨demoSweep [("id", .list ["2", "3"])]⟩
      [.spawn, .spawn, .check 0, .check 1, .run 0, .run 1, .deliver 1, .finish 1]
      State.init demoSignalPool (by rfl) (by rfl)).1,
    by rfl, by rfl, by rfl, by rfl, by rfl⟩

/-! ## The probe of a worker in one step and step by step -/

theorem parallelCallback_frame (event : InternalWrappedEvent) (st : State)
    (events : List InternalWrappedEvent) :
    parallelCallback forward event { st with events := events }
      = { parallelCallback forward event { st with events := [] } with
          events := events ++
            (parallelCallback forward event { st with events := [] }).events } := by
  by_cases h : event.isMatched = true
  · simp [parallelCallback, h, forward]
  · have hf : event.isMatched = false := by simpa using h
    simp [parallelCallback, hf, forward]

/-- The outcome routing under the wrapper of a parallel worker does to a state with a
log of events what it does to the state with the log set aside, the log put back in
front of what it gives the caller. -/
theorem routeOutcome_frame (env : Env) (request : Request)
    (payload payloadValues data : GoMap) (urls : List String) (err : Option String)
    (st : State) (events : List InternalWrappedEvent) :
    routeOutcome env request payload payloadValues data urls err (parallelCallback forward)
        { st with events := events }
      = ((routeOutcome env request payload payloadValues data urls err
            (parallelCallback forward) { st with events := [] }).1,
          { (routeOutcome env request payload payloadValues data urls err
              (parallelCallback forward) { st with events := [] }).2 with
            events := events ++
              (routeOutcome env request payload payloadValues data urls err
                (parallelCallback forward) { st with events := [] }).2.events }) := by
  simp only [routeOutcome]
  split_ifs
  · rw [parallelCallback_frame]
  · rw [parallelCallback_frame]
  · split
    · simp
    · simp

/-- The probe of a worker up to the caller's callback, from the probe in one step:
what the probe gives the caller is what the worker has in hand, and the rest of the
state is the same. -/
theorem probeHeld_eq (env : Env) (request : Request) (hostPort : String) (input : Target)
    (hostname : String) (payloadValues value : GoMap) (st : State) :
    (match probeHeld env request hostPort input hostname payloadValues value st with
      | .error p => Except.error p
      | .ok (held, s) => Except.ok { s with events := st.events ++ held })
      = (match executeRequestWithPayloads env request hostPort input hostname value
          payloadValues (parallelCallback forward) st with
        | .error p => Except.error p
        | .ok (_, s) => Except.ok s) := by
  cases hargs : getArgsCopy env request input (MergeMaps [value, payloadValues]) false with
  | error p => simp [probeHeld, executeRequestWithPayloads, hargs]
  | ok argsCopy =>
    have h := routeOutcome_frame env request value (MergeMaps [value, payloadValues])
      (probeOutcomeData env request hostPort input value payloadValues argsCopy st)
      (probeBody env request).2
      (probeResults (env.jsExecute (probeBody env request).1 (probeArgs argsCopy st))).2
      (afterCall env request hostPort input value payloadValues argsCopy st) st.events
    simp only [probeHeld, executeRequestWithPayloads, hargs]
    simp only [probeOutcomeData, probeArgs, afterCall] at h
    rw [h]

theorem getOpt_map_eq {α β : Type} (f : α → β) (ws : List α) (i : Nat) :
    (ws.map f).get? i = (ws.get? i).map f := by
  induction ws generalizing i with
  | nil => rfl
  | cons x rest ih =>
    cases i with
    | zero => rfl
    | succ j => simp only [List.map_cons, List.get?_cons_succ, ih j]

theorem getOpt_set_self {α : Type} (ws : List α) (i : Nat) (w w' : α)
    (h : ws.get? i = some w) : (ws.set i w').get? i = some w' := by
  induction ws generalizing i with
  | nil => simp at h
  | cons x rest ih =>
    cases i with
    | zero => rfl
    | succ j =>
      simp only [List.get?_cons_succ] at h
      simp only [List.set_cons_succ, List.get?_cons_succ, ih j h]

theorem set_set_self {α : Type} (ws : List α) (i : Nat) (w w' : α) :
    (ws.set i w).set i w' = ws.set i w' := by
  induction ws generalizing i with
  | nil => rfl
  | cons x rest ih =>
    cases i with
    | zero => rfl
    | succ j => simp [ih j]

theorem eraseIdx_set_self {α : Type} (ws : List α) (i : Nat) (w : α) :
    (ws.set i w).eraseIdx i = ws.eraseIdx i := by
  induction ws generalizing i with
  | nil => rfl
  | cons x rest ih =>
    cases i with
    | zero => rfl
    | succ j => simp [ih j]

theorem map_eraseIdx_eq {α β : Type} (f : α → β) (ws : List α) (i : Nat) :
    (ws.map f).eraseIdx i = (ws.eraseIdx i).map f := by
  induction ws generalizing i with
  | nil => rfl
  | cons x rest ih =>
    cases i with
    | zero => rfl
    | succ j => simp [ih j]

theorem map_set_eq {α β : Type} (f : α → β) (ws : List α) (i : Nat) (w : α) :
    (ws.map f).set i (f w) = (ws.set i w).map f := by
  induction ws generalizing i with
  | nil => rfl
  | cons x rest ih =>
    cases i with
    | zero => rfl
    | succ j => simp only [List.map_cons, List.set_cons_succ, ih j]

/-- A move of the parallel strategy whose workers take their probe in one step is the
run of its moves worker steps apart. -/
theorem parStep_toPool (env : Env) (request : Request) (hostPort : String) (input : Target)
    (hostname : String) (payloadValues : GoMap) (limit : Nat) (a : Action) (ps : ParState) :
    poolRun env request hostPort input hostname payloadValues limit a.toMoves ps.toPool
      = (match parStep env request hostPort input hostname payloadValues forward limit a ps with
        | .error p => Except.error p
        | .ok ps' => Except.ok ps'.toPool) := by
  have hst : ps.toPool.st = ps.st := rfl
  have hcan : ps.toPool.cancelled = ps.cancelled := rfl
  have hit : ps.toPool.iterator = ps.iterator := rfl
  have hws : ps.toPool.workers
      = ps.workers.map (fun w => ⟨w.value, if w.started then .started else .waiting⟩) := rfl
  cases a with
  | spawn =>
    simp only [Action.toMoves, poolRun, poolStep, parStep, hit]
    cases hi : ps.iterator with
    | nil => rfl
    | cons value rest =>
      simp only [hws, List.length_map]
      by_cases hl : ps.workers.length < limit
      · simp only [hl, if_true]
        simp [ParState.toPool]
      · simp only [hl, if_false]
  | check i =>
    simp only [Action.toMoves, poolRun, parStep]
    cases hw : ps.workers.get? i with
    | none =>
      have hw' : ps.toPool.workers.get? i = none := by
        rw [hws, getOpt_map_eq, hw]
        rfl
      simp only [poolStep, hw']
    | some w =>
      obtain ⟨value, started⟩ := w
      cases started with
      | true =>
        have hw' : ps.toPool.workers.get? i = some ⟨value, .started⟩ := by
          rw [hws, getOpt_map_eq, hw]
          rfl
        simp only [poolStep, hw', if_true]
      | false =>
        have hw' : ps.toPool.workers.get? i = some ⟨value, .waiting⟩ := by
          rw [hws, getOpt_map_eq, hw]
          rfl
        simp only [poolStep, hw', hcan, Bool.false_eq_true, if_false]
        by_cases hc : ps.cancelled = true
        · simp only [hc, if_true]
          simp only [ParState.toPool, map_eraseIdx_eq]
        · have hm := map_set_eq
            (fun w : Worker =>
              (⟨w.value, if w.started then Stage.started else Stage.waiting⟩ : Goroutine))
            ps.workers i ⟨value, true⟩
          simp only [if_true] at hm
          simp only [hc, if_false]
          simp only [ParState.toPool, Bool.false_eq_true, if_false, hm]
  | run i =>
    simp only [Action.toMoves, poolRun, parStep]
    cases hw : ps.workers.get? i with
    | none =>
      have hw' : ps.toPool.workers.get? i = none := by
        rw [hws, getOpt_map_eq, hw]
        rfl
      simp only [poolStep, hw']
    | some w =>
      obtain ⟨value, started⟩ := w
      cases started with
      | false =>
        have hw' : ps.toPool.workers.get? i = some ⟨value, .waiting⟩ := by
          rw [hws, getOpt_map_eq, hw]
          rfl
        simp only [poolStep, hw', Bool.false_eq_true, if_false]
      | true =>
        have hw' : ps.toPool.workers.get? i = some ⟨value, .started⟩ := by
          rw [hws, getOpt_map_eq, hw]
          rfl
        have heq := probeHeld_eq env request hostPort input hostname payloadValues value ps.st
        simp only [if_true, workerRun]
        cases hp : probeHeld env request hostPort input hostname payloadValues value ps.st with
        | error p =>
          simp only [hp] at heq
          cases hexec : executeRequestWithPayloads env request hostPort input hostname value
              payloadValues (parallelCallback forward) ps.st with
          | error q =>
            simp only [hexec] at heq
            injection heq with heq
            subst heq
            simp only [poolStep, hw', hst, hp]
          | ok r =>
            simp only [hexec] at heq
            exact absurd heq (by simp)
        | ok r =>
          obtain ⟨held, s⟩ := r
          simp only [hp] at heq
          cases hexec : executeRequestWithPayloads env request hostPort input hostname value
              payloadValues (parallelCallback forward) ps.st with
          | error q =>
            simp only [hexec] at heq
            exact absurd heq (by simp)
          | ok r' =>
            obtain ⟨err, s'⟩ := r'
            simp only [hexec] at heq
            injection heq with heq
            subst heq
            obtain ⟨_, hev, _⟩ := probeHeld_spec env request hostPort input hostname
              payloadValues value ps.st s held hp
            simp only [poolStep, hw', hst, hp, getOpt_set_self _ i _ _ hw', set_set_self,
              eraseIdx_set_self, hcan]
            simp only [ParState.toPool, map_eraseIdx_eq, hev]

theorem poolRun_append (env : Env) (request : Request) (hostPort : String) (input : Target)
    (hostname : String) (payloadValues : GoMap) (limit : Nat) (first rest : List Move)
    (pool : Pool) :
    poolRun env request hostPort input hostname payloadValues limit (first ++ rest) pool
      = (match poolRun env request hostPort input hostname payloadValues limit first pool with
        | .error p => Except.error p
        | .ok pool' =>
          poolRun env request hostPort input hostname payloadValues limit rest pool') := by
  induction first generalizing pool with
  | nil => rfl
  | cons move more ih =>
    simp only [List.cons_append, poolRun]
    cases poolStep env request hostPort input hostname payloadValues limit move pool with
    | error p => rfl
    | ok pool₁ => exact ih pool₁

/-- Every interleaving of the parallel strategy whose workers take their probe in one
step is an interleaving worker steps apart, and reaches the same pool. -/
theorem runSchedule_toPool (env : Env) (request : Request) (hostPort : String)
    (input : Target) (hostname : String) (payloadValues : GoMap) (limit : Nat)
    (sched : List Action) (ps : ParState) :
    poolRun env request hostPort input hostname payloadValues limit
        (sched.flatMap Action.toMoves) ps.toPool
      = (match runSchedule env request hostPort input hostname payloadValues forward limit
          sched ps with
        | .error p => Except.error p
        | .ok ps' => Except.ok ps'.toPool) := by
  induction sched generalizing ps with
  | nil => rfl
  | cons a rest ih =>
    simp only [List.flatMap_cons, poolRun_append, runSchedule, parStep_toPool]
    cases parStep env request hostPort input hostname payloadValues forward limit a ps with
    | error p => rfl
    | ok ps₁ => exact ih ps₁

theorem parallelStart_toPool (generator : PayloadGenerator) (st : State) :
    (parallelStart generator st).toPool = poolStart generator st := rfl

/-! ## The arguments and the sweeps when the evaluator returns no error -/

theorem Evaluates_of_returns (env : Env) (payloadValues args : GoMap)
    (heval : EvaluateReturns env) : Evaluates env payloadValues args :=
  fun _ vVal _ _ => heval vVal payloadValues

/-- The loop of `evaluateArgs` returns when the evaluator returns no error. -/
theorem evaluateArgsLoop_returns (env : Env) (payloadValues : GoMap) (ignoreErrors : Bool)
    (rest argsCopy : GoMap) (heval : Evaluates env payloadValues rest) :
    ∃ out, evaluateArgsLoop env payloadValues ignoreErrors rest argsCopy = .ok out := by
  induction rest generalizing argsCopy with
  | nil => exact ⟨argsCopy, rfl⟩
  | cons kv rest ih =>
    obtain ⟨k₀, v₀⟩ := kv
    rw [evaluateArgsLoop_cons env payloadValues ignoreErrors k₀ v₀ rest argsCopy
      (fun vVal hv hc => heval k₀ vVal (by rw [hv]; exact List.mem_cons_self _ _) hc)]
    exact ih _ (fun k vVal hm hc => heval k vVal (List.mem_cons_of_mem _ hm) hc)

/-- The method `getArgsCopy` returns when the evaluator returns no error. -/
theorem getArgsCopy_returns (env : Env) (request : Request) (input : Target)
    (payloadValues : GoMap) (ignoreErrors : Bool) (heval : EvaluateReturns env) :
    ∃ argsCopy, evaluateArgs env request payloadValues ignoreErrors = .ok argsCopy ∧
      getArgsCopy env request input payloadValues ignoreErrors
        = .ok ⟨argsCopy.set "Port" (.str input.Port), []⟩ := by
  obtain ⟨out, hout⟩ := evaluateArgsLoop_returns env payloadValues ignoreErrors request.Args []
    (Evaluates_of_returns env payloadValues request.Args heval)
  have he : evaluateArgs env request payloadValues ignoreErrors = .ok out := hout
  exact ⟨out, he, by simp only [getArgsCopy, he]⟩

/-- C10: when the evaluator of expressions returns no error, the sequential strategy
without stop at the first match returns no error and has issued exactly one probe for
each value set of the iterator, the i-th probe for the i-th value set, whatever the
interpreter answered to each of them: a value set is taken and a request is counted for
each. -/
theorem C10_sequential_sweep_runs_all (env : Env) (request : Request)
    (hostPort hostname : String) (input : Target) (payloadValues : GoMap)
    (sched : List Action) (st : State) (generator : PayloadGenerator)
    (heval : EvaluateReturns env)
    (hstop : shouldStopAtFirstMatch env request = false)
    (hgen : request.generator = some generator)
    (hthreads : ¬ request.Threads > 1) :
    ∃ st', dispatch env request hostPort hostname input payloadValues sched st
        = .ok (none, st') ∧
      st'.probes.map ProbeCall.payload
        = st.probes.map ProbeCall.payload ++ generator.NewIterator.remaining ∧
      st'.pulls = st.pulls + generator.NewIterator.Total ∧
      st'.requests = st.requests + generator.NewIterator.Total := by
  obtain ⟨st', hrun⟩ := sequentialLoop_returns env request hostPort input hostname
    payloadValues generator.NewIterator.remaining { st with gotMatches := false }
    (fun value _ => by
      obtain ⟨_, _, h⟩ := getArgsCopy_returns env request input
        (MergeMaps [value, payloadValues]) false heval
      exact ⟨_, h⟩)
  obtain ⟨h₁, h₂, h₃⟩ := sequentialLoop_runs_all env request hostPort input hostname
    payloadValues generator.NewIterator.remaining { st with gotMatches := false } st' hstop hrun
  refine ⟨st', ?_, h₁, h₂, h₃⟩
  simp only [dispatch, hgen, hthreads, and_false, if_false, hrun]

/-- C10 at work: the interpreter fails on each of the three probes of the sweep of `id`
over 1, 2, 3; three probes are issued, for 1, 2 and 3 in this order, each gives the
caller an event with an error, and the run returns no error. -/
theorem C10_sequential_sweep_runs_all_witness :
    EvaluateReturns demoEnv ∧
    shouldStopAtFirstMatch demoEnv demoFailingSweep = false ∧
    demoFailingSweep.generator
      = some ⟨[[("id", .str "1")], [("id", .str "2")], [("id", .str "3")]]⟩ ∧
    ¬ demoFailingSweep.Threads > 1 ∧
    (∀ args, demoEnv.jsExecute "fail" args = .error "boom") ∧
    (ExecuteWithResults demoEnv demoFailingSweep demoTarget [] [] [] State.init).toOption.map
      (fun r => (r.1, r.2.probes.map ProbeCall.payload,
        r.2.events.map (fun ev => ev.InternalEvent.has "error")))
      = some (none, [[("id", .str "1")], [("id", .str "2")], [("id", .str "3")]],
          [true, true, true]) ∧
    (∃ st', dispatch demoEnv demoFailingSweep "scanme.sh:22" "scanme.sh:22" demoTarget []
        [] State.init = .ok (none, st') ∧
      st'.probes.map ProbeCall.payload
        = State.init.probes.map ProbeCall.payload
          ++ (PayloadGenerator.mk [[("id", .str "1")], [("id", .str "2")],
            [("id", .str "3")]]).NewIterator.remaining ∧
      st'.pulls = State.init.pulls + (PayloadGenerator.mk [[("id", .str "1")],
        [("id", .str "2")], [("id", .str "3")]]).NewIterator.Total ∧
      st'.requests = State.init.requests + (PayloadGenerator.mk [[("id", .str "1")],
        [("id", .str "2")], [("id", .str "3")]]).NewIterator.Total) :=
  ⟨fun vVal _ => ⟨vVal, rfl⟩, by rfl, by rfl, by decide, fun _ => rfl, by rfl,
    C10_sequential_sweep_runs_all demoEnv demoFailingSweep "scanme.sh:22" "scanme.sh:22"
      demoTarget [] [] State.init _ (fun vVal _ => ⟨vVal, rfl⟩) (by rfl) (by rfl)
      (by decide)⟩

/-- C17: when the evaluator of expressions returns no error, the parallel strategy
returns under every interleaving, whether or not a match has cancelled the run, and has
then taken every value set of the iterator, one for each worker it spawned; and in every
pool an interleaving reaches, the value sets taken so far are an initial stretch of the
iterator's sequence, taken by the one dispatcher. -/
theorem C17_parallel_dispatcher_exhausts (env : Env) (request : Request)
    (hostPort hostname : String) (input : Target) (payloadValues : GoMap)
    (sched : List Action) (st : State) (generator : PayloadGenerator)
    (heval : EvaluateReturns env)
    (hgen : request.generator = some generator) :
    (∃ st', executeRequestParallel env request hostPort hostname input payloadValues forward
        sched st = .ok st' ∧
      st'.pulls = st.pulls + generator.NewIterator.Total) ∧
    (∀ limit moves ps,
      runSchedule env request hostPort input hostname payloadValues forward limit moves
        (parallelStart generator st) = .ok ps →
      ∃ taken, taken ++ ps.iterator = generator.NewIterator.remaining ∧
        st.pulls + taken.length = ps.st.pulls) := by
  constructor
  · obtain ⟨st', hrun⟩ := executeRequestParallel_returns env request hostPort hostname input
      payloadValues sched st generator hgen
      (fun value _ => by
        obtain ⟨_, _, h⟩ := getArgsCopy_returns env request input
          (MergeMaps [value, payloadValues]) false heval
        exact ⟨_, h⟩)
    exact ⟨st', hrun, executeRequestParallel_pulls env request hostPort hostname input
      payloadValues sched st st' generator hgen hrun⟩
  · intro limit moves ps hreach
    exact Pulled_runSchedule env request hostPort input hostname payloadValues limit st.pulls
      generator.NewIterator.remaining moves (parallelStart generator st) ps ⟨[], rfl, rfl⟩
      hreach

/-- C17 at work: in the race scenario the first worker matches and cancels after two
value sets are taken; the run still takes the third, and issues no probe but the
first. -/
theorem C17_parallel_dispatcher_exhausts_witness :
    EvaluateReturns demoEnv ∧
    demoRaceRequest.generator
      = some ⟨[[("id", .str "2")], [("id", .str "2")], [("id", .str "3")]]⟩ ∧
    (runSchedule demoEnv demoRaceRequest "scanme.sh:22" demoTarget "scanme.sh:22" [] forward 2
        [.spawn, .spawn, .check 0, .run 0]
        (parallelStart ⟨[[("id", .str "2")], [("id", .str "2")], [("id", .str "3")]]⟩
          State.init)).toOption.map (fun ps => (ps.cancelled, ps.st.pulls, ps.iterator))
      = some (true, 2, [[("id", .str "3")]]) ∧
    (ExecuteWithResults demoEnv demoRaceRequest demoTarget [] []
        [.spawn, .spawn, .check 0, .run 0] State.init).toOption.map
      (fun r => (r.2.pulls, r.2.probes.map ProbeCall.payload))
      = some (3, [[("id", .str "2")]]) ∧
    (∃ st', executeRequestParallel demoEnv demoRaceRequest "scanme.sh:22" "scanme.sh:22"
        demoTarget [] forward [.spawn, .spawn, .check 0, .run 0] State.init = .ok st' ∧
      st'.pulls = State.init.pulls + (PayloadGenerator.mk [[("id", .str "2")],
        [("id", .str "2")], [("id", .str "3")]]).NewIterator.Total) :=
  ⟨fun vVal _ => ⟨vVal, rfl⟩, by rfl, by rfl, by rfl,
    (C17_parallel_dispatcher_exhausts demoEnv demoRaceRequest "scanme.sh:22" "scanme.sh:22"
      demoTarget [] [.spawn, .spawn, .check 0, .run 0] State.init _
      (fun vVal _ => ⟨vVal, rfl⟩) (by rfl)).1⟩

end Javascript

namespace Signer

/-! ## The template signer -/

theorem matchDigest_head (s m : List Char) (h : matchDigest s = some m) :
    ∃ rest, m = '#' :: rest := by
  match s, h with
  | c₀ :: s₁ :: rest, h =>
    simp only [matchDigest] at h
    split_ifs at h with h₁
    split at h
    · split_ifs at h
      simp only [Option.some.injEq] at h
      exact ⟨_, by rw [← h, h₁.1]⟩
    · exact absurd h (by simp)
  | [], h => simp [matchDigest] at h
  | [_], h => simp [matchDigest] at h

theorem findDigest_head (atLineStart : Bool) (s m : List Char)
    (h : findDigest atLineStart s = some m) : ∃ rest, m = '#' :: rest := by
  induction s generalizing atLineStart with
  | nil => simp [findDigest] at h
  | cons c cs ih =>
    simp only [findDigest] at h
    split at h
    · next m' hm =>
      simp only [Option.some.injEq] at h
      subst h
      split_ifs at hm
      exact matchDigest_head _ _ hm
    · exact ih _ h

/-- A digest line found in the data starts with `#`. -/
theorem GetSignatureFromData_head (data : String) (h : GetSignatureFromData data ≠ "") :
    ∃ rest, (GetSignatureFromData data).data = '#' :: rest := by
  simp only [GetSignatureFromData] at h ⊢
  cases hf : findDigest true data.data with
  | none => simp [hf] at h
  | some m =>
    obtain ⟨rest, hm⟩ := findDigest_head _ _ _ hf
    exact ⟨rest, by simp [hm]⟩

theorem dropWhile_ne_nil (p : Char → Bool) (l : List Char) (x : Char) (hx : x ∈ l)
    (hp : p x = false) : l.dropWhile p ≠ [] := by
  induction l with
  | nil => simp at hx
  | cons c cs ih =>
    rcases List.mem_cons.mp hx with heq | hmem
    · subst heq
      simp [List.dropWhile, hp]
    · simp only [List.dropWhile]
      split
      · exact ih hmem
      · simp

/-- A text that starts with `#` is not blank. -/
theorem TrimSpace_ne_empty (s : String) (rest : List Char) (h : s.data = '#' :: rest) :
    TrimSpace s ≠ "" := by
  have hsharp : isSpace '#' = false := by decide
  intro hempty
  have hdata : (TrimSpace s).data = [] := by rw [hempty]
  simp only [TrimSpace, List.reverse_eq_nil_iff] at hdata
  have h₁ : s.data.dropWhile isSpace = '#' :: rest := by
    rw [h]
    simp [List.dropWhile, hsharp]
  rw [h₁] at hdata
  exact dropWhile_ne_nil isSpace _ '#' (by simp) hsharp hdata

theorem SplitN_of_no_at (s : String) (h : '@' ∉ s.data) : SplitN s = [s] := by
  have hd : s.data.dropWhile (fun c => c != '@') = [] := by
    rw [List.dropWhile_eq_nil_iff]
    intro c hc
    have : c ≠ '@' := fun heq => h (heq ▸ hc)
    simpa using this
  simp only [SplitN, hd]

theorem SplitN_of_at (s : String) (before existing : List Char)
    (h : s.data = before ++ '@' :: existing) (hb : '@' ∉ before) :
    SplitN s = [⟨before⟩, ⟨existing⟩] := by
  have hall : ∀ c ∈ before, (fun c => c != '@') c = true := by
    intro c hc
    have : c ≠ '@' := fun heq => hb (heq ▸ hc)
    simpa using this
  have hd : s.data.dropWhile (fun c => c != '@') = '@' :: existing := by
    rw [h, List.dropWhile_append_of_pos hall]
    simp [List.dropWhile]
  have ht : s.data.takeWhile (fun c => c != '@') = before := by
    rw [h, List.takeWhile_append_of_pos hall]
    simp [List.takeWhile]
  simp only [SplitN, hd, ht]

/-- The method `Sign` on a template with a code protocol section whose data holds no
`@` in its digest line. -/
theorem Sign_no_fragment (lib : Library) (t : TemplateSigner) (rand₀ rand₁ rand₂ : String)
    (data : String) (tmpl : SignableTemplate) (hcode : tmpl.HasCodeProtocol = true)
    (hdigest : GetSignatureFromData data ≠ "") (hat : '@' ∉ (GetSignatureFromData data).data) :
    t.Sign lib rand₀ rand₁ rand₂ data tmpl
      = ("", some "re-signing code protocol templates not allowed: no fragment found") := by
  obtain ⟨rest, hhead⟩ := GetSignatureFromData_head data hdigest
  simp only [TemplateSigner.Sign, hcode, if_true, checkFragment, SplitN_of_no_at _ hat,
    TrimSpace_ne_empty _ rest hhead, ne_eq, not_false_eq_true]

/-- The method `Sign` on a template with a code protocol section whose digest line
holds `existing` after its first `@`. -/
theorem Sign_fragment (lib : Library) (t : TemplateSigner) (rand₀ rand₁ rand₂ : String)
    (data : String) (tmpl : SignableTemplate) (hcode : tmpl.HasCodeProtocol = true)
    (before existing : List Char) (hb : '@' ∉ before)
    (hsplit : (GetSignatureFromData data).data = before ++ '@' :: existing) :
    t.Sign lib rand₀ rand₁ rand₂ data tmpl
      = if (t.GetUserFragment lib rand₀).1 ≠ ⟨existing⟩ then
          ("", some ("fragment mismatch: expected '" ++ (t.GetUserFragment lib rand₀).1
            ++ "' got '" ++ ⟨existing⟩ ++ "'"))
        else signTemplate lib t rand₁ rand₂ data tmpl := by
  simp only [TemplateSigner.Sign, hcode, if_true, checkFragment, SplitN_of_at _ _ _ hsplit hb]
  split_ifs <;> rfl

/-- Every text has no `@`, or a first one. -/
theorem at_split (s : List Char) :
    '@' ∉ s ∨ ∃ before existing, '@' ∉ before ∧ s = before ++ '@' :: existing := by
  induction s with
  | nil => exact Or.inl (by simp)
  | cons c cs ih =>
    by_cases hc : c = '@'
    · exact Or.inr ⟨[], cs, by simp, by simp [hc]⟩
    · rcases ih with hno | ⟨before, existing, hb, hs⟩
      · exact Or.inl (by
          simp only [List.mem_cons, not_or]
          exact ⟨fun h => hc h.symm, hno⟩)
      · exact Or.inr ⟨c :: before, existing, by
          simp only [List.mem_cons, not_or]
          exact ⟨fun h => hc h.symm, hb⟩, by simp [hs]⟩

/-- C16: for a template with a code protocol section whose data holds a digest line,
`Sign` returns no error only if the digest line holds an `@` followed, up to its end,
by the fragment `GetUserFragment` returns to `Sign`; when the digest line holds no `@`,
and when what follows its first `@` is another text than that fragment, `Sign` returns
an error and the empty signature. For a template without a code protocol section `Sign`
is the signing of the data without its digest lines and of the imports, so that it
returns no error whenever the imports are read and `sign` returns none, whatever
digest line the data holds. -/
theorem C16_resign_requires_fragment (lib : Library) (t : TemplateSigner)
    (rand₀ rand₁ rand₂ : String) (data : String) (tmpl : SignableTemplate) :
    (tmpl.HasCodeProtocol = true → GetSignatureFromData data ≠ "" →
      (∀ sig, t.Sign lib rand₀ rand₁ rand₂ data tmpl = (sig, none) →
        ∃ before, '@' ∉ before ∧
          (GetSignatureFromData data).data
            = before ++ '@' :: (t.GetUserFragment lib rand₀).1.data) ∧
      ('@' ∉ (GetSignatureFromData data).data →
        (t.Sign lib rand₀ rand₁ rand₂ data tmpl).1 = "" ∧
        (t.Sign lib rand₀ rand₁ rand₂ data tmpl).2
          = some "re-signing code protocol templates not allowed: no fragment found") ∧
      (∀ before existing, '@' ∉ before →
        (GetSignatureFromData data).data = before ++ '@' :: existing →
        existing ≠ (t.GetUserFragment lib rand₀).1.data →
        (t.Sign lib rand₀ rand₁ rand₂ data tmpl).1 = "" ∧
        (t.Sign lib rand₀ rand₁ rand₂ data tmpl).2
          = some ("fragment mismatch: expected '" ++ (t.GetUserFragment lib rand₀).1
              ++ "' got '" ++ ⟨existing⟩ ++ "'"))) ∧
    (tmpl.HasCodeProtocol = false →
      t.Sign lib rand₀ rand₁ rand₂ data tmpl = signTemplate lib t rand₁ rand₂ data tmpl ∧
      ∀ buff sig,
        appendImports lib tmpl.GetFileImports (RemoveSignatureFromData data) = .ok buff →
        t.sign lib rand₁ rand₂ buff = (sig, none) →
        t.Sign lib rand₀ rand₁ rand₂ data tmpl = (sig, none)) := by
  constructor
  · intro hcode hdigest
    have hmismatch : ∀ before existing, '@' ∉ before →
        (GetSignatureFromData data).data = before ++ '@' :: existing →
        existing ≠ (t.GetUserFragment lib rand₀).1.data →
        t.Sign lib rand₀ rand₁ rand₂ data tmpl
          = ("", some ("fragment mismatch: expected '" ++ (t.GetUserFragment lib rand₀).1
              ++ "' got '" ++ ⟨existing⟩ ++ "'")) := by
      intro before existing hb hsplit hne
      rw [Sign_fragment lib t rand₀ rand₁ rand₂ data tmpl hcode before existing hb hsplit]
      have hne' : (t.GetUserFragment lib rand₀).1 ≠ ⟨existing⟩ := by
        intro heq
        exact hne (by rw [heq])
      simp only [ne_eq, hne', not_false_eq_true, if_true]
    refine ⟨?_, ?_, ?_⟩
    · intro sig hsig
      rcases at_split (GetSignatureFromData data).data with hno | ⟨before, existing, hb, hs⟩
      · rw [Sign_no_fragment lib t rand₀ rand₁ rand₂ data tmpl hcode hdigest hno] at hsig
        simp at hsig
      · by_cases hne : existing = (t.GetUserFragment lib rand₀).1.data
        · exact ⟨before, hb, by rw [hs, hne]⟩
        · rw [hmismatch before existing hb hs hne] at hsig
          simp at hsig
    · intro hno
      rw [Sign_no_fragment lib t rand₀ rand₁ rand₂ data tmpl hcode hdigest hno]
      exact ⟨rfl, rfl⟩
    · intro before existing hb hs hne
      rw [hmismatch before existing hb hs hne]
      exact ⟨rfl, rfl⟩
  · intro hplain
    have hsign : t.Sign lib rand₀ rand₁ rand₂ data tmpl
        = signTemplate lib t rand₁ rand₂ data tmpl := by
      simp only [TemplateSigner.Sign, hplain, Bool.false_eq_true, if_false]
    refine ⟨hsign, ?_⟩
    intro buff sig hbuff hsig
    rw [hsign]
    simp only [signTemplate, hbuff, hsig]

/-- C16 at work, with the fragment `key/h(pub)/r0` returned to `Sign`: a code template
whose digest line ends in that fragment is signed; one whose digest line has no `@`,
and one whose digest line ends in another fragment, are refused; a template without
code protocol is signed whatever its digest line. -/
theorem C16_resign_requires_fragment_witness :
    (demoSigner.GetUserFragment demoLibrary "r0").1 = "key/h(pub)/r0" ∧
    GetSignatureFromData "id: demo\n# digest: 00ff@key/h(pub)/r0\n"
      = "# digest: 00ff@key/h(pub)/r0" ∧
    demoSigner.Sign demoLibrary "r0" "r1" "r2"
        "id: demo\n# digest: 00ff@key/h(pub)/r0\n" demoCodeTemplate
      = ("# digest: key/h(id: demo\nprint(1))/r1@key/h(pub)/r2", none) ∧
    (∃ before, '@' ∉ before ∧
      (GetSignatureFromData "id: demo\n# digest: 00ff@key/h(pub)/r0\n").data
        = before ++ '@' :: (demoSigner.GetUserFragment demoLibrary "r0").1.data) ∧
    demoSigner.Sign demoLibrary "r0" "r1" "r2" "id: demo\n# digest: 00ff\n" demoCodeTemplate
      = ("", some "re-signing code protocol templates not allowed: no fragment found") ∧
    demoSigner.Sign demoLibrary "r0" "r1" "r2"
        "id: demo\n# digest: 00ff@key/h(pub)/r9\n" demoCodeTemplate
      = ("", some "fragment mismatch: expected 'key/h(pub)/r0' got 'key/h(pub)/r9'") ∧
    demoSigner.Sign demoLibrary "r0" "r1" "r2" "id: demo\n# digest: 00ff\n" demoPlainTemplate
      = ("# digest: key/h(id: demo)/r1@key/h(pub)/r2", none) :=
  ⟨by rfl, by rfl, by rfl,
    ((C16_resign_requires_fragment demoLibrary demoSigner "r0" "r1" "r2"
      "id: demo\n# digest: 00ff@key/h(pub)/r0\n" demoCodeTemplate).1 (by rfl) (by decide)).1
      _ (by rfl),
    by rfl, by rfl, by rfl⟩

end Signer

namespace Smb

/-! ## The SMBGhost probe -/

theorem make_four : make 4 = .ok ⟨[0, 0, 0, 0], 4⟩ := rfl

theorem make_length (length : Nat) :
    make (length : Int) = .ok ⟨List.replicate length 0, length⟩ := by
  simp [make]

/-- A read into a slice followed by the cut `b[:n]` at the count read: the cut does not
panic, has the capacity of `b`, and its elements are the bytes read. -/
theorem read_cut (received : List Nat) (b : Slice) (hb : b.len ≤ b.cap) :
    ∃ s, (Read received b).1.slice 0 (Read received b).2 = .ok s ∧
      s.cap = b.cap ∧ s.len = min received.length b.len ∧
      s.bytes = received.take b.len := by
  have hn : min received.length b.len ≤ b.array.length := le_trans (min_le_right _ _) hb
  have hcap : (received.take (min received.length b.len)
      ++ b.array.drop (min received.length b.len)).length = b.array.length := by
    simp only [List.length_append, List.length_take, List.length_drop]
    omega
  refine ⟨⟨received.take (min received.length b.len)
      ++ b.array.drop (min received.length b.len), min received.length b.len⟩, ?_, hcap, rfl, ?_⟩
  · simp only [Slice.slice, Read, Slice.cap, hcap]
    have h₁ : ¬ min received.length b.len > b.array.length := by omega
    simp [h₁]
  · simp only [Slice.bytes]
    rw [List.take_append_of_le_length (by simp)]
    rw [List.take_take]
    by_cases h : received.length ≤ b.len
    · rw [min_eq_left h, min_self, List.take_of_length_le (le_refl _), List.take_of_length_le h]
    · have h' : b.len ≤ received.length := by omega
      rw [min_eq_right h', min_self]

/-- The cut `data[lo:hi]` panics when `hi` is past the capacity. -/
theorem slice_panics (s : Slice) (lo hi : Nat) (h : s.cap < hi) :
    s.slice lo hi = .error "panic: runtime error: slice bounds out of range" := by
  simp [Slice.slice, h]

/-- The cut `data[lo:hi]` returns when `lo ≤ hi ≤ cap(data)`. -/
theorem slice_returns (s : Slice) (lo hi : Nat) (h₁ : lo ≤ hi) (h₂ : hi ≤ s.cap) :
    s.slice lo hi = .ok ⟨s.array.drop lo, hi - lo⟩ := by
  have h₃ : ¬ hi > s.cap := by omega
  have h₄ : ¬ lo > hi := by omega
  simp [Slice.slice, h₃, h₄]

/-- With an announced length below 70 and no error on the way, `DetectSMBGhost` panics
at the cut `data[68:70]`, whatever the peer delivers. -/
theorem DetectSMBGhost_panics_of_short
    (StructsUnpack : String → List Nat → Except String (List Int)) (peer : Peer) (length : Nat)
    (hdial : peer.dialErr = none) (hwrite : peer.writeErr = none)
    (hbody : peer.bodyErr = none)
    (hunpack : StructsUnpack ">I" (peer.header.take 4) = .ok [(length : Int)])
    (hshort : length < 70) :
    DetectSMBGhost StructsUnpack peer
      = .error "panic: runtime error: slice bounds out of range" := by
  obtain ⟨head, hhead, _, _, hbytes⟩ := read_cut peer.header ⟨[0, 0, 0, 0], 4⟩ (by decide)
  obtain ⟨data, hdata, hcap, _, _⟩ :=
    read_cut peer.body ⟨List.replicate length 0, length⟩ (by simp [Slice.cap])
  have hcap' : data.cap < 70 := by
    rw [hcap]
    simpa [Slice.cap] using hshort
  simp only [DetectSMBGhost, hdial, hwrite, hbody, make_four, hhead, hbytes, hunpack,
    List.length_singleton, ne_eq, not_true_eq_false, if_false, List.headD_cons, make_length,
    hdata, slice_panics data 68 70 hcap']

/-- With an announced length of 72 or more, `DetectSMBGhost` returns, whatever the peer
delivers and however few bytes are read. -/
theorem DetectSMBGhost_returns_of_long
    (StructsUnpack : String → List Nat → Except String (List Int)) (peer : Peer) (length : Nat)
    (hunpack : StructsUnpack ">I" (peer.header.take 4) = .ok [(length : Int)])
    (hlong : 72 ≤ length) :
    ∃ flag err, DetectSMBGhost StructsUnpack peer = .ok (flag, err) := by
  obtain ⟨head, hhead, _, _, hbytes⟩ := read_cut peer.header ⟨[0, 0, 0, 0], 4⟩ (by decide)
  obtain ⟨data, hdata, hcap, _, _⟩ :=
    read_cut peer.body ⟨List.replicate length 0, length⟩ (by simp [Slice.cap])
  have hcap' : 72 ≤ data.cap := by
    rw [hcap]
    simpa [Slice.cap] using hlong
  cases hdial : peer.dialErr with
  | some err => exact ⟨false, some err, by simp only [DetectSMBGhost, hdial]⟩
  | none =>
    cases hwrite : peer.writeErr with
    | some err => exact ⟨false, some err, by simp only [DetectSMBGhost, hdial, hwrite]⟩
    | none =>
      cases hbody : peer.bodyErr with
      | some err =>
        exact ⟨false, some err, by
          simp only [DetectSMBGhost, hdial, hwrite, hbody, make_four, hhead, hbytes, hunpack,
            List.length_singleton, ne_eq, not_true_eq_false, if_false, List.headD_cons,
            make_length]⟩
      | none =>
        simp only [DetectSMBGhost, hdial, hwrite, hbody, make_four, hhead, hbytes, hunpack,
          List.length_singleton, ne_eq, not_true_eq_false, if_false, List.headD_cons,
          make_length, hdata, slice_returns data 68 70 (by omega) (by omega),
          slice_returns data 70 72 (by omega) (by omega)]
        split_ifs
        · exact ⟨_, _, rfl⟩
        · exact ⟨_, _, rfl⟩
        · exact ⟨_, _, rfl⟩

/-- C24 at the failing input: the peer announces 10 body bytes and delivers them, and
`DetectSMBGhost` does not return a boolean or an error: it panics at `data[68:70]`.
It panics as well at `data[70:72]` with 71 bytes announced whose bytes 68 and 69 are
those looked for, whereas with 72 bytes announced and none delivered it returns. -/
theorem C24_short_response_panics :
    DetectSMBGhost bigEndian (demoPeer 10 (List.replicate 10 255))
      = .error "panic: runtime error: slice bounds out of range" ∧
    DetectSMBGhost bigEndian (demoPeer 71 (List.replicate 68 0 ++ [17, 3, 2]))
      = .error "panic: runtime error: slice bounds out of range" ∧
    DetectSMBGhost bigEndian (demoPeer 71 (List.replicate 68 0 ++ [0, 3, 2]))
      = .ok (false, none) ∧
    DetectSMBGhost bigEndian (demoPeer 72 []) = .ok (false, none) ∧
    DetectSMBGhost bigEndian (demoPeer 72 (List.replicate 68 0 ++ [17, 3, 2, 0]))
      = .ok (true, none) :=
  ⟨by rfl, by rfl, by rfl, by rfl, by rfl⟩

end Smb
